import Mathlib

/-!
Bergelmir, a Gemini capsule server.

A shallow embedding of the request engine (`gemini.go`) and of the certificate
manager (`tls.go`) of Bergelmir, together with the parts of the Go standard
library they call, and the properties proved about them.

Go strings are byte sequences; they are modelled as lists of natural numbers
(one number per byte).
-/

namespace Bergelmir

/-! ## Go strings -/

/-- A Go string: its bytes, in order. -/
abbrev Str := List Nat

/-- UTF-8 encoding of one code point. -/
def utf8EncodeRune (c : Nat) : Str :=
  if c < 0x80 then [c]
  else if c < 0x800 then [0xC0 + c / 64, 0x80 + c % 64]
  else if c < 0x10000 then [0xE0 + c / 4096, 0x80 + (c / 64) % 64, 0x80 + c % 64]
  else [0xF0 + c / 262144, 0x80 + (c / 4096) % 64, 0x80 + (c / 64) % 64, 0x80 + c % 64]

/-- UTF-8 bytes of a list of characters. -/
def goBytes : List Char → Str
  | [] => []
  | c :: cs => utf8EncodeRune c.toNat ++ goBytes cs

/-- The Go string written as the literal `s` (its UTF-8 bytes). -/
def goStr (s : String) : Str := goBytes s.toList

/-- Go `strings.HasPrefix`. -/
def hasPrefix : Str → Str → Bool
  | _, [] => true
  | [], _ :: _ => false
  | c :: cs, p :: ps => c == p && hasPrefix cs ps

/-- Go `strings.HasSuffix`. -/
def hasSuffix (s suffix : Str) : Bool := hasPrefix s.reverse suffix.reverse

/-- Search of `strings.Index` from offset `i` on. -/
def indexFrom (sep : Str) : Str → Nat → Int
  | [], i => if sep = [] then (i : Int) else -1
  | c :: cs, i => if hasPrefix (c :: cs) sep then (i : Int) else indexFrom sep cs (i + 1)

/-- Go `strings.Index`: the offset of the first occurrence of `sep` in `s`, or `-1`. -/
def stringsIndex (s sep : Str) : Int := indexFrom sep s 0

/-- Go `strings.Contains`. -/
def stringsContains (s sep : Str) : Bool := decide (0 ≤ stringsIndex s sep)

/-- Scan of `strings.LastIndexByte`: `acc` is the last offset seen so far. -/
def lastIndexByteFrom (c : Nat) : Str → Nat → Int → Int
  | [], _, acc => acc
  | x :: xs, i, acc => lastIndexByteFrom c xs (i + 1) (if x = c then (i : Int) else acc)

/-- Go `strings.LastIndexByte` (and `strings.LastIndex` with a one-byte separator). -/
def lastIndexByte (s : Str) (c : Nat) : Int := lastIndexByteFrom c s 0 (-1)

/-- Number of occurrences of the byte `c` (Go `strings.Count` with a one-byte separator). -/
def countByte (s : Str) (c : Nat) : Nat := (s.filter (fun x => x == c)).length

/-- Go `strings.Cut` with a one-byte separator: the text before and after the first
occurrence of `c`, and whether `c` occurs. -/
def cutByte (c : Nat) : Str → Str × Str × Bool
  | [] => ([], [], false)
  | x :: xs =>
    if x = c then ([], xs, true)
    else match cutByte c xs with
      | (before, after, found) => (x :: before, after, found)

/-- Go `strings.Split` with a one-byte separator. -/
def splitByte (c : Nat) : Str → List Str
  | [] => [[]]
  | x :: xs =>
    if x = c then [] :: splitByte c xs
    else match splitByte c xs with
      | [] => [[x]]
      | e :: es => (x :: e) :: es

/-- Digits of `strconv.Itoa` for a natural number, with `fuel` bounding the number of digits. -/
def natDigits : Nat → Nat → Str → Str
  | 0, _, acc => acc
  | fuel + 1, n, acc =>
    if n < 10 then (48 + n) :: acc else natDigits fuel (n / 10) ((48 + n % 10) :: acc)

/-- Go `strconv.Itoa`. -/
def strconvItoa (i : Int) : Str :=
  if i < 0 then 45 :: natDigits (i.natAbs + 1) i.natAbs [] else natDigits (i.natAbs + 1) i.natAbs []

/-! ## `unicode/utf8` -/

/-- The scanner of `utf8.ValidString`: `pending` continuation bytes are still due, the
next of which must lie in `lo..hi` (the accept range that the leading byte selects). -/
def utf8Scan : Nat → Nat → Nat → Str → Bool
  | pending, _, _, [] => pending == 0
  | pending, lo, hi, b :: rest =>
    if pending = 0 then
      if b < 0x80 then utf8Scan 0 0 0 rest
      else if 0xC2 ≤ b ∧ b ≤ 0xDF then utf8Scan 1 0x80 0xBF rest
      else if b = 0xE0 then utf8Scan 2 0xA0 0xBF rest
      else if b = 0xED then utf8Scan 2 0x80 0x9F rest
      else if 0xE1 ≤ b ∧ b ≤ 0xEF then utf8Scan 2 0x80 0xBF rest
      else if b = 0xF0 then utf8Scan 3 0x90 0xBF rest
      else if b = 0xF4 then utf8Scan 3 0x80 0x8F rest
      else if 0xF1 ≤ b ∧ b ≤ 0xF3 then utf8Scan 3 0x80 0xBF rest
      else false
    else if lo ≤ b ∧ b ≤ hi then utf8Scan (pending - 1) 0x80 0xBF rest
    else false

/-- Go `utf8.ValidString`: whether the bytes are a sequence of well-formed UTF-8
encodings (no overlong forms, no surrogates, nothing above U+10FFFF). -/
def utf8ValidString (s : Str) : Bool := utf8Scan 0 0 0 s

/-! ## `path/filepath` (Unix) -/

/-- The path separator `/`. -/
def Separator : Nat := 47

/-- Backtracking step of `filepath.Clean` on the reversed output buffer: drops bytes
until the byte just dropped is a separator or the buffer is down to `dotdot` bytes. -/
def cleanBacktrack (dotdot : Nat) : Str → Str
  | [] => []
  | c :: rest => if dotdot < rest.length ∧ c ≠ Separator then cleanBacktrack dotdot rest else rest

/-- One path element of the loop of `filepath.Clean`; the state is the output buffer and
the offset `dotdot` below which `..` may not backtrack. -/
def cleanStep (rooted : Bool) (st : Str × Nat) (elem : Str) : Str × Nat :=
  let out := st.1
  let dotdot := st.2
  if elem = [] then st
  else if elem = [46] then st
  else if elem = [46, 46] then
    if dotdot < out.length then ((cleanBacktrack dotdot out.reverse).reverse, dotdot)
    else if !rooted then
      let out1 := (if 0 < out.length then out ++ [Separator] else out) ++ [46, 46]
      (out1, out1.length)
    else st
  else
    ((if (rooted && out.length != 1) || (!rooted && out.length != 0)
        then out ++ [Separator] else out) ++ elem, dotdot)

/-- Go `filepath.Clean` on Unix. -/
def filepathClean (path : Str) : Str :=
  match path with
  | [] => [46]
  | c :: rest =>
    let rooted := c == Separator
    let init : Str × Nat := if rooted then ([Separator], 1) else ([], 0)
    let out := ((splitByte Separator (if rooted then rest else c :: rest)).foldl
      (cleanStep rooted) init).1
    if out = [] then [46] else out

/-- Result of the element-matching loop of `filepath.Rel`: what is left of `base` from
`b0` on, what is left of `targ` from `t0` on, and `base[b0:bi]`. -/
def relLoop : Nat → Str → Str → Str × Str × Str
  | 0, base, targ => (base, targ, [])
  | fuel + 1, base, targ =>
    if base = [] ∨ targ = [] then (base, targ, [])
    else
      let bElem := base.takeWhile (fun c => c != Separator)
      let tElem := targ.takeWhile (fun c => c != Separator)
      if tElem ≠ bElem then (base, targ, bElem)
      else
        relLoop fuel ((base.drop bElem.length).drop 1) ((targ.drop tElem.length).drop 1)

/-- The separators and `..` elements `filepath.Rel` writes after the first `..`. -/
def relUps : Nat → Str
  | 0 => []
  | n + 1 => Separator :: 46 :: 46 :: relUps n

/-- Go `filepath.Rel` on Unix; `none` stands for the error
`Rel: can't make targpath relative to basepath`. -/
def filepathRel (basepath targpath : Str) : Option Str :=
  let base0 := filepathClean basepath
  let targ := filepathClean targpath
  if targ = base0 then some [46]
  else
    let base := if base0 = [46] then [] else base0
    let baseSlashed := hasPrefix base [Separator] && decide (0 < base.length)
    let targSlashed := hasPrefix targ [Separator] && decide (0 < targ.length)
    if baseSlashed != targSlashed then none
    else
      match relLoop (base.length + 1) base targ with
      | (baseRest, targRest, bElem) =>
        if bElem = [46, 46] then none
        else if baseRest ≠ [] then
          some ([46, 46] ++ relUps (countByte baseRest Separator)
            ++ (if targRest ≠ [] then Separator :: targRest else []))
        else some targRest

/-- Scan of `filepath.Ext` from the last byte backwards; `acc` is the suffix passed so far. -/
def extScan : Str → Str → Str
  | [], _ => []
  | c :: rest, acc =>
    if c = Separator then []
    else if c = 46 then c :: acc
    else extScan rest (c :: acc)

/-- Go `filepath.Ext`: the suffix beginning at the final dot in the final element of
`path`, or the empty string when there is none. -/
def filepathExt (path : Str) : Str := extScan path.reverse []

/-! ## `net/url` -/

/-- The escaping modes of `net/url`. -/
inductive Encoding where
  | encodePath
  | encodePathSegment
  | encodeHost
  | encodeZone
  | encodeUserPassword
  | encodeQueryComponent
  | encodeFragment
deriving DecidableEq, Repr

/-- ASCII letters and digits. -/
def isAlnum (c : Nat) : Bool :=
  decide ((97 ≤ c ∧ c ≤ 122) ∨ (65 ≤ c ∧ c ≤ 90) ∨ (48 ≤ c ∧ c ≤ 57))

/-- Go `ishex`. -/
def ishex (c : Nat) : Bool :=
  decide ((48 ≤ c ∧ c ≤ 57) ∨ (97 ≤ c ∧ c ≤ 102) ∨ (65 ≤ c ∧ c ≤ 70))

/-- Go `unhex`. -/
def unhex (c : Nat) : Nat :=
  if 48 ≤ c ∧ c ≤ 57 then c - 48
  else if 97 ≤ c ∧ c ≤ 102 then c - 97 + 10
  else if 65 ≤ c ∧ c ≤ 70 then c - 65 + 10
  else 0

/-- Go `shouldEscape`: whether byte `c` must be percent-encoded in the given mode. -/
def shouldEscape (c : Nat) (mode : Encoding) : Bool :=
  if isAlnum c then false
  else if (mode = Encoding.encodeHost ∨ mode = Encoding.encodeZone) ∧
      c ∈ [33, 36, 38, 39, 40, 41, 42, 43, 44, 59, 61, 58, 91, 93, 60, 62, 34] then false
  else if c ∈ [45, 95, 46, 126] then false
  else if c ∈ [36, 38, 43, 44, 47, 58, 59, 61, 63, 64] ∧ mode = Encoding.encodePath then
    decide (c = 63)
  else if c ∈ [36, 38, 43, 44, 47, 58, 59, 61, 63, 64] ∧ mode = Encoding.encodePathSegment then
    decide (c = 47 ∨ c = 59 ∨ c = 44 ∨ c = 63)
  else if c ∈ [36, 38, 43, 44, 47, 58, 59, 61, 63, 64] ∧ mode = Encoding.encodeUserPassword then
    decide (c = 64 ∨ c = 47 ∨ c = 63 ∨ c = 58)
  else if c ∈ [36, 38, 43, 44, 47, 58, 59, 61, 63, 64] ∧ mode = Encoding.encodeQueryComponent then
    true
  else if c ∈ [36, 38, 43, 44, 47, 58, 59, 61, 63, 64] ∧ mode = Encoding.encodeFragment then
    false
  else if mode = Encoding.encodeFragment ∧ c ∈ [33, 40, 41, 42] then false
  else true

/-- First pass of Go `unescape`: every `%` is followed by two hex digits, and the
restrictions of the host and zone modes hold. -/
def unescapeCheck (mode : Encoding) : Str → Bool
  | [] => true
  | c :: rest =>
    if c = 37 then
      match rest with
      | h1 :: h2 :: rest2 =>
        if !(ishex h1 && ishex h2) then false
        else if mode = Encoding.encodeHost ∧ unhex h1 < 8 ∧ [c, h1, h2] ≠ [37, 50, 53] then false
        else if mode = Encoding.encodeZone ∧ [c, h1, h2] ≠ [37, 50, 53]
            ∧ unhex h1 * 16 + unhex h2 ≠ 32
            ∧ shouldEscape (unhex h1 * 16 + unhex h2) Encoding.encodeHost = true then false
        else unescapeCheck mode rest2
      | _ => false
    else if c = 43 then unescapeCheck mode rest
    else if (mode = Encoding.encodeHost ∨ mode = Encoding.encodeZone) ∧ c < 0x80
        ∧ shouldEscape c Encoding.encodeHost = true then false
    else unescapeCheck mode rest

/-- Second pass of Go `unescape`: the decoded bytes. -/
def unescapeDecode (mode : Encoding) : Str → Str
  | [] => []
  | c :: rest =>
    if c = 37 then
      match rest with
      | h1 :: h2 :: rest2 => (unhex h1 * 16 + unhex h2) :: unescapeDecode mode rest2
      | _ => [c]
    else if c = 43 then
      (if mode = Encoding.encodeQueryComponent then 32 else 43) :: unescapeDecode mode rest
    else c :: unescapeDecode mode rest

/-- Go `unescape`; `none` stands for an `EscapeError` or `InvalidHostError`. -/
def unescape (s : Str) (mode : Encoding) : Option Str :=
  if unescapeCheck mode s then some (unescapeDecode mode s) else none

/-- An upper-case hexadecimal digit. -/
def upperhex (n : Nat) : Nat := if n < 10 then 48 + n else 65 + (n - 10)

/-- Go `escape`: percent-encodes the bytes that `shouldEscape` names. -/
def escape (s : Str) (mode : Encoding) : Str :=
  match s with
  | [] => []
  | c :: rest =>
    if shouldEscape c mode then
      if c = 32 ∧ mode = Encoding.encodeQueryComponent then 43 :: escape rest mode
      else 37 :: upperhex (c / 16) :: upperhex (c % 16) :: escape rest mode
    else c :: escape rest mode

/-- Go `validEncoded`: whether `s` is a valid encoded path or fragment. -/
def validEncoded (s : Str) (mode : Encoding) : Bool :=
  s.all (fun c =>
    if c ∈ [33, 36, 38, 39, 40, 41, 42, 43, 44, 59, 61, 58, 64] then true
    else if c ∈ [91, 93] then true
    else if c = 37 then true
    else !shouldEscape c mode)

/-- Go `validOptionalPort`: `port` is empty or a colon followed by digits only. -/
def validOptionalPort (port : Str) : Bool :=
  match port with
  | [] => true
  | c :: rest => c == 58 && rest.all (fun b => decide (48 ≤ b ∧ b ≤ 57))

/-- Go `validUserinfo`. -/
def validUserinfo (s : Str) : Bool :=
  s.all (fun r => isAlnum r ||
    decide (r ∈ [45, 46, 95, 58, 126, 33, 36, 38, 39, 40, 41, 42, 43, 44, 59, 61, 37, 64]))

/-- Go `stringContainsCTLByte`. -/
def stringContainsCTLByte (s : Str) : Bool := s.any (fun b => decide (b < 32 ∨ b = 0x7f))

/-- Go `url.Userinfo`. -/
structure Userinfo where
  username : Str
  password : Str
  passwordSet : Bool
deriving DecidableEq, Repr

/-- Go `url.URL`. -/
structure URL where
  Scheme : Str
  Opaque : Str
  User : Option Userinfo
  Host : Str
  Path : Str
  RawPath : Str
  OmitHost : Bool
  ForceQuery : Bool
  RawQuery : Str
  Fragment : Str
  RawFragment : Str
deriving DecidableEq, Repr

/-- The zero value of `url.URL`. -/
def URL.zero : URL :=
  { Scheme := [], Opaque := [], User := none, Host := [], Path := [], RawPath := [],
    OmitHost := false, ForceQuery := false, RawQuery := [], Fragment := [], RawFragment := [] }

/-- Go `getScheme`, scanning from offset `i`: `none` is the error `missing protocol scheme`,
otherwise the scheme and the rest. -/
def getSchemeFrom (rawURL : Str) : Str → Nat → Option (Str × Str)
  | [], _ => some ([], rawURL)
  | c :: rest, i =>
    if (97 ≤ c ∧ c ≤ 122) ∨ (65 ≤ c ∧ c ≤ 90) then getSchemeFrom rawURL rest (i + 1)
    else if (48 ≤ c ∧ c ≤ 57) ∨ c = 43 ∨ c = 45 ∨ c = 46 then
      if i = 0 then some ([], rawURL) else getSchemeFrom rawURL rest (i + 1)
    else if c = 58 then
      if i = 0 then none else some (rawURL.take i, rest)
    else some ([], rawURL)

/-- Go `getScheme`. -/
def getScheme (rawURL : Str) : Option (Str × Str) := getSchemeFrom rawURL rawURL 0

/-- ASCII lower-casing, which is what `strings.ToLower` does on ASCII text. -/
def asciiToLower (s : Str) : Str := s.map (fun c => if 65 ≤ c ∧ c ≤ 90 then c + 32 else c)

/-- Go `parseHost`. -/
def parseHost (host : Str) : Option Str :=
  if hasPrefix host [91] then
    let i := lastIndexByte host 93
    if i < 0 then none
    else if !validOptionalPort (host.drop (i.toNat + 1)) then none
    else
      let zone := stringsIndex (host.take i.toNat) [37, 50, 53]
      if 0 ≤ zone then
        match unescape (host.take zone.toNat) Encoding.encodeHost,
              unescape ((host.take i.toNat).drop zone.toNat) Encoding.encodeZone,
              unescape (host.drop i.toNat) Encoding.encodeHost with
        | some host1, some host2, some host3 => some (host1 ++ host2 ++ host3)
        | _, _, _ => none
      else unescape host Encoding.encodeHost
  else
    let i := lastIndexByte host 58
    if i ≠ -1 ∧ !validOptionalPort (host.drop i.toNat) then none
    else unescape host Encoding.encodeHost

/-- Go `parseAuthority`. -/
def parseAuthority (authority : Str) : Option (Option Userinfo × Str) :=
  let i := lastIndexByte authority 64
  match (if i < 0 then parseHost authority else parseHost (authority.drop (i.toNat + 1))) with
  | none => none
  | some host =>
    if i < 0 then some (none, host)
    else
      let userinfo := authority.take i.toNat
      if !validUserinfo userinfo then none
      else if !stringsContains userinfo [58] then
        match unescape userinfo Encoding.encodeUserPassword with
        | none => none
        | some u => some (some { username := u, password := [], passwordSet := false }, host)
      else
        match cutByte 58 userinfo with
        | (username, password, _) =>
          match unescape username Encoding.encodeUserPassword,
                unescape password Encoding.encodeUserPassword with
          | some u, some p => some (some { username := u, password := p, passwordSet := true }, host)
          | _, _ => none

/-- Go `(*URL).setPath`; `none` when `p` does not unescape. -/
def URL.setPath (u : URL) (p : Str) : Option URL :=
  match unescape p Encoding.encodePath with
  | none => none
  | some path =>
    some { u with Path := path,
                  RawPath := if p = escape path Encoding.encodePath then [] else p }

/-- Go `(*URL).setFragment`. -/
def URL.setFragment (u : URL) (f : Str) : Option URL :=
  match unescape f Encoding.encodeFragment with
  | none => none
  | some frag =>
    some { u with Fragment := frag,
                  RawFragment := if f = escape frag Encoding.encodeFragment then [] else f }

/-- Go `parse(rawURL, viaRequest = false)`: a URL without its fragment. -/
def parse (rawURL : Str) : Option URL :=
  if stringContainsCTLByte rawURL then none
  else if rawURL = [42] then some { URL.zero with Path := [42] }
  else
    match getScheme rawURL with
    | none => none
    | some (scheme0, rest0) =>
      let scheme := asciiToLower scheme0
      let forceQuery := hasSuffix rest0 [63] && decide (countByte rest0 63 = 1)
      let rest1 := if forceQuery then rest0.take (rest0.length - 1) else (cutByte 63 rest0).1
      let rawQuery := if forceQuery then [] else (cutByte 63 rest0).2.1
      let url : URL := { URL.zero with Scheme := scheme, ForceQuery := forceQuery, RawQuery := rawQuery }
      if !hasPrefix rest1 [47] ∧ scheme ≠ [] then some { url with Opaque := rest1 }
      else if !hasPrefix rest1 [47] ∧ stringsContains (cutByte 47 rest1).1 [58] then none
      else if (scheme ≠ [] ∨ !hasPrefix rest1 [47, 47, 47]) ∧ hasPrefix rest1 [47, 47] then
        let afterSlashes := rest1.drop 2
        let i := stringsIndex afterSlashes [47]
        let authority := if 0 ≤ i then afterSlashes.take i.toNat else afterSlashes
        let rest2 := if 0 ≤ i then afterSlashes.drop i.toNat else []
        match parseAuthority authority with
        | none => none
        | some (user, host) => URL.setPath { url with User := user, Host := host } rest2
      else if scheme ≠ [] ∧ hasPrefix rest1 [47] then
        URL.setPath { url with OmitHost := true } rest1
      else URL.setPath url rest1

/-- Go `url.Parse`; `none` stands for a returned error. -/
def urlParse (rawURL : Str) : Option URL :=
  match cutByte 35 rawURL with
  | (u, frag, _) =>
    match parse u with
    | none => none
    | some url => if frag = [] then some url else URL.setFragment url frag

/-- Go `splitHostPort`: host and port of `host:port`, brackets of the host removed. -/
def splitHostPort (hostPort : Str) : Str × Str :=
  let colon := lastIndexByte hostPort 58
  let split := decide (colon ≠ -1) && validOptionalPort (hostPort.drop colon.toNat)
  let host := if split then hostPort.take colon.toNat else hostPort
  let port := if split then hostPort.drop (colon.toNat + 1) else []
  if hasPrefix host [91] && hasSuffix host [93] then
    ((host.drop 1).take (host.length - 2), port)
  else (host, port)

/-- Go `(*URL).Hostname`. -/
def URL.Hostname (u : URL) : Str := (splitHostPort u.Host).1

/-- Go `(*URL).Port`. -/
def URL.Port (u : URL) : Str := (splitHostPort u.Host).2

/-- Go `(*URL).EscapedPath`. -/
def URL.EscapedPath (u : URL) : Str :=
  if u.RawPath ≠ [] ∧ validEncoded u.RawPath Encoding.encodePath = true
      ∧ unescape u.RawPath Encoding.encodePath = some u.Path then u.RawPath
  else if u.Path = [42] then [42]
  else escape u.Path Encoding.encodePath

/-- One element of the loop of Go `resolvePath`; the state is the text built so far
(with its leading slash) and the flag `first`. -/
def resolveStep (st : Str × Bool) (elem : Str) : Str × Bool :=
  let dst := st.1
  let first := st.2
  if elem = [46] then (dst, false)
  else if elem = [46, 46] then
    let str := dst.drop 1
    let index := lastIndexByte str Separator
    if index = -1 then ([Separator], true) else (Separator :: str.take index.toNat, first)
  else ((if !first then dst ++ [Separator] else dst) ++ elem, false)

/-- Go `resolvePath(base, ref)`: the path `ref` resolved against `base`, dot segments
removed. -/
def resolvePath (base ref : Str) : Str :=
  let full :=
    if ref = [] then base
    else if ref.head? ≠ some Separator then
      base.take ((lastIndexByte base Separator + 1).toNat) ++ ref
    else ref
  if full = [] then []
  else
    let elems := splitByte Separator full
    let dst := (elems.foldl resolveStep ([Separator], true)).1
    let last := elems.getLastD []
    let r := if last = [46] ∨ last = [46, 46] then dst ++ [Separator] else dst
    if 1 < r.length ∧ (r.drop 1).head? = some Separator then r.drop 1 else r

/-- The assignment `url.setPath(p)` with its error ignored, as `ResolveReference` does. -/
def URL.withPath (url : URL) (p : Str) : URL :=
  match URL.setPath url p with
  | some url1 => url1
  | none => url

/-- Go `u.ResolveReference(ref)`. -/
def URL.ResolveReference (u ref : URL) : URL :=
  let url : URL := if ref.Scheme = [] then { ref with Scheme := u.Scheme } else ref
  if ref.Scheme ≠ [] ∨ ref.Host ≠ [] ∨ ref.User ≠ none then
    url.withPath (resolvePath ref.EscapedPath [])
  else if ref.Opaque ≠ [] then
    { url with User := none, Host := [], Path := [] }
  else
    let url1 : URL :=
      if ref.Path = [] ∧ ref.ForceQuery = false ∧ ref.RawQuery = [] then
        if ref.Fragment = [] then
          { url with RawQuery := u.RawQuery, Fragment := u.Fragment,
                     RawFragment := u.RawFragment }
        else { url with RawQuery := u.RawQuery }
      else url
    if ref.Path = [] ∧ u.Opaque ≠ [] then
      { url1 with Opaque := u.Opaque, User := none, Host := [], Path := [] }
    else
      URL.withPath { url1 with Host := u.Host, User := u.User }
        (resolvePath u.EscapedPath ref.EscapedPath)

/-! ## Configuration and process state (`config.go`, `tor.go`, `gemini.go`) -/

/-- Go `ConfigRSS`. -/
structure ConfigRSS where
  Enabled : Bool
  FeedSourceGeminiPath : Str
deriving DecidableEq, Repr

/-- Go `ConfigTor`. -/
structure ConfigTor where
  Enabled : Bool
  ControlPortFilePath : Str
  ControlAuthCookiePath : Str
  HiddenServicePrivateKeyPath : Str
  TorrcPath : Str
deriving DecidableEq, Repr

/-- Go `ConfigGeminiTLS`. -/
structure ConfigGeminiTLS where
  KeyPath : Str
  CertPath : Str
deriving DecidableEq, Repr

/-- Go `ConfigGeminiTor`. -/
structure ConfigGeminiTor where
  VirtualPort : Int
deriving DecidableEq, Repr

/-- Go `ConfigGemini`. -/
structure ConfigGemini where
  DomainNames : List Str
  DataPath : Str
  ListeningLocation : Str
  TLS : ConfigGeminiTLS
  Tor : ConfigGeminiTor
deriving DecidableEq, Repr

/-- Go `ConfigHTTPTor`. -/
structure ConfigHTTPTor where
  VirtualPort : Int
deriving DecidableEq, Repr

/-- Go `ConfigHTTP`. -/
structure ConfigHTTP where
  Enabled : Bool
  ListeningLocation : Str
  DataPath : Str
  LayoutHTMLPath : Str
  DefaultPageTitle : Str
  Tor : ConfigHTTPTor
deriving DecidableEq, Repr

/-- Go `Config`. -/
structure Config where
  BergelmirVersion : Str
  RSS : ConfigRSS
  Tor : ConfigTor
  Gemini : ConfigGemini
  HTTP : ConfigHTTP
deriving DecidableEq, Repr

/-- The package-level variables the request engine reads. -/
structure Globals where
  configData : Config
  torAddress : Str
  geminiHostList : List Str

/-- What the request engine calls outside itself: the URL parser and the case mapping of
the Go standard library, the file system, the MIME table, and the Gemtext-to-Atom
renderer of `rss.go`. Properties quantified over a `Runtime` hold whatever these return. -/
structure Runtime where
  /-- Go `url.Parse`, `none` for an error. -/
  urlParse : Str → Option URL
  /-- Go `strings.ToLower`. -/
  stringsToLower : Str → Str
  /-- Go `os.ReadFile`, `none` for an error. -/
  osReadFile : Str → Option Str
  /-- Go `os.Open` followed by `io.Copy`: `none` when the file cannot be opened, otherwise
  the bytes that are copied out of it. -/
  osOpen : Str → Option Str
  /-- Go `mime.TypeByExtension`. -/
  mimeTypeByExtension : Str → Str
  /-- The renderer `translateGemtextToRSS(gmi, host)` of `rss.go`. -/
  translateGemtextToRSS : Str → Str → Str

/-- The state of one connection while it is handled: the bytes written to the client,
whether writes to the client succeed, and the paths handed to the file system so far. -/
structure Conn where
  written : Str
  writable : Bool
  opened : List Str
deriving DecidableEq, Repr

/-- A connection on which nothing has happened yet and whose writes succeed. -/
def Conn.fresh : Conn := { written := [], writable := true, opened := [] }

/-- Go `conn.Write`: the connection afterwards and whether the error is `nil`. -/
def Conn.Write (conn : Conn) (b : Str) : Conn × Bool :=
  if conn.writable then ({ conn with written := conn.written ++ b }, true) else (conn, false)

/-- Records that `path` was handed to `os.ReadFile` or `os.Open`. -/
def Conn.touch (conn : Conn) (path : Str) : Conn := { conn with opened := conn.opened ++ [path] }

/-! ## The Gemini protocol engine (`gemini.go`) -/

def GEMINI_DEFAULT_PORT : Int := 1965
def STATUS_SUCCESS : Int := 20
def STATUS_NOT_FOUND : Int := 51
def STATUS_PROXY_REQUEST_REFUSED : Int := 53
def STATUS_BAD_REQUEST : Int := 59

/-- The response header `<status> <meta>\r\n`. -/
def geminiHeader (status : Int) (meta : Str) : Str :=
  strconvItoa status ++ goStr " " ++ meta ++ goStr "\r\n"

/-- Go `sendGeminiResponseHeader`: the connection afterwards and whether `err == nil`. -/
def sendGeminiResponseHeader (conn : Conn) (status : Int) (meta : Str) : Conn × Bool :=
  conn.Write (geminiHeader status meta)

/-- Go `isRSSFeed` (`rss.go`). -/
def isRSSFeed (g : Globals) (url : Str) : Bool :=
  g.configData.RSS.Enabled && (url == goStr "/feed" || url == goStr "/rss")

/-- The loop of `getGemtextContent` over the extensions still to try. -/
def gemtextLoop (rt : Runtime) (path : Str) : List Str → Conn → Conn × Str × Bool
  | [], conn => (conn, [], false)
  | extension :: rest, conn =>
    match rt.osReadFile (path ++ extension) with
    | some content => (conn.touch (path ++ extension), content, true)
    | none => gemtextLoop rt path rest (conn.touch (path ++ extension))

/-- Go `getGemtextContent`: the content of `<path>.gmi`, else of `<path>.gemini`. -/
def getGemtextContent (rt : Runtime) (conn : Conn) (path : Str) : Conn × Str × Bool :=
  gemtextLoop rt path [goStr ".gmi", goStr ".gemini"] conn

/-- Go `createRSSFeed` (`rss.go`). -/
def createRSSFeed (rt : Runtime) (g : Globals) (conn : Conn) (host : Str) : Conn × Str :=
  let rssGeminiDataPath := g.configData.Gemini.DataPath ++ goStr "/" ++
    g.configData.RSS.FeedSourceGeminiPath
  match getGemtextContent rt conn rssGeminiDataPath with
  | (conn1, gmiContent, exists_) =>
    if exists_ then (conn1, rt.translateGemtextToRSS gmiContent host) else (conn1, [])

/-- Go `getMIMEType` (`mime.go`). -/
def getMIMEType (rt : Runtime) (path : Str) : Str :=
  let extension := filepathExt path
  if 0 < extension.length then rt.mimeTypeByExtension extension
  else goStr "application/octet-stream"

/-- Go `handleGeminiServeFile`. -/
def handleGeminiServeFile (rt : Runtime) (conn : Conn) (path : Str) : Conn :=
  let mimeType := getMIMEType rt path
  match rt.osOpen path with
  | none => (sendGeminiResponseHeader (conn.touch path) STATUS_NOT_FOUND (goStr "Page Not Found")).1
  | some f =>
    match sendGeminiResponseHeader (conn.touch path) STATUS_SUCCESS mimeType with
    | (conn1, ok) => if ok then (conn1.Write f).1 else conn1

/-- The path normalisation at the head of `handleGeminiResponseBody`: the path that is
looked up and the extension that selects how. -/
def normalizeGeminiPath (urlPath : Str) : Str × Str :=
  let urlPath1 :=
    if 0 < urlPath.length ∧ urlPath.getLast? = some 47 then urlPath.take (urlPath.length - 1)
    else urlPath
  let urlExtension := filepathExt urlPath1
  let stripped := decide (urlExtension = goStr ".gmi" ∨ urlExtension = goStr ".gemini")
  let urlPath2 :=
    if stripped then urlPath1.take (urlPath1.length - urlExtension.length) else urlPath1
  let urlExtension2 := if stripped then [] else urlExtension
  let urlPath3 := if urlPath2 = [] then goStr "/index" else urlPath2
  (urlPath3, urlExtension2)

/-- Go `handleGeminiResponseBody`: the content dispatch. -/
def handleGeminiResponseBody (rt : Runtime) (g : Globals) (conn : Conn) (urlPath host : Str) :
    Conn :=
  match normalizeGeminiPath urlPath with
  | (urlPath, urlExtension) =>
    let geminiDataPath := g.configData.Gemini.DataPath ++ goStr "/" ++ urlPath
    if urlExtension = [] then
      if !isRSSFeed g urlPath then
        match getGemtextContent rt conn geminiDataPath with
        | (conn1, content, exists_) =>
          if exists_ then
            match sendGeminiResponseHeader conn1 STATUS_SUCCESS (goStr "text/gemini") with
            | (conn2, ok) => if ok then (conn2.Write content).1 else conn2
          else (sendGeminiResponseHeader conn1 STATUS_NOT_FOUND (goStr "Page Not Found")).1
      else
        match sendGeminiResponseHeader conn STATUS_SUCCESS (goStr "application/rss+xml") with
        | (conn1, ok) =>
          if !ok then conn1
          else
            match createRSSFeed rt g conn1 (goStr "gemini://" ++ host) with
            | (conn2, feed) => (conn2.Write feed).1
    else handleGeminiServeFile rt conn geminiDataPath

/-- The loop of `getGeminiHostPortValid` over the hosts still to compare. -/
def hostPortLoop (rt : Runtime) (g : Globals) (requestHost : Str) : List Str → Str × Bool
  | [] => ([], false)
  | host :: rest =>
    if rt.stringsToLower requestHost = host then
      if host = g.torAddress then (strconvItoa g.configData.Gemini.Tor.VirtualPort, true)
      else
        match rt.urlParse (goStr "//" ++ g.configData.Gemini.ListeningLocation) with
        | some serverLocation => (serverLocation.Port, true)
        | none => ([], true)
    else hostPortLoop rt g requestHost rest

/-- Go `getGeminiHostPortValid`: the port of the requested host and whether the host is
one the server answers to. -/
def getGeminiHostPortValid (rt : Runtime) (g : Globals) (requestHost : Str) : Str × Bool :=
  hostPortLoop rt g requestHost g.geminiHostList

/-- The reply `59 Invalid Request`. -/
def invalidRequest (conn : Conn) : Conn :=
  (sendGeminiResponseHeader conn STATUS_BAD_REQUEST (goStr "Invalid Request")).1

/-- Lines 76 to 129 of `handleGeminiRequest`: the checks on the request line `addr` once
its terminator is cut off, and the call of the content dispatch. -/
def handleRequestLine (rt : Runtime) (g : Globals) (conn : Conn) (addr : Str) : Conn :=
  let urlBOMIndex := stringsIndex addr (goStr "\uFEFF")
  if urlBOMIndex = 0 then invalidRequest conn
  else
    match rt.urlParse addr with
    | none => invalidRequest conn
    | some u =>
      if u.Hostname = [] ∨ u.Scheme = [] then invalidRequest conn
      else
        match filepathRel u.Hostname (u.Hostname ++ u.Path) with
        | none => invalidRequest conn
        | some urlRelPath =>
          if stringsIndex urlRelPath (goStr "..") = 0 then invalidRequest conn
          else
            let u := u.ResolveReference u
            if rt.stringsToLower u.Scheme ≠ goStr "gemini" then
              (sendGeminiResponseHeader conn STATUS_PROXY_REQUEST_REFUSED
                (goStr "Invalid Scheme")).1
            else
              match getGeminiHostPortValid rt g u.Hostname with
              | (serverPort, validHost) =>
                if !validHost then
                  (sendGeminiResponseHeader conn STATUS_PROXY_REQUEST_REFUSED
                    (goStr "Invalid Host")).1
                else
                  let uPort := if u.Port = [] then strconvItoa GEMINI_DEFAULT_PORT else u.Port
                  if uPort ≠ serverPort then
                    (sendGeminiResponseHeader conn STATUS_PROXY_REQUEST_REFUSED
                      (goStr "Invalid Port")).1
                  else handleGeminiResponseBody rt g conn u.Path u.Host

/-- Go `handleGeminiRequest`: lines 57 to 75, the checks on the raw bytes, then the rest
of the function on the request line. -/
def handleGeminiRequest (rt : Runtime) (g : Globals) (conn : Conn) (addr : Str) : Conn :=
  if !utf8ValidString addr then invalidRequest conn
  else
    let urlCRLFIndex := stringsIndex addr (goStr "\r\n")
    if urlCRLFIndex < 0 ∨ urlCRLFIndex ≠ (addr.length : Int) - 2 then conn
    else if urlCRLFIndex > 1024 ∨ urlCRLFIndex ≠ (addr.length : Int) - 2 then invalidRequest conn
    else handleRequestLine rt g conn (addr.take (addr.length - 2))

/-- Go `handleGeminiConnection`: one `Read` into a buffer of 2048 bytes, then the request
handler on what was read. `incoming` is what the client sent, `none` when `Read` fails. -/
def handleGeminiConnection (rt : Runtime) (g : Globals) (conn : Conn) (incoming : Option Str) :
    Conn :=
  match incoming with
  | none => conn
  | some data => handleGeminiRequest rt g conn (data.take 2048)

/-! ## Vocabulary of the properties -/

/-- The separator `sep` occurs in `s` at offset `i`. -/
def OccursAt (sep s : Str) (i : Nat) : Prop := hasPrefix (s.drop i) sep = true

instance (sep s : Str) (i : Nat) : Decidable (OccursAt sep s i) := by
  unfold OccursAt; infer_instance

/-- The request ends in exactly one CRLF: CRLF occurs at its final two bytes and at no
other offset. -/
def SingleTrailingCRLF (addr : Str) : Prop :=
  2 ≤ addr.length ∧
    ∀ i, i < addr.length → (OccursAt (goStr "\r\n") addr i ↔ i + 2 = addr.length)

instance (addr : Str) : Decidable (SingleTrailingCRLF addr) := by
  unfold SingleTrailingCRLF; infer_instance

/-- A response header carrying the given status: the status in decimal, a space, some
meta text, CRLF. -/
def IsHeaderWithStatus (status : Int) (bytes : Str) : Prop :=
  ∃ meta : Str, bytes = geminiHeader status meta

/-- The relative path `rel` leaves its base directory: its first element is `..`. -/
def ClimbsAbove (rel : Str) : Prop := rel = goStr ".." ∨ hasPrefix rel (goStr "../") = true

instance (rel : Str) : Decidable (ClimbsAbove rel) := by
  unfold ClimbsAbove; infer_instance

/-- The URL path, taken relative to the hostname, escapes it: `filepath.Rel` of the
hostname and the hostname followed by the path fails or climbs above the hostname. -/
def EscapesVirtualRoot (u : URL) : Prop :=
  match filepathRel u.Hostname (u.Hostname ++ u.Path) with
  | none => True
  | some rel => ClimbsAbove rel

instance (u : URL) : Decidable (EscapesVirtualRoot u) := by
  unfold EscapesVirtualRoot
  cases filepathRel u.Hostname (u.Hostname ++ u.Path) <;> infer_instance

/-- The file-system path `path` lies, lexically, inside the directory `root`. -/
def InsideRoot (root path : Str) : Prop :=
  match filepathRel root path with
  | none => False
  | some rel => ¬ ClimbsAbove rel

instance (root path : Str) : Decidable (InsideRoot root path) := by
  unfold InsideRoot; cases filepathRel root path <;> infer_instance

/-- Check 5 as `handleGeminiRequest` performs it: `filepath.Rel` of the hostname and the
hostname followed by the path succeeds, and its result does not begin with the two bytes
`..`. -/
def PathCheckPasses (u : URL) : Prop :=
  match filepathRel u.Hostname (u.Hostname ++ u.Path) with
  | none => False
  | some rel => hasPrefix rel (goStr "..") = false

instance (u : URL) : Decidable (PathCheckPasses u) := by
  unfold PathCheckPasses; cases filepathRel u.Hostname (u.Hostname ++ u.Path) <;> infer_instance

/-- The request `addr` passes checks 1 to 4 of the validation pipeline and its request
line parses to `u`: valid UTF-8, a single CRLF at the tail after at most 1024 bytes, no
leading byte-order mark, a URL with a hostname and a scheme. -/
structure PassesSyntaxChecks (rt : Runtime) (addr : Str) (u : URL) : Prop where
  utf8 : utf8ValidString addr = true
  crlf : SingleTrailingCRLF addr
  size : addr.length - 2 ≤ 1024
  bom : hasPrefix (addr.take (addr.length - 2)) (goStr "\uFEFF") = false
  parsed : rt.urlParse (addr.take (addr.length - 2)) = some u
  host : u.Hostname ≠ []
  scheme : u.Scheme ≠ []

/-- The request `addr` passes checks 1 to 5 of the validation pipeline and its request
line parses to `u`: checks 1 to 4, and a path that check 5 accepts. -/
structure PassesStructureChecks (rt : Runtime) (addr : Str) (u : URL) : Prop where
  syntactic : PassesSyntaxChecks rt addr u
  inside : PathCheckPasses u

/-- The port of the listening location, as `getGeminiHostPortValid` reads it: the port of
`//` followed by the location parsed as a URL, empty when that does not parse. -/
def listeningPort (rt : Runtime) (g : Globals) : Str :=
  match rt.urlParse (goStr "//" ++ g.configData.Gemini.ListeningLocation) with
  | some serverLocation => serverLocation.Port
  | none => []

/-- The port a request asks for: the one written in its URL, or 1965 when there is none. -/
def requestedPort (u : URL) : Str := if u.Port = [] then goStr "1965" else u.Port

/-- A file system given by its files: clean path and content. Paths are resolved
lexically. -/
def lookupFile (files : List (Str × Str)) (path : Str) : Option Str :=
  (files.find? (fun f => f.1 == filepathClean path)).map (fun f => f.2)

/-- A runtime made of the library models above (`strings.ToLower` on ASCII text) over the
given files, with an empty MIME table and no feed renderer. -/
def goRuntime (files : List (Str × Str)) : Runtime :=
  { urlParse := urlParse
    stringsToLower := asciiToLower
    osReadFile := lookupFile files
    osOpen := lookupFile files
    mimeTypeByExtension := fun _ => []
    translateGemtextToRSS := fun _ _ => [] }

/-- The configuration written by `initConfigData` (`init.go`) with the given domain names. -/
def initConfig (domainNames : List Str) : Config :=
  { BergelmirVersion := goStr "0.0.1"
    RSS := { Enabled := false, FeedSourceGeminiPath := [] }
    Tor := { Enabled := false
             ControlPortFilePath := goStr "tor/control_port"
             ControlAuthCookiePath := goStr "tor/control_auth_cookie"
             HiddenServicePrivateKeyPath := goStr "tor/hs_ed25519_secret_key"
             TorrcPath := goStr "tor/torrc" }
    Gemini := { DomainNames := domainNames
                DataPath := goStr "gemini/"
                ListeningLocation := goStr "127.0.0.1:1965"
                TLS := { KeyPath := goStr "tls/cert.key", CertPath := goStr "tls/cert.pem" }
                Tor := { VirtualPort := 1965 } }
    HTTP := { Enabled := false
              ListeningLocation := goStr "127.0.0.1:8080"
              DataPath := goStr "http/"
              LayoutHTMLPath := goStr "http/layout.html"
              DefaultPageTitle := []
              Tor := { VirtualPort := 80 } } }

/-- The globals `g` with another listening location. -/
def Globals.withListeningLocation (g : Globals) (location : Str) : Globals :=
  { g with configData :=
      { g.configData with Gemini :=
          { g.configData.Gemini with ListeningLocation := location } } }

/-- The process state of a capsule for `example.org` that is also reachable at the onion
address `abcd.onion` on the virtual port 1966, while it listens on port 1965. -/
def onionGlobals : Globals :=
  { configData :=
      { initConfig [goStr "example.org"] with
          Gemini := { (initConfig [goStr "example.org"]).Gemini with Tor := { VirtualPort := 1966 } } }
    torAddress := goStr "abcd.onion"
    geminiHostList := [goStr "example.org", goStr "abcd.onion"] }

/-- The process state of a capsule for `example.org` listening on port 1965, Tor off. -/
def exampleGlobals : Globals :=
  { configData := initConfig [goStr "example.org"]
    torAddress := []
    geminiHostList := [goStr "example.org"] }

/-! ## The certificate manager (`tls.go`)

Keys, certificates and PEM files are modelled by what the manager can tell about them: a
key pair is its algorithm and an identifier, a certificate is the template it was created
from together with the key it certifies, and a file is the PEM block it holds. -/

/-- How a start-up step ends: with a value, with the fatal exit of `handleErr`, or with a
run-time panic. -/
inductive Outcome (α : Type) where
  | ok (value : α)
  | fatal (message : Str)
  | panic
deriving DecidableEq, Repr

/-- Sequencing of start-up steps: the first failure ends the sequence. -/
def Outcome.andThen {α β : Type} (o : Outcome α) (f : α → Outcome β) : Outcome β :=
  match o with
  | Outcome.ok a => f a
  | Outcome.fatal m => Outcome.fatal m
  | Outcome.panic => Outcome.panic

/-- Modelled from the spec: `handleErr(err, message)`, which is not among the sources.
Infrastructure failures are fatal: a diagnostic is printed and the process terminates. Here
`result` is `none` when `err != nil`. -/
def handleErr {α : Type} (result : Option α) (message : Str) : Outcome α :=
  match result with
  | some a => Outcome.ok a
  | none => Outcome.fatal message

/-- The algorithm of a key pair; `other` is a key `x509.ParsePKCS8PrivateKey` accepts but
`publicKeyFromPrivateKey` does not know (its `default` case). -/
inductive KeyKind where
  | ed25519
  | ecdsa
  | rsa
  | other
deriving DecidableEq, Repr

/-- A private key (Go `crypto.PrivateKey`); its public key is identified with it. -/
structure PrivateKey where
  kind : KeyKind
  id : Nat
deriving DecidableEq, Repr

def KeyUsageDigitalSignature : Nat := 1
def KeyUsageKeyEncipherment : Nat := 4
def KeyUsageCertSign : Nat := 32
def ExtKeyUsageServerAuth : Nat := 1

/-- Go `x509.Certificate`, the fields the manager sets or reads, and the key pair whose
public key it carries. -/
structure X509Certificate where
  SerialNumber : Nat
  NotBefore : Str
  NotAfter : Str
  KeyUsage : Nat
  ExtKeyUsage : List Nat
  BasicConstraintsValid : Bool
  IsCA : Bool
  DNSNames : List Str
  PublicKey : PrivateKey
deriving DecidableEq, Repr

/-- Go `tls.Certificate`: a chain of one certificate and its private key. -/
structure TLSCertificate where
  Certificate : X509Certificate
  PrivateKey : PrivateKey
deriving DecidableEq, Repr

/-- What a file holds, as far as `encoding/pem` and `crypto/x509` can tell. -/
inductive FileContent where
  /-- A `CERTIFICATE` block. -/
  | certificatePEM (cert : X509Certificate)
  /-- A `PRIVATE KEY` block holding a PKCS8 key. -/
  | pkcs8KeyPEM (key : PrivateKey)
  /-- A key block in PKCS1 or SEC1 form, which `tls` loads and PKCS8 parsing rejects. -/
  | legacyKeyPEM (key : PrivateKey)
  /-- A PEM block that holds neither. -/
  | otherPEM (bytes : Str)
  /-- Bytes without any PEM block (an empty file included). -/
  | noPEM (bytes : Str)
deriving DecidableEq, Repr

/-- The files the manager sees: their content, the paths that cannot be written, and the
log of the paths written so far (oldest first). -/
structure Disk where
  files : List (Str × FileContent)
  readOnly : List Str
  writeLog : List Str
deriving DecidableEq, Repr

/-- Go `os.ReadFile`. -/
def Disk.read (disk : Disk) (path : Str) : Option FileContent :=
  (disk.files.find? (fun f => f.1 == path)).map (fun f => f.2)

/-- Go `os.WriteFile`: `none` when the write fails. -/
def Disk.write (disk : Disk) (path : Str) (content : FileContent) : Option Disk :=
  if path ∈ disk.readOnly then none
  else some { disk with files := (path, content) :: disk.files.filter (fun f => f.1 != path)
                        writeLog := disk.writeLog ++ [path] }

/-- What `crypto/rand` yields during one start-up: the serial number drawn below `2^128`
and the identifier of the ed25519 key that `ed25519.GenerateKey` makes. -/
structure Entropy where
  serial : Nat
  keyId : Nat
deriving DecidableEq, Repr

/-- Go `getDomainList`. -/
def getDomainList (g : Globals) : List Str :=
  let domainList := g.configData.Gemini.DomainNames
  let domainList := if domainList.length = 0 then domainList ++ [goStr "localhost"] else domainList
  if g.torAddress ≠ [] then domainList ++ [g.torAddress] else domainList

/-- Go `publicKeyFromPrivateKey`: `none` is the `nil` of the `default` case. -/
def publicKeyFromPrivateKey (privKey : PrivateKey) : Option PrivateKey :=
  match privKey.kind with
  | KeyKind.ed25519 => some privKey
  | KeyKind.ecdsa => some privKey
  | KeyKind.rsa => some privKey
  | KeyKind.other => none

/-- Go `x509.isIA5String`: no rune of `s` is above `unicode.MaxASCII`. A byte of 0x80 or
more is part of a rune above it or is read as `utf8.RuneError`, so the test is one on the
bytes. -/
def isIA5String (s : Str) : Bool := s.all (fun c => decide (c < 0x80))

/-- Go `x509.CreateCertificate` on the template of `generateNewTLSCertFromKey`, signed
with the key the public key `pub` was taken from: the certificate, or `none` for an error.
It fails when the public key is `nil` and when a subject alternative name is not an
IA5String. -/
def x509CreateCertificate (template : X509Certificate) (pub : Option PrivateKey) :
    Option X509Certificate :=
  match pub with
  | none => none
  | some pub =>
    if template.DNSNames.all isIA5String then some { template with PublicKey := pub }
    else none

/-- Go `generateNewTLSCertFromKey`: the certificate and the key, both as they are
PEM-encoded afterwards. The source leaves the field `PublicKey` of the template unset,
which is written here as a key of no known kind; `x509.CreateCertificate` fills it in. -/
def generateNewTLSCertFromKey (g : Globals) (rand : Entropy) (privKey : PrivateKey) :
    Outcome (X509Certificate × PrivateKey) :=
  let pubKey := publicKeyFromPrivateKey privKey
  let serialNumber := rand.serial % 2 ^ 128
  let keyUsage := KeyUsageCertSign ||| KeyUsageDigitalSignature
  let keyUsage := if privKey.kind = KeyKind.rsa then keyUsage ||| KeyUsageKeyEncipherment
    else keyUsage
  let tlsCertTemplate : X509Certificate :=
    { SerialNumber := serialNumber
      NotBefore := goStr "2000-01-01T00:00:00Z"
      NotAfter := goStr "2200-01-01T00:00:00Z"
      KeyUsage := keyUsage
      ExtKeyUsage := [ExtKeyUsageServerAuth]
      BasicConstraintsValid := true
      IsCA := true
      DNSNames := getDomainList g
      PublicKey := { kind := KeyKind.other, id := 0 } }
  (handleErr (x509CreateCertificate tlsCertTemplate pubKey)
    (goStr "Unable to generate TLS certificate")).andThen
  (fun cert => Outcome.ok (cert, privKey))

/-- Go `generateNewTLSCertAndKey`. -/
def generateNewTLSCertAndKey (g : Globals) (rand : Entropy) :
    Outcome (X509Certificate × PrivateKey) :=
  generateNewTLSCertFromKey g rand { kind := KeyKind.ed25519, id := rand.keyId }

/-- Go `writeTLSCert`. -/
def writeTLSCert (g : Globals) (disk : Disk) (cert : X509Certificate) : Outcome Disk :=
  handleErr (disk.write g.configData.Gemini.TLS.CertPath (FileContent.certificatePEM cert))
    (goStr "Unable to write TLS certificate file " ++ g.configData.Gemini.TLS.CertPath)

/-- Go `writeTLSKey`. -/
def writeTLSKey (g : Globals) (disk : Disk) (key : PrivateKey) : Outcome Disk :=
  handleErr (disk.write g.configData.Gemini.TLS.KeyPath (FileContent.pkcs8KeyPEM key))
    (goStr "Unable to write TLS key file " ++ g.configData.Gemini.TLS.KeyPath)

/-- Go `getTLSKey`. A key file without a PEM block makes `pem.Decode` return a `nil`
block, whose field `Bytes` the function then reads. -/
def getTLSKey (g : Globals) (disk : Disk) : Outcome (Option PrivateKey) :=
  match disk.read g.configData.Gemini.TLS.KeyPath with
  | none => Outcome.ok none
  | some (FileContent.noPEM _) => Outcome.panic
  | some (FileContent.pkcs8KeyPEM key) => Outcome.ok (some key)
  | some _ => Outcome.ok none

/-- Go `tls.X509KeyPair`: the pair, when the private key is of a kind `tls` supports and
matches the public key of the certificate. -/
def tlsX509KeyPair (cert : X509Certificate) (key : PrivateKey) : Option TLSCertificate :=
  if key.kind ≠ KeyKind.other ∧ cert.PublicKey = key then
    some { Certificate := cert, PrivateKey := key }
  else none

/-- Go `tls.LoadX509KeyPair`. -/
def tlsLoadX509KeyPair (disk : Disk) (certFile keyFile : Str) : Option TLSCertificate :=
  match disk.read certFile, disk.read keyFile with
  | some (FileContent.certificatePEM cert), some (FileContent.pkcs8KeyPEM key) =>
    tlsX509KeyPair cert key
  | some (FileContent.certificatePEM cert), some (FileContent.legacyKeyPEM key) =>
    tlsX509KeyPair cert key
  | _, _ => none

/-- The loop of `loadTLSCert` over the domains still to check (lines 123 to 142): whether
it reaches the regeneration. -/
def domainLoopRegenerates (domainList dnsNames : List Str) : List Str → Bool
  | [] => false
  | domain :: rest =>
    let domainInCert := dnsNames.any (fun certDomain => domain == certDomain)
    if !domainInCert || domainList.length != dnsNames.length then true
    else domainLoopRegenerates domainList dnsNames rest

/-- Go `loadTLSCert`: the certificate the listener is started with, and the disk
afterwards. -/
def loadTLSCert (g : Globals) (rand : Entropy) (disk : Disk) : Outcome (TLSCertificate × Disk) :=
  (getTLSKey g disk).andThen fun tlsPrivKey =>
  match tlsLoadX509KeyPair disk g.configData.Gemini.TLS.CertPath
      g.configData.Gemini.TLS.KeyPath with
  | none =>
    (match tlsPrivKey with
      | none => generateNewTLSCertAndKey g rand
      | some key => generateNewTLSCertFromKey g rand key).andThen fun generated =>
    (writeTLSCert g disk generated.1).andThen fun disk1 =>
    (if tlsPrivKey = none then writeTLSKey g disk1 generated.2
      else Outcome.ok disk1).andThen fun disk2 =>
    (handleErr (tlsX509KeyPair generated.1 generated.2)
      (goStr "Unable to load generated TLS certificate and key")).andThen fun cert =>
    Outcome.ok (cert, disk2)
  | some cert =>
    let domainList := getDomainList g
    if domainLoopRegenerates domainList cert.Certificate.DNSNames domainList then
      (generateNewTLSCertFromKey g rand cert.PrivateKey).andThen fun generated =>
      (writeTLSCert g disk generated.1).andThen fun disk1 =>
      (handleErr (tlsX509KeyPair generated.1 generated.2)
        (goStr "Unable to load generated TLS certificate and key")).andThen fun cert1 =>
      Outcome.ok (cert1, disk1)
    else Outcome.ok (cert, disk)

/-- The subject alternative names `san` have the same size and the same members as the
domain list. -/
def SameSizeAndMembers (san domains : List Str) : Prop :=
  san.length = domains.length ∧ (∀ d ∈ san, d ∈ domains) ∧ (∀ d ∈ domains, d ∈ san)

instance (san domains : List Str) : Decidable (SameSizeAndMembers san domains) := by
  unfold SameSizeAndMembers; infer_instance

/-- A certificate as `generateNewTLSCertFromKey` makes it for the ed25519 key `keyId`, with
the given subject alternative names. -/
def certificateFor (dnsNames : List Str) (keyId : Nat) : X509Certificate :=
  { SerialNumber := 7
    NotBefore := goStr "2000-01-01T00:00:00Z"
    NotAfter := goStr "2200-01-01T00:00:00Z"
    KeyUsage := 33
    ExtKeyUsage := [1]
    BasicConstraintsValid := true
    IsCA := true
    DNSNames := dnsNames
    PublicKey := { kind := KeyKind.ed25519, id := keyId } }

/-- A disk that holds, at the default paths, the ed25519 key 1 and a certificate for it
with the given subject alternative names. -/
def diskWithCertificate (dnsNames : List Str) : Disk :=
  { files := [(goStr "tls/cert.pem", FileContent.certificatePEM (certificateFor dnsNames 1)),
              (goStr "tls/cert.key", FileContent.pkcs8KeyPEM { kind := KeyKind.ed25519, id := 1 })]
    readOnly := []
    writeLog := [] }

/-- The process state of a capsule whose configuration names `example.org` and its own
onion address `abcd.onion`, with Tor on, so that the onion address is appended once more. -/
def listedOnionGlobals : Globals :=
  { configData := initConfig [goStr "example.org", goStr "abcd.onion"]
    torAddress := goStr "abcd.onion"
    geminiHostList := [goStr "example.org", goStr "abcd.onion", goStr "abcd.onion"] }

/-- The process state of a capsule whose configuration names `example.org` twice, Tor off. -/
def repeatedNameGlobals : Globals :=
  { configData := initConfig [goStr "example.org", goStr "example.org"]
    torAddress := []
    geminiHostList := [goStr "example.org", goStr "example.org"] }

/-- The configured domain names, or `localhost` alone when none is configured: what
`getDomainList` starts from before it appends the onion address. -/
def configuredNames (g : Globals) : List Str :=
  if g.configData.Gemini.DomainNames = [] then [goStr "localhost"]
  else g.configData.Gemini.DomainNames

/-! ## `encoding/hex`, `encoding/base32`, `encoding/base64` -/

/-- A lower-case hexadecimal digit. -/
def lowerhex (n : Nat) : Nat := if n < 10 then 48 + n else 97 + (n - 10)

/-- Go `hex.EncodeToString`. -/
def hexEncodeToString : Str → Str
  | [] => []
  | b :: rest => lowerhex (b / 16) :: lowerhex (b % 16) :: hexEncodeToString rest

/-- The alphabet of `base32.StdEncoding`. -/
def base32Alphabet : Str := goStr "ABCDEFGHIJKLMNOPQRSTUVWXYZ234567"

/-- The character of `base32.StdEncoding` for a 5-bit value. -/
def base32Char (i : Nat) : Nat := base32Alphabet.getD i 0

/-- The eight characters `base32` makes of five bytes. -/
def base32Block (b0 b1 b2 b3 b4 : Nat) : Str :=
  [base32Char (b0 / 8), base32Char ((b0 % 8) * 4 + b1 / 64), base32Char ((b1 / 2) % 32),
   base32Char ((b1 % 2) * 16 + b2 / 16), base32Char ((b2 % 16) * 2 + b3 / 128),
   base32Char ((b3 / 4) % 32), base32Char ((b3 % 4) * 8 + b4 / 32), base32Char (b4 % 32)]

/-- Go `base32.StdEncoding.EncodeToString`: eight characters for every five bytes, the
last group filled up with `=`. -/
def base32Encode : Str → Str
  | b0 :: b1 :: b2 :: b3 :: b4 :: rest => base32Block b0 b1 b2 b3 b4 ++ base32Encode rest
  | [b0, b1, b2, b3] => (base32Block b0 b1 b2 b3 0).take 7 ++ [61]
  | [b0, b1, b2] => (base32Block b0 b1 b2 0 0).take 5 ++ [61, 61, 61]
  | [b0, b1] => (base32Block b0 b1 0 0 0).take 4 ++ [61, 61, 61, 61]
  | [b0] => (base32Block b0 0 0 0 0).take 2 ++ [61, 61, 61, 61, 61, 61]
  | [] => []

/-- The alphabet of `base64.StdEncoding`. -/
def base64Alphabet : Str :=
  goStr "ABCDEFGHIJKLMNOPQRSTUVWXYZabcdefghijklmnopqrstuvwxyz0123456789+/"

/-- The character of `base64.StdEncoding` for a 6-bit value. -/
def base64Char (i : Nat) : Nat := base64Alphabet.getD i 0

/-- Go `base64.StdEncoding.EncodeToString`: four characters for every three bytes, the
last group filled up with `=`. -/
def base64Encode : Str → Str
  | b0 :: b1 :: b2 :: rest =>
    [base64Char (b0 / 4), base64Char ((b0 % 4) * 16 + b1 / 16),
     base64Char ((b1 % 16) * 4 + b2 / 64), base64Char (b2 % 64)] ++ base64Encode rest
  | [b0, b1] =>
    [base64Char (b0 / 4), base64Char ((b0 % 4) * 16 + b1 / 16), base64Char ((b1 % 16) * 4), 61]
  | [b0] => [base64Char (b0 / 4), base64Char ((b0 % 4) * 16), 61, 61]
  | [] => []

/-! ## The hidden-service key manager and the Tor control client (`tor.go`) -/

/-- The hash functions and the key derivation `tor.go` calls, with the sizes of what they
return. Properties quantified over a `Crypto` hold whatever the digests are. -/
structure Crypto where
  /-- Go `sha512.Sum512`. -/
  sha512Sum512 : Str → Str
  sha512_length : ∀ m, (sha512Sum512 m).length = 64
  sha512_bytes : ∀ m, ∀ b ∈ sha512Sum512 m, b < 256
  /-- Go `sha3.Sum256`. -/
  sha3Sum256 : Str → Str
  sha3_length : ∀ m, (sha3Sum256 m).length = 32
  sha3_bytes : ∀ m, ∀ b ∈ sha3Sum256 m, b < 256
  /-- The public key `ed25519.GenerateKey` derives from the seed it draws. -/
  ed25519PublicKey : Str → Str
  ed25519_length : ∀ seed, (ed25519PublicKey seed).length = 32
  ed25519_bytes : ∀ seed, ∀ b ∈ ed25519PublicKey seed, b < 256
  /-- HMAC-SHA256 of a message under a key (Go `hmac.New(sha256.New, key)`). -/
  hmacSHA256 : Str → Str → Str

/-- Files read and written as plain bytes: their content, the paths that cannot be
written, and the log of the paths written so far. -/
structure ByteDisk where
  files : List (Str × Str)
  readOnly : List Str
  writeLog : List Str
deriving DecidableEq, Repr

/-- Go `os.ReadFile`, `none` for an error. -/
def ByteDisk.read (disk : ByteDisk) (path : Str) : Option Str :=
  (disk.files.find? (fun f => f.1 == path)).map (fun f => f.2)

/-- Go `os.WriteFile`: `none` when the write fails. -/
def ByteDisk.write (disk : ByteDisk) (path : Str) (content : Str) : Option ByteDisk :=
  if path ∈ disk.readOnly then none
  else some { disk with files := (path, content) :: disk.files.filter (fun f => f.1 != path)
                        writeLog := disk.writeLog ++ [path] }

def TOR_HMAC_SECRET : Str := goStr "Tor safe cookie authentication controller-to-server hash"

/-- Go `encodeHiddenServicePublicKey`. The text `strings.ToLower` is applied to comes out
of `base32`, so the case mapping is the one of ASCII. -/
def encodeHiddenServicePublicKey (c : Crypto) (pubKey : Str) : Str :=
  let checksum := c.sha3Sum256 (goStr ".onion checksum" ++ (pubKey ++ [0x03]))
  let address := asciiToLower (base32Encode (pubKey ++ (checksum.take 2 ++ [0x03])))
    ++ goStr ".onion"
  address

/-- Go `generateHiddenServiceV3PubPrivKey`. `seed` is what `ed25519.GenerateKey` draws from
`crypto/rand`, `none` when that fails; the private key it returns is the seed followed by
the public key. -/
def generateHiddenServiceV3PubPrivKey (c : Crypto) (seed : Option Str) : Outcome (Str × Str) :=
  match seed with
  | none => Outcome.panic
  | some seed =>
    let pubKey := c.ed25519PublicKey seed
    let privKey := seed ++ pubKey
    let privKeyHash := c.sha512Sum512 (privKey.take 32)
    let privKeyHash := privKeyHash.set 0 (privKeyHash.getD 0 0 &&& 248)
    let privKeyHash := privKeyHash.set 31 (privKeyHash.getD 31 0 &&& 63)
    let privKeyHash := privKeyHash.set 31 (privKeyHash.getD 31 0 ||| 64)
    Outcome.ok (pubKey, privKeyHash)

/-- The content `createHiddenServiceV3PrivKeyFile` writes for the key `privKey`. -/
def keyFileContent (privKey : Str) : Str :=
  (goStr "== ed25519v1-secret: type0 ==" ++ [0, 0, 0]) ++ (privKey ++ [0x0a])

/-- Go `createHiddenServiceV3PrivKeyFile`: the disk afterwards. A failed write changes
nothing and is not reported. -/
def createHiddenServiceV3PrivKeyFile (g : Globals) (disk : ByteDisk) (privKey : Str) : ByteDisk :=
  match disk.write g.configData.Tor.HiddenServicePrivateKeyPath (keyFileContent privKey) with
  | some disk1 => disk1
  | none => disk

/-- Go `getHiddenServiceV3PrivKey`: the key in base64, and the package-level variables and
the disk afterwards. -/
def getHiddenServiceV3PrivKey (c : Crypto) (seed : Option Str) (g : Globals) (disk : ByteDisk) :
    Outcome (Str × Globals × ByteDisk) :=
  let content := disk.read g.configData.Tor.HiddenServicePrivateKeyPath
  if content = none ∨ (content.getD []).length < 96 then
    (generateHiddenServiceV3PubPrivKey c seed).andThen fun keys =>
    let disk1 := createHiddenServiceV3PrivKeyFile g disk keys.2
    let g1 := { g with torAddress := encodeHiddenServicePublicKey c keys.1 }
    Outcome.ok (base64Encode keys.2, g1, disk1)
  else
    Outcome.ok (base64Encode (((content.getD []).take 96).drop 32), g, disk)

/-- The Tor control connection: the messages written to it, one per `Write`, and whether
it is still open. -/
structure ControlConn where
  written : List Str
  isOpen : Bool
deriving DecidableEq, Repr

/-- A control connection that was just dialled. -/
def ControlConn.fresh : ControlConn := { written := [], isOpen := true }

/-- Go `torControlConn.Write`: the connection afterwards and whether the error is `nil`. -/
def ControlConn.Write (conn : ControlConn) (b : Str) : ControlConn × Bool :=
  if conn.isOpen then ({ conn with written := conn.written ++ [b] }, true) else (conn, false)

/-- The command `addOnionString` that `torAuth` builds (lines 156 to 161). -/
def addOnionString (g : Globals) (privKey : Str) : Str :=
  goStr "ADD_ONION ED25519-V3:" ++ privKey ++
    goStr " Flags=DiscardPK,Detach Port=" ++
    strconvItoa g.configData.Gemini.Tor.VirtualPort ++ goStr "," ++
    g.configData.Gemini.ListeningLocation ++ goStr " Port=" ++
    strconvItoa g.configData.HTTP.Tor.VirtualPort ++ goStr "," ++
    g.configData.HTTP.ListeningLocation ++ goStr "\n"

/-- How `torAuth` ends. -/
inductive TorAuthResult where
  /-- It waits for the server nonce, which never comes. -/
  | blocked (conn : ControlConn)
  /-- It returns. -/
  | returned (conn : ControlConn) (g : Globals) (disk : ByteDisk)
  /-- It panics while it makes a key. -/
  | panicked (conn : ControlConn)

/-- Go `torAuth`. `clientNonce` is what `rand.Read` fills in, `serverNonce` is the nonce
the reading task has stored when it signals, `none` when it never signals, and `seed` is
the seed a new hidden-service key would be made from. -/
def torAuth (c : Crypto) (clientNonce : Str) (serverNonce : Option Str) (seed : Option Str)
    (g : Globals) (disk : ByteDisk) (conn : ControlConn) : TorAuthResult :=
  let w1 := conn.Write (goStr "AUTHCHALLENGE SAFECOOKIE " ++ hexEncodeToString clientNonce
    ++ goStr "\n")
  let conn1 : ControlConn := if w1.2 then w1.1 else { w1.1 with isOpen := false }
  match serverNonce with
  | none => TorAuthResult.blocked conn1
  | some torControlServerNonce =>
    match disk.read g.configData.Tor.ControlAuthCookiePath with
    | none => TorAuthResult.returned conn1 g disk
    | some cookieString =>
      let authHmac := c.hmacSHA256 TOR_HMAC_SECRET
        (cookieString ++ clientNonce ++ torControlServerNonce)
      let conn2 := (conn1.Write (goStr "AUTHENTICATE " ++ hexEncodeToString authHmac
        ++ goStr "\n")).1
      match getHiddenServiceV3PrivKey c seed g disk with
      | Outcome.ok (privKey, g1, disk1) =>
        TorAuthResult.returned (conn2.Write (addOnionString g1 privKey)).1 g1 disk1
      | _ => TorAuthResult.panicked conn2

/-! ## Listener locations (`tcp.go`) -/

/-- Whether `s` begins, letter case aside, with the protocol name `name` and a colon. -/
def hasProtocolPrefix (s name : Str) : Bool :=
  asciiToLower (s.take name.length) == name && (s.drop name.length).head? == some 58

/-- The part of `s` that `(.*)` matches: everything up to the first line feed. -/
def restOfLine (s : Str) : Str := s.takeWhile (fun c => c != 10)

/-- The regular expression `locationPathRe`, `^(?:(?i)(tcp|udp|unix):)?(.*)`, applied with
`FindStringSubmatch`: the whole match and the two groups. The pattern matches at the
start of every string; the optional group is taken whenever it can be. -/
def locationPathReFindStringSubmatch (s : Str) : List Str :=
  if hasProtocolPrefix s (goStr "tcp") ∨ hasProtocolPrefix s (goStr "udp") then
    [s.take 4 ++ restOfLine (s.drop 4), s.take 3, restOfLine (s.drop 4)]
  else if hasProtocolPrefix s (goStr "unix") then
    [s.take 5 ++ restOfLine (s.drop 5), s.take 4, restOfLine (s.drop 5)]
  else [restOfLine s, [], restOfLine s]

/-- Go `parseLocation`. The text `strings.ToLower` is applied to is a protocol name the
pattern has matched, or empty, so the case mapping is the one of ASCII. -/
def parseLocation (locationPath : Str) : Str × Str :=
  let found := locationPathReFindStringSubmatch locationPath
  let protocol := if 1 < found.length then asciiToLower (found.getD 1 []) else []
  let location := if 1 < found.length ∧ 2 < found.length then found.getD 2 [] else []
  let protocol := if protocol = [] then goStr "tcp" else protocol
  (protocol, location)

/-- A stand-in for the hash functions, with digests of the right sizes: every byte of a
digest is the length of the message modulo 256 plus its position, modulo 256. -/
def sizedDigest (size : Nat) (m : Str) : Str :=
  (List.range size).map (fun i => (m.length + 255 - i) % 256)

/-- A `Crypto` made of the stand-in digests. -/
def standInCrypto : Crypto :=
  { sha512Sum512 := sizedDigest 64
    sha512_length := fun m => by simp [sizedDigest]
    sha512_bytes := fun m b h => by
      simp only [sizedDigest, List.mem_map] at h
      obtain ⟨i, _, rfl⟩ := h
      exact Nat.mod_lt _ (by decide)
    sha3Sum256 := sizedDigest 32
    sha3_length := fun m => by simp [sizedDigest]
    sha3_bytes := fun m b h => by
      simp only [sizedDigest, List.mem_map] at h
      obtain ⟨i, _, rfl⟩ := h
      exact Nat.mod_lt _ (by decide)
    ed25519PublicKey := sizedDigest 32
    ed25519_length := fun m => by simp [sizedDigest]
    ed25519_bytes := fun m b h => by
      simp only [sizedDigest, List.mem_map] at h
      obtain ⟨i, _, rfl⟩ := h
      exact Nat.mod_lt _ (by decide)
    hmacSHA256 := fun key m => sizedDigest 32 (key ++ m) }

/-- An empty disk on which every path can be written. -/
def emptyByteDisk : ByteDisk := { files := [], readOnly := [], writeLog := [] }

/-- An empty disk on which the hidden-service key file of `initConfig` cannot be
written. -/
def lockedByteDisk : ByteDisk :=
  { files := [], readOnly := [goStr "tor/hs_ed25519_secret_key"], writeLog := [] }

/-- A disk that holds a control cookie and, at the path of the hidden-service key, the
given content. -/
def diskWithKeyFile (content : Str) : ByteDisk :=
  { files := [(goStr "tor/control_auth_cookie", List.replicate 32 7),
              (goStr "tor/hs_ed25519_secret_key", content)]
    readOnly := []
    writeLog := [] }

/-- A character of the lower-case base32 alphabet, `a` to `z` and `2` to `7`. -/
def IsBase32Lower (ch : Nat) : Prop := (97 ≤ ch ∧ ch ≤ 122) ∨ (50 ≤ ch ∧ ch ≤ 55)

instance (ch : Nat) : Decidable (IsBase32Lower ch) := by
  unfold IsBase32Lower; infer_instance

/-- The connection `torAuth` leaves behind. -/
def TorAuthResult.conn : TorAuthResult → ControlConn
  | TorAuthResult.blocked conn => conn
  | TorAuthResult.returned conn _ _ => conn
  | TorAuthResult.panicked conn => conn

/-- The globals `g` with the HTTP gateway switched on or off. -/
def Globals.withHTTPEnabled (g : Globals) (enabled : Bool) : Globals :=
  { g with configData := { g.configData with HTTP := { g.configData.HTTP with Enabled := enabled } } }

/-- The content is exactly the container `createHiddenServiceV3PrivKeyFile` writes: 97
bytes, made of the tag, three zero bytes, 64 key bytes and a line feed. -/
def InContainerFormat (content : Str) : Prop :=
  content.length = 97 ∧ content = keyFileContent ((content.take 96).drop 32)

instance (content : Str) : Decidable (InContainerFormat content) := by
  unfold InContainerFormat; infer_instance

/-- A disk whose key file exists and is empty, and that holds no certificate. -/
def diskWithEmptyKeyFile : Disk :=
  { files := [(goStr "tls/cert.key", FileContent.noPEM [])], readOnly := [], writeLog := [] }

/-- The process state of a capsule whose configuration names `Example.org`, Tor off; the
host list is the domain list, as `startGeminiServer` sets it. -/
def mixedCaseGlobals : Globals :=
  { configData := initConfig [goStr "Example.org"]
    torAddress := []
    geminiHostList := [goStr "Example.org"] }

/-- The process state of a capsule whose configuration names `Example.org` and that is
reachable at the onion address `abcd.onion` on the virtual port 1966, while it listens on
port 1965; the host list is the domain list, as `startGeminiServer` sets it. -/
def mixedCaseOnionGlobals : Globals :=
  { configData :=
      { initConfig [goStr "Example.org"] with
          Gemini := { (initConfig [goStr "Example.org"]).Gemini with Tor := { VirtualPort := 1966 } } }
    torAddress := goStr "abcd.onion"
    geminiHostList := [goStr "Example.org", goStr "abcd.onion"] }

/-! ## Runes and white space (`unicode/utf8`, `unicode`, `strings`) -/

/-- Go `utf8.RuneError`. -/
def RuneError : Nat := 0xFFFD

/-- Go `utf8.RuneSelf`. -/
def RuneSelf : Nat := 0x80

/-- Go `utf8.DecodeRuneInString`: the first rune of `s` and its width in bytes; an
encoding that is not valid gives `RuneError` and the width 1, the empty string
`RuneError` and the width 0. -/
def utf8DecodeRuneInString (s : Str) : Nat × Nat :=
  match s with
  | [] => (RuneError, 0)
  | s0 :: _ =>
    if s0 < RuneSelf then (s0, 1)
    else if s0 < 0xC2 ∨ 0xF5 ≤ s0 then (RuneError, 1)
    else
      let sz := if s0 < 0xE0 then 2 else if s0 < 0xF0 then 3 else 4
      let lo := if s0 = 0xE0 then 0xA0 else if s0 = 0xF0 then 0x90 else 0x80
      let hi := if s0 = 0xED then 0x9F else if s0 = 0xF4 then 0x8F else 0xBF
      if s.length < sz then (RuneError, 1)
      else if s.getD 1 0 < lo ∨ hi < s.getD 1 0 then (RuneError, 1)
      else if sz ≤ 2 then (((s0 &&& 0x1F) <<< 6) ||| (s.getD 1 0 &&& 0x3F), 2)
      else if s.getD 2 0 < 0x80 ∨ 0xBF < s.getD 2 0 then (RuneError, 1)
      else if sz ≤ 3 then
        (((s0 &&& 0x0F) <<< 12) ||| ((s.getD 1 0 &&& 0x3F) <<< 6) ||| (s.getD 2 0 &&& 0x3F), 3)
      else if s.getD 3 0 < 0x80 ∨ 0xBF < s.getD 3 0 then (RuneError, 1)
      else
        (((s0 &&& 0x07) <<< 18) ||| ((s.getD 1 0 &&& 0x3F) <<< 12) |||
          ((s.getD 2 0 &&& 0x3F) <<< 6) ||| (s.getD 3 0 &&& 0x3F), 4)

/-- Go `utf8.RuneStart`: the byte is not a continuation byte. -/
def utf8RuneStart (b : Nat) : Bool := b &&& 0xC0 != 0x80

/-- The offset at which `utf8.DecodeLastRuneInString` starts to decode: its loop steps
back from the byte before the last one, over at most three bytes, to a byte that starts
a rune, and an offset below zero becomes zero. -/
def lastRuneStart (s : Str) : Nat :=
  let len := s.length
  if 2 ≤ len ∧ utf8RuneStart (s.getD (len - 2) 0) then len - 2
  else if 3 ≤ len ∧ utf8RuneStart (s.getD (len - 3) 0) then len - 3
  else if 4 ≤ len ∧ utf8RuneStart (s.getD (len - 4) 0) then len - 4
  else len - 5

/-- Go `utf8.DecodeLastRuneInString`: the last rune of `s` and its width in bytes. -/
def utf8DecodeLastRuneInString (s : Str) : Nat × Nat :=
  if s.length = 0 then (RuneError, 0)
  else if s.getD (s.length - 1) 0 < RuneSelf then (s.getD (s.length - 1) 0, 1)
  else if lastRuneStart s + (utf8DecodeRuneInString (s.drop (lastRuneStart s))).2 ≠ s.length then
    (RuneError, 1)
  else utf8DecodeRuneInString (s.drop (lastRuneStart s))

/-- Go `unicode.IsSpace`. -/
def unicodeIsSpace (r : Nat) : Bool :=
  if r ≤ 0xFF then
    r == 0x09 || r == 0x0A || r == 0x0B || r == 0x0C || r == 0x0D || r == 0x20 ||
      r == 0x85 || r == 0xA0
  else
    r == 0x1680 || (0x2000 ≤ r && r ≤ 0x200A) || r == 0x2028 || r == 0x2029 ||
      r == 0x202F || r == 0x205F || r == 0x3000

/-- Go `strings.indexFunc` over the rest `s` of a string, which starts at the byte
offset `i`: the offset of the first rune `r` with `f r = truth`, or -1. -/
def indexFuncFrom (f : Nat → Bool) (truth : Bool) : Nat → Nat → Str → Int
  | 0, _, _ => -1
  | fuel + 1, i, s =>
    if s.length = 0 then -1
    else if f (utf8DecodeRuneInString s).1 = truth then (i : Int)
    else indexFuncFrom f truth fuel (i + (utf8DecodeRuneInString s).2)
      (s.drop (utf8DecodeRuneInString s).2)

/-- Go `strings.indexFunc`. -/
def indexFunc (s : Str) (f : Nat → Bool) (truth : Bool) : Int :=
  indexFuncFrom f truth s.length 0 s

/-- Go `strings.lastIndexFunc` over the start `s` of a string: the offset of the last
rune `r` with `f r = truth`, or -1. -/
def lastIndexFuncLoop (f : Nat → Bool) (truth : Bool) : Nat → Str → Int
  | 0, _ => -1
  | fuel + 1, s =>
    if s.length = 0 then -1
    else if f (utf8DecodeLastRuneInString s).1 = truth then
      ((s.length - (utf8DecodeLastRuneInString s).2 : Nat) : Int)
    else lastIndexFuncLoop f truth fuel (s.take (s.length - (utf8DecodeLastRuneInString s).2))

/-- Go `strings.lastIndexFunc`. -/
def lastIndexFunc (s : Str) (f : Nat → Bool) (truth : Bool) : Int :=
  lastIndexFuncLoop f truth s.length s

/-- Go `strings.TrimLeftFunc`. -/
def stringsTrimLeftFunc (s : Str) (f : Nat → Bool) : Str :=
  if indexFunc s f false = -1 then [] else s.drop (indexFunc s f false).toNat

/-- Go `strings.TrimRightFunc`. -/
def stringsTrimRightFunc (s : Str) (f : Nat → Bool) : Str :=
  let i := lastIndexFunc s f false
  if 0 ≤ i ∧ RuneSelf ≤ s.getD i.toNat 0 then
    s.take (i.toNat + (utf8DecodeRuneInString (s.drop i.toNat)).2)
  else s.take (i + 1).toNat

/-- Go `strings.TrimSpace`: `s` without the white space runes at its start and at its
end. The loops that Go runs first over the bytes below `RuneSelf` remove white space of
one byte and leave the rest to the two functions below. -/
def stringsTrimSpace (s : Str) : Str :=
  stringsTrimRightFunc (stringsTrimLeftFunc s unicodeIsSpace) unicodeIsSpace

/-- The fields found so far, with the field that is open when the scan stops. -/
def closeField (cur : Option Str) (rest : List Str) : List Str :=
  match cur with
  | some field => field :: rest
  | none => rest

/-- The loop of Go `strings.FieldsFunc` over the runes of `s`; `cur` is the field that is
open, if any. -/
def fieldsFuncLoop (f : Nat → Bool) : Nat → Option Str → Str → List Str
  | 0, cur, _ => closeField cur []
  | fuel + 1, cur, s =>
    if s.length = 0 then closeField cur []
    else if f (utf8DecodeRuneInString s).1 then
      closeField cur (fieldsFuncLoop f fuel none (s.drop (utf8DecodeRuneInString s).2))
    else
      fieldsFuncLoop f fuel (some (cur.getD [] ++ s.take (utf8DecodeRuneInString s).2))
        (s.drop (utf8DecodeRuneInString s).2)

/-- Go `strings.FieldsFunc`. -/
def stringsFieldsFunc (s : Str) (f : Nat → Bool) : List Str :=
  fieldsFuncLoop f s.length none s

/-- Go `strings.Fields`: the maximal runs of runes of `s` that are not white space. -/
def stringsFields (s : Str) : List Str := stringsFieldsFunc s unicodeIsSpace

/-! ## Gemtext lines (`gemtext.go`) -/

def GEMTEXT_TEXT : Nat := 0
def GEMTEXT_LINK : Nat := 1
def GEMTEXT_PREFORMATTED_TOGGLE : Nat := 2
def GEMTEXT_PREFORMATTED_TEXT : Nat := 3
def GEMTEXT_HEADING : Nat := 4
def GEMTEXT_LIST_ITEM : Nat := 5
def GEMTEXT_QUOTE : Nat := 6

/-- Go `gemtextLine`. -/
structure gemtextLine where
  lineType : Nat
  text : Str
  path : Str
  altText : Str
  level : Nat
deriving DecidableEq, Repr

/-- The zero value of `gemtextLine`, which `parseGemtextLine` starts from. -/
def gemtextLine.zero : gemtextLine :=
  { lineType := 0, text := [], path := [], altText := [], level := 0 }

/-- Go `parseGemtextLine`. -/
def parseGemtextLine (line : Str) (preformattedToggle : Bool) : gemtextLine :=
  let g := gemtextLine.zero
  if !preformattedToggle then
    if hasPrefix line (goStr "```") then
      { g with lineType := GEMTEXT_PREFORMATTED_TOGGLE
               altText := stringsTrimSpace (line.drop 3) }
    else if hasPrefix line (goStr "####") then
      { g with lineType := GEMTEXT_TEXT, text := stringsTrimSpace line }
    else if hasPrefix line (goStr "###") then
      { g with lineType := GEMTEXT_HEADING, level := 3, text := stringsTrimSpace (line.drop 3) }
    else if hasPrefix line (goStr "##") then
      { g with lineType := GEMTEXT_HEADING, level := 2, text := stringsTrimSpace (line.drop 2) }
    else if hasPrefix line (goStr "#") then
      { g with lineType := GEMTEXT_HEADING, level := 1, text := stringsTrimSpace (line.drop 1) }
    else if hasPrefix line (goStr "* ") then
      { g with lineType := GEMTEXT_LIST_ITEM, text := stringsTrimSpace (line.drop 2) }
    else if hasPrefix line (goStr "=> ") || hasPrefix line (goStr "=>\t") then
      let lineFields := stringsFields (stringsTrimSpace (line.drop 3))
      if lineFields.length > 0 then
        { g with lineType := GEMTEXT_LINK
                 path := lineFields.getD 0 []
                 text := stringsTrimSpace (line.drop (3 + (lineFields.getD 0 []).length)) }
      else { g with lineType := GEMTEXT_LINK }
    else if hasPrefix line (goStr ">") then
      { g with lineType := GEMTEXT_QUOTE, text := stringsTrimSpace (line.drop 1) }
    else
      { g with lineType := GEMTEXT_TEXT, text := stringsTrimSpace line }
  else
    if hasPrefix line (goStr "```") then
      { g with lineType := GEMTEXT_PREFORMATTED_TOGGLE }
    else
      { g with lineType := GEMTEXT_PREFORMATTED_TEXT, text := line }

/-! ## Lemmas on the string functions -/

theorem hasPrefix_iff (s p : Str) : hasPrefix s p = true ↔ p <+: s := by
  induction p generalizing s with
  | nil => simp [hasPrefix]
  | cons a p ih =>
    cases s with
    | nil => simp [hasPrefix]
    | cons b s =>
      rw [hasPrefix, List.cons_prefix_cons, Bool.and_eq_true, ih, beq_iff_eq]
      constructor
      · rintro ⟨h1, h2⟩; exact ⟨h1.symm, h2⟩
      · rintro ⟨h1, h2⟩; exact ⟨h1.symm, h2⟩

theorem OccursAt.bound {sep s : Str} {i : Nat} (hsep : sep ≠ []) (h : OccursAt sep s i) :
    i + sep.length ≤ s.length := by
  have hp : sep <+: s.drop i := (hasPrefix_iff _ _).1 h
  have hl := hp.length_le
  rw [List.length_drop] at hl
  have : 0 < sep.length := List.length_pos.2 hsep
  omega

/-- Characterisation of the search loop of `strings.Index`. -/
theorem indexFrom_spec (sep : Str) (hsep : sep ≠ []) (s : Str) (k : Nat) :
    (indexFrom sep s k = -1 ∧ ∀ j, ¬ OccursAt sep s j) ∨
    (∃ i, indexFrom sep s k = ((k + i : Nat) : Int) ∧ OccursAt sep s i ∧
      ∀ j, j < i → ¬ OccursAt sep s j) := by
  induction s generalizing k with
  | nil =>
    left
    refine ⟨by simp [indexFrom, hsep], ?_⟩
    intro j h
    have h1 := h.bound hsep
    have h2 : 0 < sep.length := List.length_pos.2 hsep
    rw [List.length_nil] at h1
    omega
  | cons c cs ih =>
    by_cases hp : hasPrefix (c :: cs) sep = true
    · right
      exact ⟨0, by simp [indexFrom, hp], by simpa [OccursAt] using hp, by intro j hj; omega⟩
    · rcases ih (k + 1) with ⟨h1, h2⟩ | ⟨i, h1, h2, h3⟩
      · left
        refine ⟨by simp [indexFrom, hp, h1], ?_⟩
        intro j
        cases j with
        | zero => simpa [OccursAt] using hp
        | succ j => simpa [OccursAt] using h2 j
      · right
        refine ⟨i + 1, ?_, by simpa [OccursAt] using h2, ?_⟩
        · simp [indexFrom, hp, h1]; omega
        · intro j hj
          cases j with
          | zero => simpa [OccursAt] using hp
          | succ j => simpa [OccursAt] using h3 j (by omega)

theorem stringsIndex_eq_iff (sep : Str) (hsep : sep ≠ []) (s : Str) (i : Nat) :
    stringsIndex s sep = (i : Int) ↔ OccursAt sep s i ∧ ∀ j, j < i → ¬ OccursAt sep s j := by
  unfold stringsIndex
  rcases indexFrom_spec sep hsep s 0 with ⟨h1, h2⟩ | ⟨i0, h1, h2, h3⟩
  · rw [h1]
    constructor
    · intro h; omega
    · intro h; exact absurd h.1 (h2 i)
  · rw [h1]
    constructor
    · intro h
      have : i0 = i := by omega
      subst this
      exact ⟨h2, h3⟩
    · rintro ⟨h4, h5⟩
      have : i0 = i := by
        rcases Nat.lt_trichotomy i0 i with h | h | h
        · exact absurd h2 (h5 i0 h)
        · exact h
        · exact absurd h4 (h3 i h)
      subst this
      simp

theorem stringsIndex_neg_iff (sep : Str) (hsep : sep ≠ []) (s : Str) :
    stringsIndex s sep < 0 ↔ ∀ j, ¬ OccursAt sep s j := by
  unfold stringsIndex
  rcases indexFrom_spec sep hsep s 0 with ⟨h1, h2⟩ | ⟨i0, h1, h2, _⟩
  · rw [h1]; simp; exact h2
  · rw [h1]
    constructor
    · intro h; omega
    · intro h; exact absurd h2 (h i0)

theorem stringsIndex_zero_iff (sep : Str) (hsep : sep ≠ []) (s : Str) :
    stringsIndex s sep = 0 ↔ hasPrefix s sep = true := by
  have h := stringsIndex_eq_iff sep hsep s 0
  simp [OccursAt] at h
  simpa using h

theorem goStr_crlf : goStr "\r\n" = [13, 10] := by decide

/-- The terminator test of `handleGeminiRequest` passes exactly on the requests that end
in a single CRLF. -/
theorem crlf_check_iff (addr : Str) :
    ¬ (stringsIndex addr (goStr "\r\n") < 0 ∨
        stringsIndex addr (goStr "\r\n") ≠ (addr.length : Int) - 2) ↔
      SingleTrailingCRLF addr := by
  have hsep : goStr "\r\n" ≠ [] := by decide
  have hlen : (goStr "\r\n").length = 2 := by decide
  constructor
  · intro h
    have h1 : ¬ stringsIndex addr (goStr "\r\n") < 0 := fun h' => h (Or.inl h')
    have h2 : stringsIndex addr (goStr "\r\n") = (addr.length : Int) - 2 := by
      by_contra h'; exact h (Or.inr h')
    have hl : 2 ≤ addr.length := by omega
    have h3 : stringsIndex addr (goStr "\r\n") = ((addr.length - 2 : Nat) : Int) := by omega
    rw [stringsIndex_eq_iff _ hsep] at h3
    refine ⟨hl, fun i _ => ⟨fun ho => ?_, fun hi => ?_⟩⟩
    · have hb := ho.bound hsep
      rw [hlen] at hb
      by_contra hne
      exact h3.2 i (by omega) ho
    · have : i = addr.length - 2 := by omega
      rw [this]; exact h3.1
  · rintro ⟨hl, h⟩
    have h3 : stringsIndex addr (goStr "\r\n") = ((addr.length - 2 : Nat) : Int) := by
      rw [stringsIndex_eq_iff _ hsep]
      refine ⟨(h _ (by omega)).2 (by omega), fun j hj ho => ?_⟩
      have := (h j (by omega)).1 ho
      omega
    omega

/-! ## The checks on the raw bytes -/

theorem strconvItoa_59 : strconvItoa 59 = [53, 57] := by decide

theorem strconvItoa_20 : strconvItoa 20 = [50, 48] := by decide

theorem handleGeminiRequest_invalid_utf8 (rt : Runtime) (g : Globals) (conn : Conn) (addr : Str)
    (h : utf8ValidString addr = false) :
    handleGeminiRequest rt g conn addr = invalidRequest conn := by
  simp [handleGeminiRequest, h]

theorem handleGeminiRequest_unterminated (rt : Runtime) (g : Globals) (conn : Conn) (addr : Str)
    (h : utf8ValidString addr = true) (hc : ¬ SingleTrailingCRLF addr) :
    handleGeminiRequest rt g conn addr = conn := by
  have hc2 := (not_congr (crlf_check_iff addr)).2 hc
  rw [not_not] at hc2
  unfold handleGeminiRequest
  simp only [h, Bool.not_true, Bool.false_eq_true, if_false]
  rw [if_pos hc2]

theorem handleGeminiRequest_terminated (rt : Runtime) (g : Globals) (conn : Conn) (addr : Str)
    (h : utf8ValidString addr = true) (hc : SingleTrailingCRLF addr) :
    handleGeminiRequest rt g conn addr =
      if 1024 < addr.length - 2 then invalidRequest conn
      else handleRequestLine rt g conn (addr.take (addr.length - 2)) := by
  have hc2 := (crlf_check_iff addr).2 hc
  have hl := hc.1
  have hidx : stringsIndex addr (goStr "\r\n") = (addr.length : Int) - 2 := by
    by_contra h'; exact hc2 (Or.inr h')
  unfold handleGeminiRequest
  simp only [h, Bool.not_true, Bool.false_eq_true, if_false]
  rw [if_neg hc2, hidx]
  by_cases hlen : 1024 < addr.length - 2
  · rw [if_pos hlen, if_pos]
    left; omega
  · rw [if_neg hlen, if_neg]
    intro h'
    rcases h' with h' | h'
    · omega
    · exact h' rfl

theorem invalidRequest_fresh :
    invalidRequest Conn.fresh =
      { written := goStr "59 Invalid Request\r\n", writable := true, opened := [] } := by
  decide

theorem invalidRequest_written (conn : Conn) :
    (invalidRequest conn).written = conn.written ∨
      (invalidRequest conn).written =
        conn.written ++ geminiHeader 59 (goStr "Invalid Request") := by
  unfold invalidRequest sendGeminiResponseHeader Conn.Write STATUS_BAD_REQUEST
  cases conn.writable <;> simp

theorem geminiHeader_ne_nil (status : Int) (meta : Str) : geminiHeader status meta ≠ [] := by
  have h : goStr "\r\n" = [13, 10] := by decide
  simp [geminiHeader, h]

theorem header59_not_header20 (m1 m2 : Str) : geminiHeader 59 m1 ≠ geminiHeader 20 m2 := by
  unfold geminiHeader
  rw [strconvItoa_59, strconvItoa_20]
  intro h
  simp at h

theorem utf8Scan_ascii (s : Str) (h : ∀ b ∈ s, b < 0x80) : utf8Scan 0 0 0 s = true := by
  induction s with
  | nil => rfl
  | cons b s ih =>
    have hb : b < 0x80 := h b (List.mem_cons_self _ _)
    rw [utf8Scan, if_pos rfl, if_pos hb]
    exact ih (fun c hc => h c (List.mem_cons_of_mem _ hc))

theorem utf8ValidString_ascii (s : Str) (h : ∀ b ∈ s, b < 0x80) : utf8ValidString s = true :=
  utf8Scan_ascii s h

theorem singleTrailingCRLF_append (body : Str) (h : 13 ∉ body) :
    SingleTrailingCRLF (body ++ [13, 10]) := by
  induction body with
  | nil => decide
  | cons c body ih =>
    have hc : c ≠ 13 := fun e => h (e ▸ List.mem_cons_self _ _)
    obtain ⟨_, h2⟩ := ih (fun hm => h (List.mem_cons_of_mem _ hm))
    refine ⟨by simp, fun i hi => ?_⟩
    cases i with
    | zero =>
      simp [OccursAt, goStr_crlf, hasPrefix, hc]
    | succ i =>
      have := h2 i (by simpa using hi)
      simp only [OccursAt, List.cons_append, List.drop_succ_cons, List.length_cons] at this ⊢
      rw [this]
      omega

/-! ## The checks on the request line -/

theorem withPath_Scheme (u : URL) (p : Str) : (u.withPath p).Scheme = u.Scheme := by
  unfold URL.withPath URL.setPath
  cases unescape p Encoding.encodePath <;> rfl

theorem withPath_Host (u : URL) (p : Str) : (u.withPath p).Host = u.Host := by
  unfold URL.withPath URL.setPath
  cases unescape p Encoding.encodePath <;> rfl

/-- Resolving a URL that has a scheme against itself changes its path only. -/
theorem ResolveReference_self (u : URL) (h : u.Scheme ≠ []) :
    u.ResolveReference u = u.withPath (resolvePath u.EscapedPath []) := by
  unfold URL.ResolveReference
  simp only [h, if_false, ne_eq, not_false_eq_true, true_or, if_true]

theorem ResolveReference_Scheme (u : URL) (h : u.Scheme ≠ []) :
    (u.ResolveReference u).Scheme = u.Scheme := by
  rw [ResolveReference_self u h, withPath_Scheme]

theorem ResolveReference_Host (u : URL) (h : u.Scheme ≠ []) :
    (u.ResolveReference u).Host = u.Host := by
  rw [ResolveReference_self u h, withPath_Host]

theorem ResolveReference_Hostname (u : URL) (h : u.Scheme ≠ []) :
    (u.ResolveReference u).Hostname = u.Hostname := by
  unfold URL.Hostname; rw [ResolveReference_Host u h]

theorem ResolveReference_Port (u : URL) (h : u.Scheme ≠ []) :
    (u.ResolveReference u).Port = u.Port := by
  unfold URL.Port; rw [ResolveReference_Host u h]

theorem goStr_bom : goStr "\uFEFF" = [0xEF, 0xBB, 0xBF] := by decide

theorem strconvItoa_default_port : strconvItoa GEMINI_DEFAULT_PORT = goStr "1965" := by decide

/-- What `handleGeminiRequest` does with a request that passes checks 1 to 4: check 5 on
the parsed URL, then the policy checks 6 to 8, then the dispatch. -/
theorem handleGeminiRequest_parsed (rt : Runtime) (g : Globals) (conn : Conn) (addr : Str)
    (u : URL) (hc : PassesSyntaxChecks rt addr u) :
    handleGeminiRequest rt g conn addr =
      match filepathRel u.Hostname (u.Hostname ++ u.Path) with
      | none => invalidRequest conn
      | some urlRelPath =>
        if hasPrefix urlRelPath (goStr "..") = true then invalidRequest conn
        else if rt.stringsToLower u.Scheme ≠ goStr "gemini" then
          (sendGeminiResponseHeader conn STATUS_PROXY_REQUEST_REFUSED (goStr "Invalid Scheme")).1
        else if (getGeminiHostPortValid rt g u.Hostname).2 = false then
          (sendGeminiResponseHeader conn STATUS_PROXY_REQUEST_REFUSED (goStr "Invalid Host")).1
        else if requestedPort u ≠ (getGeminiHostPortValid rt g u.Hostname).1 then
          (sendGeminiResponseHeader conn STATUS_PROXY_REQUEST_REFUSED (goStr "Invalid Port")).1
        else handleGeminiResponseBody rt g conn (u.ResolveReference u).Path u.Host := by
  rw [handleGeminiRequest_terminated rt g conn addr hc.utf8 hc.crlf,
    if_neg (by have := hc.size; omega)]
  have hbom : ¬ stringsIndex (addr.take (addr.length - 2)) (goStr "\uFEFF") = 0 := by
    rw [stringsIndex_zero_iff _ (by decide), hc.bom]; simp
  have hhs : ¬ (u.Hostname = [] ∨ u.Scheme = []) := by
    rintro (h | h)
    · exact hc.host h
    · exact hc.scheme h
  unfold handleRequestLine
  simp only [hbom, if_false, hc.parsed, hhs]
  cases hrel : filepathRel u.Hostname (u.Hostname ++ u.Path) with
  | none => rfl
  | some rel =>
    simp only [stringsIndex_zero_iff _ (show goStr ".." ≠ [] by decide)]
    by_cases hdd : hasPrefix rel (goStr "..") = true
    · rw [if_pos hdd, if_pos hdd]
    · rw [if_neg hdd, if_neg hdd]
      simp only [ResolveReference_Scheme u hc.scheme, ResolveReference_Hostname u hc.scheme,
        ResolveReference_Port u hc.scheme, ResolveReference_Host u hc.scheme,
        strconvItoa_default_port]
      by_cases hs : rt.stringsToLower u.Scheme ≠ goStr "gemini"
      · rw [if_pos hs, if_pos hs]
      · rw [if_neg hs, if_neg hs]
        rcases hv : getGeminiHostPortValid rt g u.Hostname with ⟨serverPort, validHost⟩
        cases validHost <;> simp [requestedPort]

/-- What `handleGeminiRequest` does with a request that passes checks 1 to 5: the policy
checks 6 to 8 on the parsed URL, then the dispatch. -/
theorem handleGeminiRequest_checked (rt : Runtime) (g : Globals) (conn : Conn) (addr : Str)
    (u : URL) (hc : PassesStructureChecks rt addr u) :
    handleGeminiRequest rt g conn addr =
      if rt.stringsToLower u.Scheme ≠ goStr "gemini" then
        (sendGeminiResponseHeader conn STATUS_PROXY_REQUEST_REFUSED (goStr "Invalid Scheme")).1
      else if (getGeminiHostPortValid rt g u.Hostname).2 = false then
        (sendGeminiResponseHeader conn STATUS_PROXY_REQUEST_REFUSED (goStr "Invalid Host")).1
      else if requestedPort u ≠ (getGeminiHostPortValid rt g u.Hostname).1 then
        (sendGeminiResponseHeader conn STATUS_PROXY_REQUEST_REFUSED (goStr "Invalid Port")).1
      else handleGeminiResponseBody rt g conn (u.ResolveReference u).Path u.Host := by
  rw [handleGeminiRequest_parsed rt g conn addr u hc.syntactic]
  have hin := hc.inside
  unfold PathCheckPasses at hin
  cases hrel : filepathRel u.Hostname (u.Hostname ++ u.Path) with
  | none => rw [hrel] at hin; exact hin.elim
  | some rel =>
    rw [hrel] at hin
    simp only [hin, Bool.false_eq_true, if_false]

theorem hasPrefix_of_climbsAbove (rel : Str) (h : ClimbsAbove rel) :
    hasPrefix rel (goStr "..") = true := by
  rcases h with h | h
  · rw [h]; decide
  · rw [hasPrefix_iff] at h ⊢
    exact List.IsPrefix.trans (by decide) h

theorem hostPortLoop_valid (rt : Runtime) (g : Globals) (h : Str) (l : List Str) :
    (hostPortLoop rt g h l).2 = true ↔ rt.stringsToLower h ∈ l := by
  induction l with
  | nil => simp [hostPortLoop]
  | cons x l ih =>
    unfold hostPortLoop
    by_cases hx : rt.stringsToLower h = x
    · rw [if_pos hx]
      have hm : rt.stringsToLower h ∈ x :: l := hx ▸ List.mem_cons_self _ _
      simp only [hm, iff_true]
      by_cases ht : x = g.torAddress
      · rw [if_pos ht]
      · rw [if_neg ht]
        cases rt.urlParse (goStr "//" ++ g.configData.Gemini.ListeningLocation) <;> rfl
    · rw [if_neg hx, ih]
      simp [hx]

theorem hostPortLoop_port (rt : Runtime) (g : Globals) (h : Str) (l : List Str)
    (hm : rt.stringsToLower h ∈ l) :
    hostPortLoop rt g h l =
      (if rt.stringsToLower h = g.torAddress
        then strconvItoa g.configData.Gemini.Tor.VirtualPort else listeningPort rt g, true) := by
  induction l with
  | nil => simp at hm
  | cons x l ih =>
    unfold hostPortLoop
    by_cases hx : rt.stringsToLower h = x
    · rw [if_pos hx, hx]
      by_cases ht : x = g.torAddress
      · rw [if_pos ht, if_pos ht]
      · rw [if_neg ht, if_neg ht]
        unfold listeningPort
        cases rt.urlParse (goStr "//" ++ g.configData.Gemini.ListeningLocation) <;> rfl
    · rw [if_neg hx]
      exact ih (by
        rcases List.mem_cons.1 hm with h1 | h1
        · exact absurd h1 hx
        · exact h1)

/-! ## The content dispatch -/

theorem gemtextLoop_gmi (rt : Runtime) (conn : Conn) (path c : Str)
    (h : rt.osReadFile (path ++ goStr ".gmi") = some c) :
    getGemtextContent rt conn path = (conn.touch (path ++ goStr ".gmi"), c, true) := by
  simp [getGemtextContent, gemtextLoop, h]

theorem gemtextLoop_gemini (rt : Runtime) (conn : Conn) (path c : Str)
    (h1 : rt.osReadFile (path ++ goStr ".gmi") = none)
    (h2 : rt.osReadFile (path ++ goStr ".gemini") = some c) :
    getGemtextContent rt conn path =
      ((conn.touch (path ++ goStr ".gmi")).touch (path ++ goStr ".gemini"), c, true) := by
  simp [getGemtextContent, gemtextLoop, h1, h2]

theorem gemtextLoop_none (rt : Runtime) (conn : Conn) (path : Str)
    (h1 : rt.osReadFile (path ++ goStr ".gmi") = none)
    (h2 : rt.osReadFile (path ++ goStr ".gemini") = none) :
    getGemtextContent rt conn path =
      ((conn.touch (path ++ goStr ".gmi")).touch (path ++ goStr ".gemini"), [], false) := by
  simp [getGemtextContent, gemtextLoop, h1, h2]

theorem geminiHeader_success : geminiHeader STATUS_SUCCESS (goStr "text/gemini") =
    goStr "20 text/gemini\r\n" := by decide

theorem geminiHeader_not_found : geminiHeader STATUS_NOT_FOUND (goStr "Page Not Found") =
    goStr "51 Page Not Found\r\n" := by decide

/-- The dispatch on a path without extension that is no feed: what is written to a
connection that accepts writes. -/
theorem handleGeminiResponseBody_gemtext (rt : Runtime) (g : Globals) (conn : Conn)
    (urlPath host : Str) (hw : conn.writable = true)
    (hext : (normalizeGeminiPath urlPath).2 = [])
    (hrss : isRSSFeed g (normalizeGeminiPath urlPath).1 = false) :
    (handleGeminiResponseBody rt g conn urlPath host).written =
      conn.written ++
        match (getGemtextContent rt conn
          (g.configData.Gemini.DataPath ++ goStr "/" ++ (normalizeGeminiPath urlPath).1)).2 with
        | (content, true) => goStr "20 text/gemini\r\n" ++ content
        | (_, false) => goStr "51 Page Not Found\r\n" := by
  unfold handleGeminiResponseBody
  rcases hn : normalizeGeminiPath urlPath with ⟨np, ne⟩
  rw [hn] at hext hrss
  simp only at hext hrss
  subst hext
  simp only [if_true, hrss, Bool.not_false]
  have hopen : ∀ l (c : Conn), c.writable = true →
      (gemtextLoop rt (g.configData.Gemini.DataPath ++ goStr "/" ++ np) l c).1.writable = true ∧
      (gemtextLoop rt (g.configData.Gemini.DataPath ++ goStr "/" ++ np) l c).1.written =
        c.written := by
    intro l
    induction l with
    | nil => intro c hc; exact ⟨hc, rfl⟩
    | cons e l ih =>
      intro c hc
      unfold gemtextLoop
      cases rt.osReadFile (g.configData.Gemini.DataPath ++ goStr "/" ++ np ++ e) with
      | none => exact ih _ hc
      | some x => exact ⟨hc, rfl⟩
  have h := hopen [goStr ".gmi", goStr ".gemini"] conn hw
  unfold getGemtextContent
  rcases hg : gemtextLoop rt (g.configData.Gemini.DataPath ++ goStr "/" ++ np)
    [goStr ".gmi", goStr ".gemini"] conn with ⟨c1, content, ex⟩
  rw [hg] at h
  simp only at h
  cases ex
  · simp [sendGeminiResponseHeader, Conn.Write, h.1, h.2, geminiHeader_not_found]
  · simp [sendGeminiResponseHeader, Conn.Write, h.1, h.2, geminiHeader_success]

/-! ## Path normalisation -/

theorem goStr_gmi : goStr ".gmi" = [46, 103, 109, 105] := by decide

theorem goStr_gemini : goStr ".gemini" = [46, 103, 101, 109, 105, 110, 105] := by decide

theorem goStr_slash : goStr "/" = [47] := by decide

theorem filepathExt_append_gmi (p : Str) : filepathExt (p ++ goStr ".gmi") = goStr ".gmi" := by
  simp [filepathExt, extScan, goStr_gmi, Separator]

theorem filepathExt_append_gemini (p : Str) :
    filepathExt (p ++ goStr ".gemini") = goStr ".gemini" := by
  simp [filepathExt, extScan, goStr_gemini, Separator]

theorem normalizeGeminiPath_plain (p : Str) (hext : filepathExt p = [])
    (hslash : p.getLast? ≠ some 47) :
    normalizeGeminiPath p = (if p = [] then goStr "/index" else p, []) := by
  have h1 : ¬ (0 < p.length ∧ p.getLast? = some 47) := fun h => hslash h.2
  unfold normalizeGeminiPath
  simp only [h1, if_false, hext]
  simp [goStr_gmi, goStr_gemini]

theorem normalizeGeminiPath_slash (p : Str) (hext : filepathExt p = [])
    (hslash : p.getLast? ≠ some 47) :
    normalizeGeminiPath (p ++ goStr "/") = normalizeGeminiPath p := by
  rw [normalizeGeminiPath_plain p hext hslash]
  have h1 : 0 < (p ++ goStr "/").length ∧ (p ++ goStr "/").getLast? = some 47 := by
    simp [goStr_slash]
  have h2 : (p ++ goStr "/").take ((p ++ goStr "/").length - 1) = p := by
    simp [goStr_slash]
  unfold normalizeGeminiPath
  simp only [h1, and_self, if_true, h2, hext]
  simp [goStr_gmi, goStr_gemini]

theorem normalizeGeminiPath_gmi (p : Str) (hext : filepathExt p = [])
    (hslash : p.getLast? ≠ some 47) :
    normalizeGeminiPath (p ++ goStr ".gmi") = normalizeGeminiPath p := by
  rw [normalizeGeminiPath_plain p hext hslash]
  have h1 : ¬ (0 < (p ++ goStr ".gmi").length ∧ (p ++ goStr ".gmi").getLast? = some 47) := by
    simp [goStr_gmi]
  have h2 : (p ++ goStr ".gmi").take ((p ++ goStr ".gmi").length - (goStr ".gmi").length)
      = p := by
    simp
  unfold normalizeGeminiPath
  simp only [h1, if_false, filepathExt_append_gmi, h2]
  simp

theorem normalizeGeminiPath_gemini (p : Str) (hext : filepathExt p = [])
    (hslash : p.getLast? ≠ some 47) :
    normalizeGeminiPath (p ++ goStr ".gemini") = normalizeGeminiPath p := by
  rw [normalizeGeminiPath_plain p hext hslash]
  have h1 : ¬ (0 < (p ++ goStr ".gemini").length ∧
      (p ++ goStr ".gemini").getLast? = some 47) := by
    simp [goStr_gemini]
  have h2 : (p ++ goStr ".gemini").take
      ((p ++ goStr ".gemini").length - (goStr ".gemini").length) = p := by
    simp
  unfold normalizeGeminiPath
  simp only [h1, if_false, filepathExt_append_gemini, h2]
  simp

theorem handleGeminiResponseBody_congr (rt : Runtime) (g : Globals) (conn : Conn)
    (p q host : Str) (h : normalizeGeminiPath p = normalizeGeminiPath q) :
    handleGeminiResponseBody rt g conn p host = handleGeminiResponseBody rt g conn q host := by
  unfold handleGeminiResponseBody
  rw [h]

/-! ## The certificate manager -/

theorem getDomainList_ne_nil (g : Globals) : getDomainList g ≠ [] := by
  unfold getDomainList
  by_cases h1 : g.configData.Gemini.DomainNames.length = 0 <;>
    by_cases h2 : g.torAddress ≠ [] <;> simp [h1, h2]
  · intro h; simp [h] at h1

theorem domainLoopRegenerates_iff (domainList dnsNames l : List Str) :
    domainLoopRegenerates domainList dnsNames l = true ↔
      l ≠ [] ∧ (domainList.length ≠ dnsNames.length ∨ ∃ d ∈ l, d ∉ dnsNames) := by
  induction l with
  | nil => simp [domainLoopRegenerates]
  | cons d l ih =>
    unfold domainLoopRegenerates
    by_cases hlen : domainList.length = dnsNames.length
    · by_cases hd : d ∈ dnsNames
      · have hany : dnsNames.any (fun certDomain => d == certDomain) = true := by
          simp only [List.any_eq_true, beq_iff_eq]
          exact ⟨d, hd, rfl⟩
        simp only [hany, hlen]
        simp only [Bool.not_true, bne_self_eq_false, Bool.or_self, Bool.false_eq_true, if_false,
          ih]
        constructor
        · rintro ⟨_, h | ⟨x, hx, hx2⟩⟩
          · exact (h hlen).elim
          · exact ⟨by simp, Or.inr ⟨x, List.mem_cons_of_mem _ hx, hx2⟩⟩
        · rintro ⟨_, h | ⟨x, hx, hx2⟩⟩
          · exact (h rfl).elim
          · rcases List.mem_cons.1 hx with hx | hx
            · exact absurd (hx ▸ hd) hx2
            · exact ⟨List.ne_nil_of_mem hx, Or.inr ⟨x, hx, hx2⟩⟩
      · have hany : dnsNames.any (fun certDomain => d == certDomain) = false := by
          rw [Bool.eq_false_iff]
          intro h
          simp only [List.any_eq_true, beq_iff_eq] at h
          obtain ⟨x, hx, rfl⟩ := h
          exact hd hx
        simp only [hany, Bool.not_false, Bool.true_or, if_true, true_iff]
        exact ⟨by simp, Or.inr ⟨d, List.mem_cons_self _ _, hd⟩⟩
    · have hne : (domainList.length != dnsNames.length) = true := by simpa using hlen
      simp only [hne, Bool.or_true, if_true, true_iff]
      exact ⟨by simp, Or.inl hlen⟩

/-- On a domain list without repetition, the loop of `loadTLSCert` regenerates exactly
when the subject alternative names differ from the domain list in size or in members. -/
theorem domainLoopRegenerates_nodup (domainList dnsNames : List Str)
    (hne : domainList ≠ []) (hnd : domainList.Nodup) :
    domainLoopRegenerates domainList dnsNames domainList = false ↔
      SameSizeAndMembers dnsNames domainList := by
  rw [← Bool.not_eq_true, domainLoopRegenerates_iff]
  unfold SameSizeAndMembers
  constructor
  · intro h
    have hlen : domainList.length = dnsNames.length := by
      by_contra hl; exact h ⟨hne, Or.inl hl⟩
    have hsub : ∀ d ∈ domainList, d ∈ dnsNames := by
      intro d hd
      by_contra hn; exact h ⟨hne, Or.inr ⟨d, hd, hn⟩⟩
    have hperm : domainList.Perm dnsNames :=
      (List.subperm_of_subset hnd hsub).perm_of_length_le (by omega)
    exact ⟨hlen.symm, fun d hd => hperm.symm.subset hd, hsub⟩
  · rintro ⟨hlen, _, hsub⟩ ⟨_, h | ⟨d, hd, hn⟩⟩
    · exact h hlen.symm
    · exact hn (hsub d hd)

theorem find?_filter_other (fs : List (Str × FileContent)) (a b : Str) (h : b ≠ a) :
    (fs.filter (fun f => f.1 != a)).find? (fun f => f.1 == b) =
      fs.find? (fun f => f.1 == b) := by
  induction fs with
  | nil => rfl
  | cons f fs ih =>
    by_cases hf : f.1 = a
    · have h2 : (f.1 == b) = false := by
        rw [hf]; simpa using Ne.symm h
      simp only [List.filter_cons, List.find?_cons, hf, bne_self_eq_false, Bool.false_eq_true,
        if_false]
      rw [hf] at h2
      rw [h2]
      exact ih
    · have h1 : (f.1 != a) = true := by simp [hf]
      simp only [List.filter_cons, h1, if_true, List.find?_cons]
      cases (f.1 == b)
      · exact ih
      · rfl

theorem getTLSKey_of_loaded (g : Globals) (disk : Disk) (cert : TLSCertificate)
    (h : tlsLoadX509KeyPair disk g.configData.Gemini.TLS.CertPath
      g.configData.Gemini.TLS.KeyPath = some cert) :
    ∃ k, getTLSKey g disk = Outcome.ok k := by
  unfold tlsLoadX509KeyPair at h
  unfold getTLSKey
  cases hk : disk.read g.configData.Gemini.TLS.KeyPath with
  | none => exact ⟨none, rfl⟩
  | some content =>
    cases content with
    | noPEM b =>
      rw [hk] at h
      cases hc : disk.read g.configData.Gemini.TLS.CertPath with
      | none => rw [hc] at h; simp at h
      | some c => rw [hc] at h; cases c <;> simp at h
    | certificatePEM c => exact ⟨none, rfl⟩
    | pkcs8KeyPEM k => exact ⟨some k, rfl⟩
    | legacyKeyPEM k => exact ⟨none, rfl⟩
    | otherPEM b => exact ⟨none, rfl⟩

theorem tlsX509KeyPair_eq_some {cert : X509Certificate} {key : PrivateKey}
    {pair : TLSCertificate} (h : tlsX509KeyPair cert key = some pair) :
    pair = { Certificate := cert, PrivateKey := key } ∧ key.kind ≠ KeyKind.other ∧
      cert.PublicKey = key := by
  unfold tlsX509KeyPair at h
  by_cases hc : key.kind ≠ KeyKind.other ∧ cert.PublicKey = key
  · rw [if_pos hc] at h
    exact ⟨(Option.some.inj h).symm, hc.1, hc.2⟩
  · rw [if_neg hc] at h; cases h

theorem loaded_key_supported (disk : Disk) (certFile keyFile : Str) (cert : TLSCertificate)
    (h : tlsLoadX509KeyPair disk certFile keyFile = some cert) :
    cert.PrivateKey.kind ≠ KeyKind.other := by
  unfold tlsLoadX509KeyPair at h
  cases hc : disk.read certFile with
  | none => rw [hc] at h; simp at h
  | some c =>
    cases hk : disk.read keyFile with
    | none => rw [hc, hk] at h; cases c <;> simp at h
    | some k =>
      rw [hc, hk] at h
      cases c <;> cases k <;> simp at h
      all_goals
        obtain ⟨h1, h2, _⟩ := tlsX509KeyPair_eq_some h
        rw [h1]; exact h2

theorem generateNewTLSCertFromKey_supported (g : Globals) (rand : Entropy) (key : PrivateKey)
    (h : key.kind ≠ KeyKind.other) (hia5 : (getDomainList g).all isIA5String = true) :
    ∃ cert, generateNewTLSCertFromKey g rand key = Outcome.ok (cert, key) ∧
      cert.DNSNames = getDomainList g ∧ cert.PublicKey = key := by
  unfold generateNewTLSCertFromKey publicKeyFromPrivateKey x509CreateCertificate
  cases hk : key.kind with
  | other => exact absurd hk h
  | ed25519 => simp only [hia5, if_true]; exact ⟨_, rfl, rfl, rfl⟩
  | ecdsa => simp only [hia5, if_true]; exact ⟨_, rfl, rfl, rfl⟩
  | rsa => simp only [hia5, if_true]; exact ⟨_, rfl, rfl, rfl⟩

/-- A domain list with a name that is not an IA5String stops `generateNewTLSCertFromKey`
with a fatal error, whatever the key. -/
theorem generateNewTLSCertFromKey_not_ia5 (g : Globals) (rand : Entropy) (key : PrivateKey)
    (hia5 : (getDomainList g).all isIA5String = false) :
    generateNewTLSCertFromKey g rand key =
      Outcome.fatal (goStr "Unable to generate TLS certificate") := by
  unfold generateNewTLSCertFromKey x509CreateCertificate
  cases publicKeyFromPrivateKey key with
  | none => rfl
  | some pub => simp only [hia5]; rfl

/-- What `loadTLSCert` does when the pair on disk loads: the loop decides between keeping
the pair and making a new certificate for the loaded key, of which only the certificate
file is written. -/
theorem loadTLSCert_loaded (g : Globals) (rand : Entropy) (disk : Disk) (cert : TLSCertificate)
    (hload : tlsLoadX509KeyPair disk g.configData.Gemini.TLS.CertPath
      g.configData.Gemini.TLS.KeyPath = some cert)
    (hw : g.configData.Gemini.TLS.CertPath ∉ disk.readOnly) :
    (domainLoopRegenerates (getDomainList g) cert.Certificate.DNSNames (getDomainList g) = false →
      loadTLSCert g rand disk = Outcome.ok (cert, disk)) ∧
    (domainLoopRegenerates (getDomainList g) cert.Certificate.DNSNames (getDomainList g) = true →
      (getDomainList g).all isIA5String = true →
      ∃ newCert disk1, loadTLSCert g rand disk =
          Outcome.ok ({ Certificate := newCert, PrivateKey := cert.PrivateKey }, disk1) ∧
        newCert.DNSNames = getDomainList g ∧
        disk1.writeLog = disk.writeLog ++ [g.configData.Gemini.TLS.CertPath] ∧
        disk1.read g.configData.Gemini.TLS.KeyPath =
          disk.read g.configData.Gemini.TLS.KeyPath) ∧
    (domainLoopRegenerates (getDomainList g) cert.Certificate.DNSNames (getDomainList g) = true →
      (getDomainList g).all isIA5String = false →
      loadTLSCert g rand disk = Outcome.fatal (goStr "Unable to generate TLS certificate")) := by
  obtain ⟨k, hk⟩ := getTLSKey_of_loaded g disk cert hload
  have hkind := loaded_key_supported disk _ _ cert hload
  refine ⟨?_, ?_, ?_⟩
  · intro hloop
    unfold loadTLSCert
    rw [hk]
    simp only [Outcome.andThen, hload, hloop, Bool.false_eq_true, if_false]
  · intro hloop hia5
    obtain ⟨newCert, hgen, hdns, hpub⟩ :=
      generateNewTLSCertFromKey_supported g rand cert.PrivateKey hkind hia5
    have hpair : tlsX509KeyPair newCert cert.PrivateKey =
        some { Certificate := newCert, PrivateKey := cert.PrivateKey } := by
      unfold tlsX509KeyPair
      rw [if_pos ⟨hkind, hpub⟩]
    refine ⟨newCert,
      { disk with
          files := (g.configData.Gemini.TLS.CertPath, FileContent.certificatePEM newCert) ::
            disk.files.filter (fun f => f.1 != g.configData.Gemini.TLS.CertPath)
          writeLog := disk.writeLog ++ [g.configData.Gemini.TLS.CertPath] },
      ?_, hdns, ?_, ?_⟩
    · unfold loadTLSCert
      rw [hk]
      simp only [Outcome.andThen, hload, hloop, if_true, hgen, writeTLSCert, Disk.write, hw,
        if_false, handleErr, hpair]
    · rfl
    · by_cases hp : g.configData.Gemini.TLS.KeyPath = g.configData.Gemini.TLS.CertPath
      · exfalso
        unfold tlsLoadX509KeyPair at hload
        rw [hp] at hload
        cases hc : disk.read g.configData.Gemini.TLS.CertPath with
        | none => rw [hc] at hload; simp at hload
        | some c => rw [hc] at hload; cases c <;> simp at hload
      · simp only [Disk.read]
        rw [List.find?_cons_of_neg _ (by simpa using Ne.symm hp), find?_filter_other _ _ _ hp]
  · intro hloop hia5
    unfold loadTLSCert
    rw [hk]
    simp only [Outcome.andThen, hload, hloop, if_true,
      generateNewTLSCertFromKey_not_ia5 g rand _ hia5]

/-! ## The domain list and the names of the certificate -/

theorem getDomainList_eq (g : Globals) :
    getDomainList g =
      configuredNames g ++ (if g.torAddress = [] then [] else [g.torAddress]) := by
  unfold getDomainList configuredNames
  by_cases h1 : g.configData.Gemini.DomainNames = [] <;>
    by_cases h2 : g.torAddress = [] <;> simp [h1, h2]

theorem sameSizeAndMembers_refl (l : List Str) : SameSizeAndMembers l l :=
  ⟨rfl, fun _ h => h, fun _ h => h⟩

theorem generateNewTLSCertFromKey_names (g : Globals) (rand : Entropy) (key : PrivateKey)
    (generated : X509Certificate × PrivateKey)
    (h : generateNewTLSCertFromKey g rand key = Outcome.ok generated) :
    generated.1.DNSNames = getDomainList g := by
  unfold generateNewTLSCertFromKey x509CreateCertificate at h
  cases hp : publicKeyFromPrivateKey key with
  | none => rw [hp] at h; simp [handleErr, Outcome.andThen] at h
  | some pub =>
    rw [hp] at h
    cases hia5 : (getDomainList g).all isIA5String with
    | false => simp [hia5, handleErr, Outcome.andThen] at h
    | true =>
      simp only [hia5, if_true, handleErr, Outcome.andThen, Outcome.ok.injEq] at h
      rw [← h]

theorem andThen_eq_ok {α β : Type} {o : Outcome α} {f : α → Outcome β} {b : β}
    (h : o.andThen f = Outcome.ok b) : ∃ a, o = Outcome.ok a ∧ f a = Outcome.ok b := by
  cases o with
  | ok a => exact ⟨a, rfl, h⟩
  | fatal m => simp [Outcome.andThen] at h
  | panic => simp [Outcome.andThen] at h

theorem handleErr_eq_ok {α : Type} {r : Option α} {m : Str} {a : α}
    (h : handleErr r m = Outcome.ok a) : r = some a := by
  cases r with
  | none => simp [handleErr] at h
  | some x => simp only [handleErr, Outcome.ok.injEq] at h; rw [h]

/-- The names of the certificate `loadTLSCert` returns: the domain list itself when the
certificate is made anew, and names that pass the loop when the loaded pair is kept. -/
theorem loadTLSCert_names (g : Globals) (rand : Entropy) (disk disk1 : Disk)
    (cert : TLSCertificate) (h : loadTLSCert g rand disk = Outcome.ok (cert, disk1)) :
    cert.Certificate.DNSNames = getDomainList g ∨
      (tlsLoadX509KeyPair disk g.configData.Gemini.TLS.CertPath
          g.configData.Gemini.TLS.KeyPath = some cert ∧
        domainLoopRegenerates (getDomainList g) cert.Certificate.DNSNames (getDomainList g)
          = false) := by
  unfold loadTLSCert at h
  obtain ⟨tlsPrivKey, _, h⟩ := andThen_eq_ok h
  cases hl : tlsLoadX509KeyPair disk g.configData.Gemini.TLS.CertPath
      g.configData.Gemini.TLS.KeyPath with
  | none =>
    rw [hl] at h
    simp only at h
    obtain ⟨generated, hgen, h⟩ := andThen_eq_ok h
    obtain ⟨d1, _, h⟩ := andThen_eq_ok h
    obtain ⟨d2, _, h⟩ := andThen_eq_ok h
    obtain ⟨c, hc, h⟩ := andThen_eq_ok h
    have hpair := (tlsX509KeyPair_eq_some (handleErr_eq_ok hc)).1
    simp only [Outcome.ok.injEq, Prod.mk.injEq] at h
    left
    rw [← h.1, hpair]
    cases tlsPrivKey with
    | none => exact generateNewTLSCertFromKey_names g rand _ generated hgen
    | some k => exact generateNewTLSCertFromKey_names g rand _ generated hgen
  | some loaded =>
    rw [hl] at h
    simp only at h
    cases hloop : domainLoopRegenerates (getDomainList g) loaded.Certificate.DNSNames
        (getDomainList g) with
    | true =>
      rw [hloop] at h
      simp only [if_true] at h
      obtain ⟨generated, hgen, h⟩ := andThen_eq_ok h
      obtain ⟨d1, _, h⟩ := andThen_eq_ok h
      obtain ⟨c, hc, h⟩ := andThen_eq_ok h
      have hpair := (tlsX509KeyPair_eq_some (handleErr_eq_ok hc)).1
      simp only [Outcome.ok.injEq, Prod.mk.injEq] at h
      left
      rw [← h.1, hpair]
      exact generateNewTLSCertFromKey_names g rand _ generated hgen
    | false =>
      rw [hloop] at h
      simp only [Bool.false_eq_true, if_false, Outcome.ok.injEq, Prod.mk.injEq] at h
      right
      rw [← h.1]
      exact ⟨rfl, hloop⟩

/-! ## The encodings -/

set_option maxRecDepth 8192

theorem asciiToLower_append (a b : Str) :
    asciiToLower (a ++ b) = asciiToLower a ++ asciiToLower b := by
  simp [asciiToLower]

theorem asciiToLower_length (a : Str) : (asciiToLower a).length = a.length := by
  simp [asciiToLower]

theorem base32Char_lower : ∀ i, i < 32 → ∀ ch ∈ asciiToLower [base32Char i], IsBase32Lower ch := by
  decide

theorem base32Block_lower (b0 b1 b2 b3 b4 : Nat) (h0 : b0 < 256) (h1 : b1 < 256)
    (h2 : b2 < 256) (h3 : b3 < 256) (h4 : b4 < 256) :
    ∀ ch ∈ asciiToLower (base32Block b0 b1 b2 b3 b4), IsBase32Lower ch := by
  intro ch hch
  have key : ∀ i, i < 32 → ch ∈ asciiToLower [base32Char i] → IsBase32Lower ch :=
    fun i hi hm => base32Char_lower i hi ch hm
  simp only [base32Block, asciiToLower, List.map_cons, List.map_nil, List.mem_cons,
    List.mem_singleton, List.not_mem_nil, or_false] at hch
  rcases hch with h | h | h | h | h | h | h | h
  · exact key (b0 / 8) (by omega) (by simp [asciiToLower, h])
  · exact key ((b0 % 8) * 4 + b1 / 64) (by omega) (by simp [asciiToLower, h])
  · exact key ((b1 / 2) % 32) (by omega) (by simp [asciiToLower, h])
  · exact key ((b1 % 2) * 16 + b2 / 16) (by omega) (by simp [asciiToLower, h])
  · exact key ((b2 % 16) * 2 + b3 / 128) (by omega) (by simp [asciiToLower, h])
  · exact key ((b3 / 4) % 32) (by omega) (by simp [asciiToLower, h])
  · exact key ((b3 % 4) * 8 + b4 / 32) (by omega) (by simp [asciiToLower, h])
  · exact key (b4 % 32) (by omega) (by simp [asciiToLower, h])

/-- On a whole number of five-byte groups `base32` writes eight characters per group, all
of them letters or the digits 2 to 7: no padding. -/
theorem base32Encode_blocks (k : Nat) : ∀ l : Str, l.length = 5 * k → (∀ b ∈ l, b < 256) →
    (base32Encode l).length = 8 * k ∧
      ∀ ch ∈ asciiToLower (base32Encode l), IsBase32Lower ch := by
  induction k with
  | zero =>
    intro l hl _
    have : l = [] := List.length_eq_zero.1 (by omega)
    subst this
    exact ⟨rfl, by simp [base32Encode, asciiToLower]⟩
  | succ k ih =>
    intro l hl hb
    rcases l with _ | ⟨b0, _ | ⟨b1, _ | ⟨b2, _ | ⟨b3, _ | ⟨b4, rest⟩⟩⟩⟩⟩
    any_goals (simp only [List.length_cons, List.length_nil] at hl; omega)
    have hrest : rest.length = 5 * k := by
      simp only [List.length_cons] at hl; omega
    obtain ⟨ih1, ih2⟩ := ih rest hrest (fun b hm => hb b (by simp [hm]))
    rw [base32Encode]
    constructor
    · rw [List.length_append, ih1]
      simp [base32Block]
      omega
    · intro ch hch
      rw [asciiToLower_append, List.mem_append] at hch
      rcases hch with h | h
      · exact base32Block_lower b0 b1 b2 b3 b4 (hb _ (by simp)) (hb _ (by simp))
          (hb _ (by simp)) (hb _ (by simp)) (hb _ (by simp)) ch h
      · exact ih2 ch h

/-! ## The hidden-service key -/

theorem goStr_onion : goStr ".onion" = [46, 111, 110, 105, 111, 110] := by decide

theorem ByteDisk.read_write (disk disk1 : ByteDisk) (path content : Str)
    (h : disk.write path content = some disk1) : disk1.read path = some content := by
  unfold ByteDisk.write at h
  by_cases hr : path ∈ disk.readOnly
  · rw [if_pos hr] at h; cases h
  · rw [if_neg hr] at h
    cases h
    simp [ByteDisk.read]

theorem ByteDisk.write_of_writable (disk : ByteDisk) (path content : Str)
    (h : path ∉ disk.readOnly) : ∃ disk1, disk.write path content = some disk1 := by
  unfold ByteDisk.write
  rw [if_neg h]
  exact ⟨_, rfl⟩

theorem keyFileContent_length (k : Str) : (keyFileContent k).length = 33 + k.length := by
  have h : (goStr "== ed25519v1-secret: type0 ==").length = 29 := by decide
  simp only [keyFileContent, List.length_append, h, List.length_cons, List.length_nil]
  omega

theorem keyFileContent_key (k : Str) (hk : k.length = 64) :
    ((keyFileContent k).take 96).drop 32 = k := by
  have h : (goStr "== ed25519v1-secret: type0 ==" ++ [0, 0, 0]).length = 32 := by decide
  unfold keyFileContent
  rw [List.take_append_eq_append_take, h, List.take_of_length_le (by rw [h]; omega),
    List.drop_append_eq_append_drop, h, List.drop_of_length_le (by rw [h]), Nat.sub_self,
    List.nil_append, List.drop_zero, List.take_append_eq_append_take, hk,
    List.take_of_length_le (by omega)]
  simp

/-- What `getHiddenServiceV3PrivKey` does with a key file of at least 96 bytes. -/
theorem getHiddenServiceV3PrivKey_loaded (c : Crypto) (seed : Option Str) (g : Globals)
    (disk : ByteDisk) (content : Str)
    (hr : disk.read g.configData.Tor.HiddenServicePrivateKeyPath = some content)
    (hl : 96 ≤ content.length) :
    getHiddenServiceV3PrivKey c seed g disk =
      Outcome.ok (base64Encode ((content.take 96).drop 32), g, disk) := by
  unfold getHiddenServiceV3PrivKey
  simp only [hr, Option.getD_some]
  rw [if_neg]
  rintro (h | h)
  · cases h
  · omega

/-- What `getHiddenServiceV3PrivKey` does without a key file, or with one shorter than 96
bytes. -/
theorem getHiddenServiceV3PrivKey_generated (c : Crypto) (seed : Option Str) (g : Globals)
    (disk : ByteDisk)
    (hr : disk.read g.configData.Tor.HiddenServicePrivateKeyPath = none ∨
      ∃ content, disk.read g.configData.Tor.HiddenServicePrivateKeyPath = some content ∧
        content.length < 96) :
    getHiddenServiceV3PrivKey c seed g disk =
      (generateHiddenServiceV3PubPrivKey c seed).andThen fun keys =>
        Outcome.ok (base64Encode keys.2,
          { g with torAddress := encodeHiddenServicePublicKey c keys.1 },
          createHiddenServiceV3PrivKeyFile g disk keys.2) := by
  unfold getHiddenServiceV3PrivKey
  simp only
  rw [if_pos]
  rcases hr with h | ⟨content, h, hl⟩
  · exact Or.inl h
  · right; rw [h]; exact hl

/-- The expanded key `generateHiddenServiceV3PubPrivKey` returns for a seed of 32 bytes:
the SHA-512 digest of the seed with its first and its thirty-second byte changed. -/
theorem generateHiddenServiceV3PubPrivKey_eq (c : Crypto) (seed : Str) (hs : seed.length = 32) :
    generateHiddenServiceV3PubPrivKey c (some seed) =
      Outcome.ok (c.ed25519PublicKey seed,
        ((c.sha512Sum512 seed).set 0 ((c.sha512Sum512 seed).getD 0 0 &&& 248)).set 31
          ((((c.sha512Sum512 seed).getD 31 0) &&& 63) ||| 64)) := by
  have hl := c.sha512_length seed
  have ht : (seed ++ c.ed25519PublicKey seed).take 32 = seed := by
    rw [List.take_append_eq_append_take, List.take_of_length_le (by omega), hs]
    simp
  unfold generateHiddenServiceV3PubPrivKey
  simp only [ht]
  congr 2
  generalize c.sha512Sum512 seed = h at hl
  simp only [List.getD_eq_getElem?_getD, List.getElem?_set, List.length_set, hl, List.set_set]
  simp

theorem clamp_first : ∀ x, x < 256 → (x &&& 248) % 8 = 0 ∧ (x &&& 248) < 256 := by decide

theorem clamp_last : ∀ x, x < 256 → 64 ≤ ((x &&& 63) ||| 64) ∧ ((x &&& 63) ||| 64) ≤ 127 := by
  decide

theorem testBit_248 : ∀ j, j < 8 → Nat.testBit 248 j = decide (3 ≤ j) := by decide

theorem testBit_63 : ∀ j, j < 8 → Nat.testBit 63 j = decide (j < 6) := by decide

theorem testBit_64 : ∀ j, j < 8 → Nat.testBit 64 j = decide (j = 6) := by decide

theorem bits_first (x j : Nat) (hj : j < 8) :
    Nat.testBit (x &&& 248) j = if j < 3 then false else Nat.testBit x j := by
  rw [Nat.testBit_and, testBit_248 j hj]
  by_cases h : j < 3
  · have h3 : ¬ 3 ≤ j := by omega
    simp [h, h3]
  · have h3 : 3 ≤ j := by omega
    simp [h, h3]

theorem bits_last (x j : Nat) (hj : j < 8) :
    Nat.testBit ((x &&& 63) ||| 64) j =
      if j = 7 then false else if j = 6 then true else Nat.testBit x j := by
  rw [Nat.testBit_or, Nat.testBit_and, testBit_63 j hj, testBit_64 j hj]
  by_cases h7 : j = 7
  · simp [h7]
  · by_cases h6 : j = 6
    · simp [h6]
    · have : j < 6 := by omega
      simp [h7, h6, this]

theorem getD_mem (l : Str) (i : Nat) (h : i < l.length) : l.getD i 0 ∈ l := by
  rw [List.getD_eq_getElem _ _ h]
  exact List.getElem_mem h

theorem clamped_getD (h : Str) (a b : Nat) (hl : h.length = 64) (i : Nat) :
    ((h.set 0 a).set 31 b).getD i 0 =
      if i = 31 then b else if i = 0 then a else h.getD i 0 := by
  simp only [List.getD_eq_getElem?_getD, List.getElem?_set, List.length_set, hl]
  by_cases h31 : i = 31
  · subst h31; simp
  · by_cases h0 : i = 0
    · subst h0; simp
    · simp [h31, h0, Ne.symm h31, Ne.symm h0]

theorem getHiddenServiceV3PrivKey_config (c : Crypto) (seed : Option Str) (g g1 : Globals)
    (disk disk1 : ByteDisk) (key : Str)
    (h : getHiddenServiceV3PrivKey c seed g disk = Outcome.ok (key, g1, disk1)) :
    g1.configData = g.configData := by
  unfold getHiddenServiceV3PrivKey at h
  simp only at h
  split at h
  · obtain ⟨keys, _, h⟩ := andThen_eq_ok h
    simp only [Outcome.ok.injEq, Prod.mk.injEq] at h
    rw [← h.2.1]
  · simp only [Outcome.ok.injEq, Prod.mk.injEq] at h
    rw [← h.2.1]

/-! ## Listener locations -/

theorem goStr_tcp : goStr "tcp" = [116, 99, 112] := by decide

theorem goStr_udp : goStr "udp" = [117, 100, 112] := by decide

theorem goStr_unix : goStr "unix" = [117, 110, 105, 120] := by decide

theorem restOfLine_single_line (s : Str) (h : 10 ∉ s) : restOfLine s = s := by
  unfold restOfLine
  induction s with
  | nil => rfl
  | cons x s ih =>
    have hx : x ≠ 10 := fun e => h (e ▸ List.mem_cons_self _ _)
    rw [List.takeWhile_cons_of_pos (by simpa using hx), ih (fun hm => h (List.mem_cons_of_mem _ hm))]

theorem hasProtocolPrefix_iff (s name : Str) :
    hasProtocolPrefix s name = true ↔
      ∃ pre rest, s = pre ++ 58 :: rest ∧ asciiToLower pre = name := by
  unfold hasProtocolPrefix
  rw [Bool.and_eq_true, beq_iff_eq, beq_iff_eq]
  constructor
  · rintro ⟨h1, h2⟩
    refine ⟨s.take name.length, (s.drop name.length).tail, ?_, h1⟩
    cases hd : s.drop name.length with
    | nil => rw [hd] at h2; cases h2
    | cons x xs =>
      rw [hd] at h2
      simp only [List.head?_cons, Option.some.injEq] at h2
      subst h2
      rw [List.tail_cons, ← hd, List.take_append_drop]
  · rintro ⟨pre, rest, hs, hl⟩
    have hlen : pre.length = name.length := by rw [← hl, asciiToLower_length]
    subst hs
    rw [← hlen, List.take_left', List.drop_left']
    · exact ⟨hl, rfl⟩
    · rfl
    · rfl

theorem parseLocation_of_three (s pre rest name : Str) (hline : 10 ∉ s)
    (hs : s = pre ++ 58 :: rest) (hl : asciiToLower pre = name)
    (hname : name = goStr "tcp" ∨ name = goStr "udp") : parseLocation s = (name, rest) := by
  have hp : hasProtocolPrefix s name = true := (hasProtocolPrefix_iff s name).2 ⟨pre, rest, hs, hl⟩
  have h3 : pre.length = 3 := by
    rw [← asciiToLower_length, hl]
    rcases hname with h | h <;> rw [h] <;> decide
  have hcond : hasProtocolPrefix s (goStr "tcp") = true ∨ hasProtocolPrefix s (goStr "udp") = true := by
    rcases hname with h | h
    · left; rw [← h]; exact hp
    · right; rw [← h]; exact hp
  have hrest : 10 ∉ rest := fun hm => hline (by rw [hs]; simp [hm])
  have ht : s.take 3 = pre := by rw [hs, ← h3, List.take_left']; rfl
  have hd : s.drop 4 = rest := by
    rw [hs, show 4 = pre.length + 1 by omega, List.drop_append]
    rfl
  have hne : name ≠ [] := by rcases hname with h | h <;> rw [h] <;> decide
  unfold parseLocation locationPathReFindStringSubmatch
  rw [if_pos hcond]
  simp [ht, hd, hl, hne, restOfLine_single_line rest hrest]

theorem not_three_of_unix (s pre rest : Str) (hs : s = pre ++ 58 :: rest)
    (hl : asciiToLower pre = goStr "unix") :
    ¬ (hasProtocolPrefix s (goStr "tcp") = true ∨ hasProtocolPrefix s (goStr "udp") = true) := by
  rcases pre with _ | ⟨a, _ | ⟨b, _ | ⟨c, _ | ⟨d, _ | ⟨e, pre⟩⟩⟩⟩⟩
  any_goals (simp [asciiToLower, goStr_unix] at hl)
  subst hs
  obtain ⟨_, _, _, hd⟩ := hl
  have hd58 : d ≠ 58 := by
    intro h; subst h; simp at hd
  rintro (h | h)
  · simp [hasProtocolPrefix, goStr_tcp, hd58] at h
  · simp [hasProtocolPrefix, goStr_udp, hd58] at h

theorem parseLocation_of_unix (s pre rest : Str) (hline : 10 ∉ s)
    (hs : s = pre ++ 58 :: rest) (hl : asciiToLower pre = goStr "unix") :
    parseLocation s = (goStr "unix", rest) := by
  have hp : hasProtocolPrefix s (goStr "unix") = true :=
    (hasProtocolPrefix_iff s _).2 ⟨pre, rest, hs, hl⟩
  have h4 : pre.length = 4 := by
    rw [← asciiToLower_length, hl]; decide
  have hrest : 10 ∉ rest := fun hm => hline (by rw [hs]; simp [hm])
  have ht : s.take 4 = pre := by rw [hs, ← h4, List.take_left']; rfl
  have hd : s.drop 5 = rest := by
    rw [hs, show 5 = pre.length + 1 by omega, List.drop_append]
    rfl
  unfold parseLocation locationPathReFindStringSubmatch
  rw [if_neg (not_three_of_unix s pre rest hs hl), if_pos hp]
  simp [ht, hd, hl, goStr_unix, restOfLine_single_line rest hrest]

theorem parseLocation_protocol (s : Str) :
    (parseLocation s).1 = goStr "tcp" ∨ (parseLocation s).1 = goStr "udp" ∨
      (parseLocation s).1 = goStr "unix" := by
  unfold parseLocation locationPathReFindStringSubmatch
  by_cases h1 : hasProtocolPrefix s (goStr "tcp") = true
  · rw [if_pos (Or.inl h1)]
    have : asciiToLower (s.take 3) = goStr "tcp" := by
      simp only [hasProtocolPrefix, Bool.and_eq_true, beq_iff_eq] at h1
      exact h1.1
    left
    simp [this, goStr_tcp]
  · by_cases h2 : hasProtocolPrefix s (goStr "udp") = true
    · rw [if_pos (Or.inr h2)]
      have : asciiToLower (s.take 3) = goStr "udp" := by
        simp only [hasProtocolPrefix, Bool.and_eq_true, beq_iff_eq] at h2
        exact h2.1
      right; left
      simp [this, goStr_udp]
    · rw [if_neg (by rintro (h | h) <;> contradiction)]
      by_cases h3 : hasProtocolPrefix s (goStr "unix") = true
      · rw [if_pos h3]
        have : asciiToLower (s.take 4) = goStr "unix" := by
          simp only [hasProtocolPrefix, Bool.and_eq_true, beq_iff_eq] at h3
          exact h3.1
        right; right
        simp [this, goStr_unix]
      · rw [if_neg h3]
        left
        simp [asciiToLower]

theorem parseLocation_plain (s : Str) (hline : 10 ∉ s)
    (h : ¬ ∃ pre rest, s = pre ++ 58 :: rest ∧
      (asciiToLower pre = goStr "tcp" ∨ asciiToLower pre = goStr "udp" ∨
        asciiToLower pre = goStr "unix")) :
    parseLocation s = (goStr "tcp", s) := by
  have hno : ∀ name, (name = goStr "tcp" ∨ name = goStr "udp" ∨ name = goStr "unix") →
      ¬ hasProtocolPrefix s name = true := by
    intro name hname hp
    obtain ⟨pre, rest, hs, hl⟩ := (hasProtocolPrefix_iff s name).1 hp
    exact h ⟨pre, rest, hs, by rw [hl]; exact hname⟩
  unfold parseLocation locationPathReFindStringSubmatch
  rw [if_neg (by
    rintro (h1 | h1)
    · exact hno _ (Or.inl rfl) h1
    · exact hno _ (Or.inr (Or.inl rfl)) h1),
    if_neg (hno _ (Or.inr (Or.inr rfl)))]
  simp [asciiToLower, restOfLine_single_line s hline]

/-! ## The key file of the certificate manager -/

theorem getTLSKey_noPEM (g : Globals) (disk : Disk) (bytes : Str)
    (h : disk.read g.configData.Gemini.TLS.KeyPath = some (FileContent.noPEM bytes)) :
    getTLSKey g disk = Outcome.panic := by
  unfold getTLSKey
  rw [h]

theorem loadTLSCert_noPEM (g : Globals) (rand : Entropy) (disk : Disk) (bytes : Str)
    (h : disk.read g.configData.Gemini.TLS.KeyPath = some (FileContent.noPEM bytes)) :
    loadTLSCert g rand disk = Outcome.panic := by
  unfold loadTLSCert
  rw [getTLSKey_noPEM g disk bytes h]
  rfl

/-- The key files on which `getTLSKey` reports that there is no key. -/
theorem getTLSKey_no_key (g : Globals) (disk : Disk)
    (h : disk.read g.configData.Gemini.TLS.KeyPath = none ∨
      (∃ cert, disk.read g.configData.Gemini.TLS.KeyPath =
        some (FileContent.certificatePEM cert)) ∨
      (∃ key, disk.read g.configData.Gemini.TLS.KeyPath =
        some (FileContent.legacyKeyPEM key)) ∨
      (∃ bytes, disk.read g.configData.Gemini.TLS.KeyPath =
        some (FileContent.otherPEM bytes))) :
    getTLSKey g disk = Outcome.ok none := by
  unfold getTLSKey
  rcases h with h | ⟨x, h⟩ | ⟨x, h⟩ | ⟨x, h⟩ <;> rw [h]

theorem Disk.write_appends_log (disk : Disk) (path : Str) (content : FileContent)
    (h : path ∉ disk.readOnly) :
    ∃ disk1, disk.write path content = some disk1 ∧
      disk1.writeLog = disk.writeLog ++ [path] ∧ disk1.readOnly = disk.readOnly := by
  unfold Disk.write
  rw [if_neg h]
  exact ⟨_, rfl, rfl, rfl⟩

/-- What `loadTLSCert` does when the pair on disk does not load and the files can be
written: with no key from the key file it makes an ed25519 key and writes certificate and
key; with a key from the key file it makes a certificate for that key and writes the
certificate only. -/
theorem loadTLSCert_unloadable (g : Globals) (rand : Entropy) (disk : Disk)
    (hload : tlsLoadX509KeyPair disk g.configData.Gemini.TLS.CertPath
      g.configData.Gemini.TLS.KeyPath = none)
    (hwc : g.configData.Gemini.TLS.CertPath ∉ disk.readOnly)
    (hwk : g.configData.Gemini.TLS.KeyPath ∉ disk.readOnly)
    (hia5 : (getDomainList g).all isIA5String = true) :
    (getTLSKey g disk = Outcome.ok none →
      ∃ cert disk1, loadTLSCert g rand disk =
          Outcome.ok ({ Certificate := cert,
                        PrivateKey := { kind := KeyKind.ed25519, id := rand.keyId } }, disk1) ∧
        cert.DNSNames = getDomainList g ∧
        cert.PublicKey = { kind := KeyKind.ed25519, id := rand.keyId } ∧
        disk1.writeLog = disk.writeLog ++
          [g.configData.Gemini.TLS.CertPath, g.configData.Gemini.TLS.KeyPath]) ∧
    (∀ key, getTLSKey g disk = Outcome.ok (some key) → key.kind ≠ KeyKind.other →
      ∃ cert disk1, loadTLSCert g rand disk =
          Outcome.ok ({ Certificate := cert, PrivateKey := key }, disk1) ∧
        cert.DNSNames = getDomainList g ∧
        cert.PublicKey = key ∧
        disk1.writeLog = disk.writeLog ++ [g.configData.Gemini.TLS.CertPath]) := by
  constructor
  · intro hk
    obtain ⟨cert, hgen, hdns, hpub⟩ := generateNewTLSCertFromKey_supported g rand
      { kind := KeyKind.ed25519, id := rand.keyId } (by intro h; cases h) hia5
    obtain ⟨d1, hw1, hl1, hr1⟩ := Disk.write_appends_log disk
      g.configData.Gemini.TLS.CertPath (FileContent.certificatePEM cert) hwc
    obtain ⟨d2, hw2, hl2, _⟩ := Disk.write_appends_log d1
      g.configData.Gemini.TLS.KeyPath
      (FileContent.pkcs8KeyPEM { kind := KeyKind.ed25519, id := rand.keyId })
      (by rw [hr1]; exact hwk)
    refine ⟨cert, d2, ?_, hdns, hpub, ?_⟩
    · unfold loadTLSCert
      rw [hk]
      simp only [Outcome.andThen, hload, generateNewTLSCertAndKey, hgen, writeTLSCert,
        writeTLSKey, hw1, hw2, handleErr, if_true]
      simp [tlsX509KeyPair, hpub]
    · rw [hl2, hl1, List.append_assoc]
      rfl
  · intro key hk hkind
    obtain ⟨cert, hgen, hdns, hpub⟩ := generateNewTLSCertFromKey_supported g rand key hkind hia5
    obtain ⟨d1, hw1, hl1, _⟩ := Disk.write_appends_log disk
      g.configData.Gemini.TLS.CertPath (FileContent.certificatePEM cert) hwc
    refine ⟨cert, d1, ?_, hdns, hpub, hl1⟩
    unfold loadTLSCert
    rw [hk]
    simp only [Outcome.andThen, hload, hgen, writeTLSCert, hw1, handleErr, reduceCtorEq,
      if_false]
    simp [tlsX509KeyPair, hpub, hkind]

/-- A domain list with a name that is not an IA5String stops `loadTLSCert` when the pair
on disk does not load, whatever the key file yields. -/
theorem loadTLSCert_unloadable_not_ia5 (g : Globals) (rand : Entropy) (disk : Disk)
    (key : Option PrivateKey)
    (hload : tlsLoadX509KeyPair disk g.configData.Gemini.TLS.CertPath
      g.configData.Gemini.TLS.KeyPath = none)
    (hk : getTLSKey g disk = Outcome.ok key)
    (hia5 : (getDomainList g).all isIA5String = false) :
    loadTLSCert g rand disk = Outcome.fatal (goStr "Unable to generate TLS certificate") := by
  unfold loadTLSCert
  rw [hk]
  cases key with
  | none =>
    simp only [Outcome.andThen, hload, generateNewTLSCertAndKey,
      generateNewTLSCertFromKey_not_ia5 g rand _ hia5]
  | some k =>
    simp only [Outcome.andThen, hload, generateNewTLSCertFromKey_not_ia5 g rand _ hia5]

/-! ## Host names and their letter case -/

theorem getDomainList_mixedCase :
    getDomainList mixedCaseGlobals = mixedCaseGlobals.geminiHostList := by decide

/-! ## White space of one byte -/

theorem utf8DecodeRuneInString_ascii (c : Nat) (r : Str) (h : c < 128) :
    utf8DecodeRuneInString (c :: r) = (c, 1) := by
  unfold utf8DecodeRuneInString
  simp only []
  rw [if_pos (by unfold RuneSelf; exact h)]

theorem utf8DecodeLastRuneInString_ascii (s : Str) (c : Nat) (h : c < 128) :
    utf8DecodeLastRuneInString (s ++ [c]) = (c, 1) := by
  have hlen : (s ++ [c]).length = s.length + 1 := by simp
  have hget : (s ++ [c]).getD ((s ++ [c]).length - 1) 0 = c := by
    rw [hlen, Nat.add_sub_cancel, List.getD_eq_getElem?_getD,
      List.getElem?_append_right (le_refl _)]
    simp
  unfold utf8DecodeLastRuneInString
  rw [if_neg (by rw [hlen]; omega), hget, if_pos (by unfold RuneSelf; exact h)]

/-- The offset `strings.indexFunc` finds after white space of one byte each. -/
theorem indexFuncFrom_spaces (f : Nat → Bool) (ws : Str) (c : Nat) (r : Str)
    (hws : ∀ w ∈ ws, w < 128 ∧ f w = true) (hc : c < 128) (hfc : f c = false) :
    ∀ (fuel i : Nat), (ws ++ c :: r).length ≤ fuel →
      indexFuncFrom f false fuel i (ws ++ c :: r) = ((i + ws.length : Nat) : Int) := by
  induction ws with
  | nil =>
    intro fuel i hfuel
    cases fuel with
    | zero => simp at hfuel
    | succ fuel =>
      rw [List.nil_append, indexFuncFrom, if_neg (by simp),
        utf8DecodeRuneInString_ascii c r hc, if_pos hfc]
      simp
  | cons w ws ih =>
    intro fuel i hfuel
    cases fuel with
    | zero => simp at hfuel
    | succ fuel =>
      have hw := hws w (List.mem_cons_self _ _)
      rw [List.cons_append, indexFuncFrom, if_neg (by simp),
        utf8DecodeRuneInString_ascii w _ hw.1, if_neg (by rw [hw.2]; decide)]
      rw [List.drop_one, List.tail_cons, ih (fun x hx => hws x (List.mem_cons_of_mem _ hx))
        fuel (i + 1) (by simpa using hfuel)]
      simp only [List.length_cons]
      congr 1
      omega

theorem stringsTrimLeftFunc_spaces (f : Nat → Bool) (ws : Str) (c : Nat) (r : Str)
    (hws : ∀ w ∈ ws, w < 128 ∧ f w = true) (hc : c < 128) (hfc : f c = false) :
    stringsTrimLeftFunc (ws ++ c :: r) f = c :: r := by
  unfold stringsTrimLeftFunc indexFunc
  rw [indexFuncFrom_spaces f ws c r hws hc hfc _ 0 (le_refl _)]
  rw [if_neg (by omega)]
  simp

/-- The offset `strings.lastIndexFunc` finds before white space of one byte each. -/
theorem lastIndexFuncLoop_spaces (f : Nat → Bool) (pre : Str) (c : Nat)
    (hc : c < 128) (hfc : f c = false) :
    ∀ (ws : Str), (∀ w ∈ ws, w < 128 ∧ f w = true) →
      ∀ (fuel : Nat), (pre ++ c :: ws).length ≤ fuel →
        lastIndexFuncLoop f false fuel (pre ++ c :: ws) = (pre.length : Int) := by
  intro ws
  induction ws using List.reverseRecOn with
  | nil =>
    intro _ fuel hfuel
    cases fuel with
    | zero => simp at hfuel
    | succ fuel =>
      rw [lastIndexFuncLoop, if_neg (by simp),
        utf8DecodeLastRuneInString_ascii pre c hc, if_pos hfc]
      simp
  | append_singleton ws w ih =>
    intro hws fuel hfuel
    cases fuel with
    | zero => simp at hfuel
    | succ fuel =>
      have hw := hws w (by simp)
      have hs : pre ++ c :: (ws ++ [w]) = (pre ++ c :: ws) ++ [w] := by simp
      rw [hs, lastIndexFuncLoop, if_neg (by simp),
        utf8DecodeLastRuneInString_ascii _ w hw.1, if_neg (by rw [hw.2]; decide)]
      have htake : ((pre ++ c :: ws) ++ [w]).take (((pre ++ c :: ws) ++ [w]).length - 1) =
          pre ++ c :: ws := by
        rw [List.length_append, List.length_singleton, Nat.add_sub_cancel,
          List.take_left]
      rw [htake]
      apply ih (fun x hx => hws x (by simp [hx]))
      rw [hs] at hfuel
      simp only [List.length_append, List.length_singleton] at hfuel
      simp only [List.length_append]
      omega

theorem stringsTrimRightFunc_spaces (f : Nat → Bool) (pre : Str) (c : Nat) (ws : Str)
    (hc : c < 128) (hfc : f c = false) (hws : ∀ w ∈ ws, w < 128 ∧ f w = true) :
    stringsTrimRightFunc (pre ++ c :: ws) f = pre ++ [c] := by
  unfold stringsTrimRightFunc lastIndexFunc
  rw [lastIndexFuncLoop_spaces f pre c hc hfc ws hws _ (le_refl _)]
  have hget : (pre ++ c :: ws).getD pre.length 0 = c := by
    rw [List.getD_eq_getElem?_getD, List.getElem?_append_right (le_refl _)]
    simp
  simp only [Int.toNat_ofNat, hget]
  rw [if_neg (by unfold RuneSelf; omega)]
  have h1 : ((pre.length : Int) + 1).toNat = (pre ++ [c]).length := by
    simp
  rw [h1]
  have hs : pre ++ c :: ws = (pre ++ [c]) ++ ws := by simp
  rw [hs, List.take_left]

/-- The last element of a list that `f` rejects, if there is one. -/
theorem last_rejected (f : Nat → Bool) (l : Str) :
    (∀ x ∈ l, f x = true) ∨
      ∃ a c b, l = a ++ c :: b ∧ f c = false ∧ ∀ x ∈ b, f x = true := by
  induction l with
  | nil => exact Or.inl (fun x hx => by simp at hx)
  | cons y l ih =>
    rcases ih with h | ⟨a, c, b, hl, hc, hb⟩
    · cases hy : f y with
      | true =>
        refine Or.inl (fun x hx => ?_)
        rcases List.mem_cons.mp hx with hx | hx
        · rw [hx, hy]
        · exact h x hx
      | false => exact Or.inr ⟨[], y, l, rfl, hy, h⟩
    · exact Or.inr ⟨y :: a, c, b, by rw [hl]; rfl, hc, hb⟩

/-- What `strings.TrimSpace` leaves of white space of one byte each, a word of bytes
below `RuneSelf` and a rest of such bytes: the word and a start of the rest. -/
theorem stringsTrimSpace_word (ws u rest : Str)
    (hws : ∀ w ∈ ws, w < 128 ∧ unicodeIsSpace w = true) (hu : u ≠ [])
    (hua : ∀ c ∈ u, c < 128 ∧ unicodeIsSpace c = false) (hra : ∀ c ∈ rest, c < 128) :
    ∃ kept, kept <+: rest ∧ stringsTrimSpace (ws ++ u ++ rest) = u ++ kept := by
  unfold stringsTrimSpace
  obtain ⟨c0, u1, hu0⟩ := List.exists_cons_of_ne_nil hu
  have hc0 := hua c0 (by rw [hu0]; exact List.mem_cons_self _ _)
  have hleft : stringsTrimLeftFunc (ws ++ u ++ rest) unicodeIsSpace = u ++ rest := by
    rw [hu0, List.append_assoc, List.cons_append]
    exact stringsTrimLeftFunc_spaces unicodeIsSpace ws c0 (u1 ++ rest) hws hc0.1 hc0.2
  rw [hleft]
  rcases last_rejected unicodeIsSpace rest with h | ⟨a, c, b, hl, hc, hb⟩
  · refine ⟨[], List.nil_prefix, ?_⟩
    have hlast : u = u.dropLast ++ [u.getLast hu] := (List.dropLast_append_getLast hu).symm
    have hcl := hua (u.getLast hu) (List.getLast_mem hu)
    have hs : u ++ rest = u.dropLast ++ u.getLast hu :: rest := by
      conv_lhs => rw [hlast]
      simp
    rw [hs, stringsTrimRightFunc_spaces unicodeIsSpace u.dropLast (u.getLast hu) rest hcl.1
      hcl.2 (fun w hw => ⟨hra w hw, h w hw⟩), List.append_nil]
    exact hlast.symm
  · refine ⟨a ++ [c], ?_, ?_⟩
    · rw [hl]
      exact ⟨b, by simp⟩
    · have hs : u ++ rest = (u ++ a) ++ c :: b := by rw [hl]; simp
      have hcr : c ∈ rest := by rw [hl]; simp
      rw [hs, stringsTrimRightFunc_spaces unicodeIsSpace (u ++ a) c b (hra c hcr) hc
        (fun w hw => ⟨hra w (by rw [hl]; simp [hw]), hb w hw⟩)]
      simp

/-- The first field `strings.FieldsFunc` finds when the scan is inside a word of bytes
below `RuneSelf` that ends with the string or before white space of one byte. -/
theorem fieldsFuncLoop_word (f : Nat → Bool) (tail : Str)
    (htail : ∀ w, tail.head? = some w → w < 128 ∧ f w = true) :
    ∀ (u : Str), (∀ c ∈ u, c < 128 ∧ f c = false) →
      ∀ (fuel : Nat) (cur : Option Str), (u ++ tail).length ≤ fuel →
        cur.isSome = true ∨ u ≠ [] →
        ∃ more, fieldsFuncLoop f fuel cur (u ++ tail) = (cur.getD [] ++ u) :: more := by
  intro u
  induction u with
  | nil =>
    intro _ fuel cur hfuel hcur
    rcases hcur with hcur | hcur
    · obtain ⟨field, hfield⟩ := Option.isSome_iff_exists.mp hcur
      subst hfield
      cases tail with
      | nil =>
        cases fuel with
        | zero => exact ⟨[], by simp [fieldsFuncLoop, closeField]⟩
        | succ fuel => exact ⟨[], by simp [fieldsFuncLoop, closeField]⟩
      | cons w t =>
        cases fuel with
        | zero => simp at hfuel
        | succ fuel =>
          have hw := htail w rfl
          refine ⟨fieldsFuncLoop f fuel none t, ?_⟩
          rw [List.nil_append, fieldsFuncLoop, if_neg (by simp),
            utf8DecodeRuneInString_ascii w t hw.1, if_pos hw.2]
          simp [closeField]
    · exact absurd rfl hcur
  | cons c u ih =>
    intro hu fuel cur hfuel _
    cases fuel with
    | zero => simp at hfuel
    | succ fuel =>
      have hc := hu c (List.mem_cons_self _ _)
      obtain ⟨more, hmore⟩ := ih (fun x hx => hu x (List.mem_cons_of_mem _ hx)) fuel
        (some (cur.getD [] ++ [c])) (by simpa using hfuel) (Or.inl rfl)
      refine ⟨more, ?_⟩
      rw [List.cons_append, fieldsFuncLoop, if_neg (by simp),
        utf8DecodeRuneInString_ascii c _ hc.1, if_neg (by rw [hc.2]; decide)]
      simp only [List.take_succ_cons, List.take_zero, List.drop_succ_cons, List.drop_zero]
      rw [hmore]
      simp

theorem stringsFields_word (u tail : Str) (hu : u ≠ [])
    (hua : ∀ c ∈ u, c < 128 ∧ unicodeIsSpace c = false)
    (htail : ∀ w, tail.head? = some w → w < 128 ∧ unicodeIsSpace w = true) :
    ∃ more, stringsFields (u ++ tail) = u :: more := by
  unfold stringsFields stringsFieldsFunc
  obtain ⟨more, hmore⟩ := fieldsFuncLoop_word unicodeIsSpace tail htail u hua _ none
    (le_refl _) (Or.inr hu)
  exact ⟨more, by rw [hmore]; rfl⟩

theorem goStr_arrow : goStr "=>" = [61, 62] := by decide

/-- What `parseGemtextLine` makes of a link line: `=>`, a space or a tab, more spaces or
tabs `ws`, a word `u` of bytes below `RuneSelf` and a rest of such bytes that is empty or
starts with white space. The path is `u`; the text is cut from the line at the offset 3
plus the length of `u`. -/
theorem parseGemtextLine_link (sep : Nat) (ws u rest : Str)
    (hsep : sep = 32 ∨ sep = 9) (hws : ∀ w ∈ ws, w = 32 ∨ w = 9) (hu : u ≠ [])
    (hua : ∀ c ∈ u, c < 128 ∧ unicodeIsSpace c = false) (hra : ∀ c ∈ rest, c < 128)
    (hr0 : ∀ w, rest.head? = some w → unicodeIsSpace w = true) :
    parseGemtextLine (goStr "=>" ++ sep :: (ws ++ u ++ rest)) false =
      { lineType := GEMTEXT_LINK
        path := u
        text := stringsTrimSpace ((ws ++ u ++ rest).drop u.length)
        altText := []
        level := 0 } := by
  have hws1 : ∀ w ∈ ws, w < 128 ∧ unicodeIsSpace w = true := by
    intro w hw
    rcases hws w hw with h | h <;> subst h <;> decide
  obtain ⟨kept, hkept, htrim⟩ := stringsTrimSpace_word ws u rest hws1 hu hua hra
  have hk0 : ∀ w, kept.head? = some w → w < 128 ∧ unicodeIsSpace w = true := by
    intro w hw
    obtain ⟨t, ht⟩ := hkept
    cases kept with
    | nil => simp at hw
    | cons k kept1 =>
      simp only [List.head?_cons, Option.some.injEq] at hw
      subst hw
      rw [← ht] at hra hr0
      exact ⟨hra k (by simp), hr0 k rfl⟩
  obtain ⟨more, hmore⟩ := stringsFields_word u kept hu hua hk0
  have hprefix : (hasPrefix (61 :: 62 :: sep :: (ws ++ u ++ rest)) (goStr "=> ") ||
      hasPrefix (61 :: 62 :: sep :: (ws ++ u ++ rest)) (goStr "=>\t")) = true := by
    have h1 : goStr "=> " = [61, 62, 32] := by decide
    have h2 : goStr "=>\t" = [61, 62, 9] := by decide
    rw [h1, h2]
    rcases hsep with h | h <;> subst h <;> simp [hasPrefix]
  have hno : ∀ p : Str, p.head? ≠ some 61 → p ≠ [] →
      hasPrefix (61 :: 62 :: sep :: (ws ++ u ++ rest)) p = false := by
    intro p hp hne
    cases p with
    | nil => exact absurd rfl hne
    | cons a p =>
      have ha : a ≠ 61 := fun h => hp (by rw [h]; rfl)
      have ha1 : (61 == a) = false := by
        rw [beq_eq_false_iff_ne]
        exact fun h => ha h.symm
      simp [hasPrefix, ha1]
  unfold parseGemtextLine
  rw [goStr_arrow]
  simp only [List.cons_append, List.nil_append, Bool.not_false, if_true]
  rw [hno (goStr "```") (by decide) (by decide), hno (goStr "####") (by decide) (by decide),
    hno (goStr "###") (by decide) (by decide), hno (goStr "##") (by decide) (by decide),
    hno (goStr "#") (by decide) (by decide), hno (goStr "* ") (by decide) (by decide),
    hprefix]
  simp only [Bool.false_eq_true, if_false, if_true, List.drop_succ_cons, List.drop_zero]
  rw [htrim, hmore]
  simp [gemtextLine.zero, Nat.add_comm 3]

/-! ## The claims -/

set_option maxRecDepth 8192

/-- Supporting C1: a request that passes checks 1 to 4 and whose URL path, taken relative
to the hostname, escapes it (`filepath.Rel` fails or yields `..` as first element) is
answered exactly `59 Invalid Request`; no file is looked up. -/
theorem escaping_path_rejected (rt : Runtime) (g : Globals) (addr : Str) (u : URL)
    (hc : PassesSyntaxChecks rt addr u) (he : EscapesVirtualRoot u) :
    handleGeminiRequest rt g Conn.fresh addr =
      { written := goStr "59 Invalid Request\r\n", writable := true, opened := [] } := by
  rw [handleGeminiRequest_parsed rt g _ addr u hc, ← invalidRequest_fresh]
  unfold EscapesVirtualRoot at he
  cases hrel : filepathRel u.Hostname (u.Hostname ++ u.Path) with
  | none => rfl
  | some rel =>
    rw [hrel] at he
    simp only [hasPrefix_of_climbsAbove rel he, if_true]

/-- An instance of the rejection of escaping paths: `gemini://example.org/../x`. -/
theorem escaping_path_rejected_witness :
    EscapesVirtualRoot
      { URL.zero with Scheme := goStr "gemini", Host := goStr "example.org",
                      Path := goStr "/../x" } ∧
    handleGeminiRequest (goRuntime [(goStr "x.gmi", goStr "secret\n")]) exampleGlobals
        Conn.fresh (goStr "gemini://example.org/../x\r\n") =
      { written := goStr "59 Invalid Request\r\n", writable := true, opened := [] } :=
  ⟨by decide,
   escaping_path_rejected _ exampleGlobals (goStr "gemini://example.org/../x\r\n")
    { URL.zero with Scheme := goStr "gemini", Host := goStr "example.org",
                    Path := goStr "/../x" }
    ⟨by decide, by decide, by decide, by decide, by decide, by decide, by decide⟩
    (by decide)⟩

/-- C1, the code at the failing input: the request
`gemini://example.org/..%2Fexample.org/secret` passes all eight checks, because the decoded
path `/../example.org/secret` is `secret` relative to the hostname `example.org`, and
`ResolveReference` leaves the encoded slash in place. The dispatch then reads
`gemini///../example.org/secret.gmi`, a file outside the data root `gemini/`, and serves
it with status 20. -/
theorem encoded_slash_leaves_data_root :
    (handleGeminiRequest (goRuntime [(goStr "example.org/secret.gmi", goStr "secret\n")])
        exampleGlobals Conn.fresh
        (goStr "gemini://example.org/..%2Fexample.org/secret\r\n")) =
      { written := goStr "20 text/gemini\r\nsecret\n", writable := true,
        opened := [goStr "gemini///../example.org/secret.gmi"] } ∧
    ¬ InsideRoot (goStr "gemini/") (goStr "gemini///../example.org/secret.gmi") ∧
    filepathClean (goStr "gemini///../example.org/secret.gmi") =
      goStr "example.org/secret.gmi" := by
  decide

/-- C2: a request that does not end in exactly one CRLF (CRLF absent, or occurring
anywhere but at the final two bytes only) makes `handleGeminiRequest` write either nothing
or a header with status 59, and never a header with status 20. -/
theorem unterminated_request_never_success (rt : Runtime) (g : Globals) (conn : Conn)
    (addr : Str) (h : ¬ SingleTrailingCRLF addr) :
    ∃ delta, (handleGeminiRequest rt g conn addr).written = conn.written ++ delta ∧
      (delta = [] ∨ IsHeaderWithStatus 59 delta) ∧ ¬ IsHeaderWithStatus 20 delta := by
  cases hu : utf8ValidString addr with
  | true =>
    rw [handleGeminiRequest_unterminated rt g conn addr hu h]
    refine ⟨[], by simp, Or.inl rfl, ?_⟩
    rintro ⟨m, hm⟩
    exact geminiHeader_ne_nil 20 m hm.symm
  | false =>
    rw [handleGeminiRequest_invalid_utf8 rt g conn addr hu]
    rcases invalidRequest_written conn with hw | hw
    · refine ⟨[], by simp [hw], Or.inl rfl, ?_⟩
      rintro ⟨m, hm⟩
      exact geminiHeader_ne_nil 20 m hm.symm
    · refine ⟨_, hw, Or.inr ⟨_, rfl⟩, ?_⟩
      rintro ⟨m, hm⟩
      exact header59_not_header20 _ _ hm

/-- Witness of C2: a request line without its terminator. -/
theorem unterminated_request_never_success_witness :
    ¬ SingleTrailingCRLF (goStr "gemini://example.org/") ∧
    ∃ delta, (handleGeminiRequest (goRuntime []) exampleGlobals Conn.fresh
        (goStr "gemini://example.org/")).written = Conn.fresh.written ++ delta ∧
      (delta = [] ∨ IsHeaderWithStatus 59 delta) ∧ ¬ IsHeaderWithStatus 20 delta :=
  ⟨by decide, unterminated_request_never_success _ _ _ _ (by decide)⟩

/-- C3, as the code has it: a request that is valid UTF-8 and does not end in exactly one
CRLF leaves the connection untouched (no byte is written, no file is looked up), while a
request that is not valid UTF-8 is answered `59 Invalid Request` whether or not it is
terminated. -/
theorem unterminated_utf8_request_dropped (rt : Runtime) (g : Globals) (conn : Conn)
    (addr : Str) :
    (utf8ValidString addr = true → ¬ SingleTrailingCRLF addr →
      handleGeminiRequest rt g conn addr = conn) ∧
    (utf8ValidString addr = false →
      handleGeminiRequest rt g conn addr = invalidRequest conn) :=
  ⟨handleGeminiRequest_unterminated rt g conn addr,
   handleGeminiRequest_invalid_utf8 rt g conn addr⟩

/-- Witness of C3 as amended: an unterminated request line, and the unterminated byte
`0xFF`. -/
theorem unterminated_utf8_request_dropped_witness :
    handleGeminiRequest (goRuntime []) exampleGlobals Conn.fresh
        (goStr "gemini://example.org/") = Conn.fresh ∧
    handleGeminiRequest (goRuntime []) exampleGlobals Conn.fresh [0xFF] =
      invalidRequest Conn.fresh :=
  ⟨(unterminated_utf8_request_dropped _ _ _ _).1 (by decide) (by decide),
   (unterminated_utf8_request_dropped _ _ _ _).2 (by decide)⟩

/-- Counterexample to C3 as stated: the single byte `0xFF` contains no CRLF, yet the
handler writes the header `59 Invalid Request`. -/
theorem unterminated_request_answered :
    stringsIndex [0xFF] (goStr "\r\n") < 0 ∧ ¬ SingleTrailingCRLF [0xFF] ∧
    (handleGeminiRequest (goRuntime []) exampleGlobals Conn.fresh [0xFF]).written =
      goStr "59 Invalid Request\r\n" := by
  decide

/-- C4: a request that is valid UTF-8, ends in its only CRLF and has more than 1024 bytes
before it is answered exactly `59 Invalid Request` and nothing else happens, also when
it comes in through `handleGeminiConnection` and fits its buffer of 2048 bytes; with at
most 1024 bytes before the CRLF the length check lets the request line through to the
checks that follow. -/
theorem oversized_request_rejected (rt : Runtime) (g : Globals) (addr : Str)
    (hu : utf8ValidString addr = true) (hc : SingleTrailingCRLF addr) :
    (1024 < addr.length - 2 →
      handleGeminiRequest rt g Conn.fresh addr =
        { written := goStr "59 Invalid Request\r\n", writable := true, opened := [] }) ∧
    (1024 < addr.length - 2 → addr.length ≤ 2048 →
      handleGeminiConnection rt g Conn.fresh (some addr) =
        { written := goStr "59 Invalid Request\r\n", writable := true, opened := [] }) ∧
    (addr.length - 2 ≤ 1024 → ∀ conn,
      handleGeminiRequest rt g conn addr =
        handleRequestLine rt g conn (addr.take (addr.length - 2))) := by
  refine ⟨?_, ?_, ?_⟩
  · intro hl
    rw [handleGeminiRequest_terminated rt g _ addr hu hc, if_pos hl, invalidRequest_fresh]
  · intro hl hb
    unfold handleGeminiConnection
    simp only [List.take_of_length_le hb]
    rw [handleGeminiRequest_terminated rt g _ addr hu hc, if_pos hl, invalidRequest_fresh]
  · intro hl conn
    rw [handleGeminiRequest_terminated rt g _ addr hu hc, if_neg (by omega)]

/-- Witness of C4: 1025 letters `a` and CRLF are rejected, by the request handler and by
the connection handler; 1024 letters `a` and CRLF are passed on. -/
theorem oversized_request_rejected_witness :
    handleGeminiRequest (goRuntime []) exampleGlobals Conn.fresh
        (List.replicate 1025 97 ++ [13, 10]) =
      { written := goStr "59 Invalid Request\r\n", writable := true, opened := [] } ∧
    handleGeminiConnection (goRuntime []) exampleGlobals Conn.fresh
        (some (List.replicate 1025 97 ++ [13, 10])) =
      { written := goStr "59 Invalid Request\r\n", writable := true, opened := [] } ∧
    ∀ conn, handleGeminiRequest (goRuntime []) exampleGlobals conn
        (List.replicate 1024 97 ++ [13, 10]) =
      handleRequestLine (goRuntime []) exampleGlobals conn
        ((List.replicate 1024 97 ++ [13, 10]).take
          ((List.replicate 1024 97 ++ [13, 10]).length - 2)) := by
  have hu : ∀ n, utf8ValidString (List.replicate n 97 ++ [13, 10]) = true := by
    intro n
    apply utf8ValidString_ascii
    intro b hb
    rcases List.mem_append.1 hb with h | h
    · rw [List.eq_of_mem_replicate h]; decide
    · simp at h; omega
  have hc : ∀ n, SingleTrailingCRLF (List.replicate n 97 ++ [13, 10]) := by
    intro n
    apply singleTrailingCRLF_append
    intro h
    have := List.eq_of_mem_replicate h
    omega
  have hl : ∀ n, (List.replicate n 97 ++ [13, 10]).length - 2 = n := by
    intro n
    rw [List.length_append, List.length_replicate]
    rfl
  have h1 : 1024 < (List.replicate 1025 97 ++ [13, 10]).length - 2 := by
    rw [hl]; exact Nat.lt_succ_self 1024
  have h2 : (List.replicate 1024 97 ++ [13, 10]).length - 2 ≤ 1024 := by
    rw [hl]
  have h3 : (List.replicate 1025 97 ++ [13, 10]).length ≤ 2048 := by
    rw [List.length_append, List.length_replicate]; exact Nat.le_of_lt_succ (by decide)
  exact ⟨(oversized_request_rejected (goRuntime []) exampleGlobals _ (hu 1025) (hc 1025)).1 h1,
    (oversized_request_rejected (goRuntime []) exampleGlobals _ (hu 1025) (hc 1025)).2.1 h1 h3,
    (oversized_request_rejected (goRuntime []) exampleGlobals _ (hu 1024) (hc 1024)).2.2 h2⟩

/-- C5: a request that passes checks 1 to 6 and whose hostname, lower-cased, is not in the
host list is answered exactly `53 Invalid Host`, with no body and without any file being
looked up. -/
theorem unknown_host_refused (rt : Runtime) (g : Globals) (addr : Str) (u : URL)
    (hc : PassesStructureChecks rt addr u)
    (hs : rt.stringsToLower u.Scheme = goStr "gemini")
    (hh : rt.stringsToLower u.Hostname ∉ g.geminiHostList) :
    handleGeminiRequest rt g Conn.fresh addr =
      { written := goStr "53 Invalid Host\r\n", writable := true, opened := [] } := by
  have hv : (getGeminiHostPortValid rt g u.Hostname).2 = false := by
    have := (not_congr (hostPortLoop_valid rt g u.Hostname g.geminiHostList)).2 hh
    simpa [getGeminiHostPortValid] using this
  rw [handleGeminiRequest_checked rt g _ addr u hc, if_neg (by simp [hs]), if_pos hv]
  decide

/-- Witness of C5: `gemini://wrong.org/` against the host list of `example.org`. -/
theorem unknown_host_refused_witness :
    PassesStructureChecks (goRuntime []) (goStr "gemini://wrong.org/\r\n")
      { URL.zero with Scheme := goStr "gemini", Host := goStr "wrong.org", Path := goStr "/" } ∧
    handleGeminiRequest (goRuntime []) exampleGlobals Conn.fresh
        (goStr "gemini://wrong.org/\r\n") =
      { written := goStr "53 Invalid Host\r\n", writable := true, opened := [] } :=
  ⟨⟨⟨by decide, by decide, by decide, by decide, by decide, by decide, by decide⟩, by decide⟩,
   unknown_host_refused (goRuntime []) exampleGlobals (goStr "gemini://wrong.org/\r\n")
    { URL.zero with Scheme := goStr "gemini", Host := goStr "wrong.org", Path := goStr "/" }
    ⟨⟨by decide, by decide, by decide, by decide, by decide, by decide, by decide⟩, by decide⟩
    (by decide) (by decide)⟩

/-- C6: for a request that passes checks 1 to 7, let `p` be the port written in the URL, or
`1965` when the URL has none. If `p` is the port recorded for the hostname, the handler
does exactly what the content dispatch does on the resolved path and the host; otherwise
the complete response is `53 Invalid Port` and no file is looked up. -/
theorem port_check_decides_dispatch (rt : Runtime) (g : Globals) (addr : Str) (u : URL)
    (hc : PassesStructureChecks rt addr u)
    (hs : rt.stringsToLower u.Scheme = goStr "gemini")
    (hh : rt.stringsToLower u.Hostname ∈ g.geminiHostList) :
    (requestedPort u = (getGeminiHostPortValid rt g u.Hostname).1 →
      ∀ conn, handleGeminiRequest rt g conn addr =
        handleGeminiResponseBody rt g conn (u.ResolveReference u).Path u.Host) ∧
    (requestedPort u ≠ (getGeminiHostPortValid rt g u.Hostname).1 →
      handleGeminiRequest rt g Conn.fresh addr =
        { written := goStr "53 Invalid Port\r\n", writable := true, opened := [] }) := by
  have hv : ¬ (getGeminiHostPortValid rt g u.Hostname).2 = false := by
    have := (hostPortLoop_valid rt g u.Hostname g.geminiHostList).2 hh
    simpa [getGeminiHostPortValid] using this
  constructor
  · intro hp conn
    rw [handleGeminiRequest_checked rt g _ addr u hc, if_neg (by simp [hs]), if_neg hv,
      if_neg (by simp [hp])]
  · intro hp
    rw [handleGeminiRequest_checked rt g _ addr u hc, if_neg (by simp [hs]), if_neg hv,
      if_pos hp]
    decide

/-- Witness of C6: port 1965 written out reaches the dispatch, port 1966 is refused. -/
theorem port_check_decides_dispatch_witness :
    (∀ conn, handleGeminiRequest (goRuntime []) exampleGlobals conn
        (goStr "gemini://example.org:1965/\r\n") =
      handleGeminiResponseBody (goRuntime []) exampleGlobals conn
        (URL.ResolveReference
          { URL.zero with Scheme := goStr "gemini", Host := goStr "example.org:1965",
                          Path := goStr "/" }
          { URL.zero with Scheme := goStr "gemini", Host := goStr "example.org:1965",
                          Path := goStr "/" }).Path
        (goStr "example.org:1965")) ∧
    handleGeminiRequest (goRuntime []) exampleGlobals Conn.fresh
        (goStr "gemini://example.org:1966/\r\n") =
      { written := goStr "53 Invalid Port\r\n", writable := true, opened := [] } :=
  ⟨(port_check_decides_dispatch (goRuntime []) exampleGlobals
      (goStr "gemini://example.org:1965/\r\n")
      { URL.zero with Scheme := goStr "gemini", Host := goStr "example.org:1965",
                      Path := goStr "/" }
      ⟨⟨by decide, by decide, by decide, by decide, by decide, by decide, by decide⟩, by decide⟩
      (by decide) (by decide)).1 (by decide),
   (port_check_decides_dispatch (goRuntime []) exampleGlobals
      (goStr "gemini://example.org:1966/\r\n")
      { URL.zero with Scheme := goStr "gemini", Host := goStr "example.org:1966",
                      Path := goStr "/" }
      ⟨⟨by decide, by decide, by decide, by decide, by decide, by decide, by decide⟩, by decide⟩
      (by decide) (by decide)).2 (by decide)⟩

/-- C7: a request that passes all eight checks and whose normalised path has no extension
and is no enabled feed path is answered `20 text/gemini` followed by exactly the content
of the gemtext file of that path under the data root (`.gmi` first, else `.gemini`), and
`51 Page Not Found` with no body when neither file can be read. -/
theorem gemtext_page_served (rt : Runtime) (g : Globals) (addr : Str) (u : URL) (c : Str)
    (hc : PassesStructureChecks rt addr u)
    (hs : rt.stringsToLower u.Scheme = goStr "gemini")
    (hh : rt.stringsToLower u.Hostname ∈ g.geminiHostList)
    (hp : requestedPort u = (getGeminiHostPortValid rt g u.Hostname).1)
    (hext : (normalizeGeminiPath (u.ResolveReference u).Path).2 = [])
    (hrss : isRSSFeed g (normalizeGeminiPath (u.ResolveReference u).Path).1 = false) :
    (rt.osReadFile (g.configData.Gemini.DataPath ++ goStr "/" ++
          (normalizeGeminiPath (u.ResolveReference u).Path).1 ++ goStr ".gmi") = some c ∨
      (rt.osReadFile (g.configData.Gemini.DataPath ++ goStr "/" ++
          (normalizeGeminiPath (u.ResolveReference u).Path).1 ++ goStr ".gmi") = none ∧
       rt.osReadFile (g.configData.Gemini.DataPath ++ goStr "/" ++
          (normalizeGeminiPath (u.ResolveReference u).Path).1 ++ goStr ".gemini") = some c) →
      (handleGeminiRequest rt g Conn.fresh addr).written = goStr "20 text/gemini\r\n" ++ c) ∧
    (rt.osReadFile (g.configData.Gemini.DataPath ++ goStr "/" ++
          (normalizeGeminiPath (u.ResolveReference u).Path).1 ++ goStr ".gmi") = none ∧
      rt.osReadFile (g.configData.Gemini.DataPath ++ goStr "/" ++
          (normalizeGeminiPath (u.ResolveReference u).Path).1 ++ goStr ".gemini") = none →
      (handleGeminiRequest rt g Conn.fresh addr).written = goStr "51 Page Not Found\r\n") := by
  have hv : ¬ (getGeminiHostPortValid rt g u.Hostname).2 = false := by
    have := (hostPortLoop_valid rt g u.Hostname g.geminiHostList).2 hh
    simpa [getGeminiHostPortValid] using this
  have hd : handleGeminiRequest rt g Conn.fresh addr =
      handleGeminiResponseBody rt g Conn.fresh (u.ResolveReference u).Path u.Host := by
    rw [handleGeminiRequest_checked rt g _ addr u hc, if_neg (by simp [hs]), if_neg hv,
      if_neg (by simp [hp])]
  have hb := handleGeminiResponseBody_gemtext rt g Conn.fresh (u.ResolveReference u).Path
    u.Host rfl hext hrss
  rw [hd, hb]
  refine ⟨?_, ?_⟩
  · rintro (h | ⟨h1, h2⟩)
    · rw [gemtextLoop_gmi rt _ _ c h]; rfl
    · rw [gemtextLoop_gemini rt _ _ c h1 h2]; rfl
  · rintro ⟨h1, h2⟩
    rw [gemtextLoop_none rt _ _ h1 h2]; rfl

/-- Witness of C7: `gemini://example.org/` against the host list of `example.org` on port
1965 and a data root that holds `index.gmi`; and the same request against an empty root. -/
theorem gemtext_page_served_witness :
    (handleGeminiRequest (goRuntime [(goStr "gemini/index.gmi", goStr "# Hello\n")])
        exampleGlobals Conn.fresh (goStr "gemini://example.org/\r\n")).written =
      goStr "20 text/gemini\r\n" ++ goStr "# Hello\n" ∧
    (handleGeminiRequest (goRuntime []) exampleGlobals Conn.fresh
        (goStr "gemini://example.org/\r\n")).written = goStr "51 Page Not Found\r\n" :=
  ⟨(gemtext_page_served (goRuntime [(goStr "gemini/index.gmi", goStr "# Hello\n")])
      exampleGlobals (goStr "gemini://example.org/\r\n")
      { URL.zero with Scheme := goStr "gemini", Host := goStr "example.org", Path := goStr "/" }
      (goStr "# Hello\n")
      ⟨⟨by decide, by decide, by decide, by decide, by decide, by decide, by decide⟩, by decide⟩
      (by decide) (by decide) (by decide) (by decide) (by decide)).1 (Or.inl (by decide)),
   (gemtext_page_served (goRuntime []) exampleGlobals (goStr "gemini://example.org/\r\n")
      { URL.zero with Scheme := goStr "gemini", Host := goStr "example.org", Path := goStr "/" }
      []
      ⟨⟨by decide, by decide, by decide, by decide, by decide, by decide, by decide⟩, by decide⟩
      (by decide) (by decide) (by decide) (by decide) (by decide)).2
      ⟨by decide, by decide⟩⟩

/-- C8: for a path `p` whose last segment has no extension and which does not end in `/`,
the dispatch normalises `p`, `p/`, `p.gmi` and `p.gemini` to the same path with the empty
extension, hence looks them up at the same data path and answers them alike; the empty
path and `/` are both normalised to `/index`. -/
theorem equivalent_paths_normalise_alike (p : Str) (hext : filepathExt p = [])
    (hslash : p.getLast? ≠ some 47) :
    normalizeGeminiPath p = (if p = [] then goStr "/index" else p, []) ∧
    normalizeGeminiPath (p ++ goStr "/") = normalizeGeminiPath p ∧
    normalizeGeminiPath (p ++ goStr ".gmi") = normalizeGeminiPath p ∧
    normalizeGeminiPath (p ++ goStr ".gemini") = normalizeGeminiPath p ∧
    normalizeGeminiPath [] = (goStr "/index", []) ∧
    normalizeGeminiPath (goStr "/") = (goStr "/index", []) ∧
    ∀ (rt : Runtime) (g : Globals) (conn : Conn) (host : Str),
      handleGeminiResponseBody rt g conn (p ++ goStr "/") host =
        handleGeminiResponseBody rt g conn p host ∧
      handleGeminiResponseBody rt g conn (p ++ goStr ".gmi") host =
        handleGeminiResponseBody rt g conn p host ∧
      handleGeminiResponseBody rt g conn (p ++ goStr ".gemini") host =
        handleGeminiResponseBody rt g conn p host :=
  ⟨normalizeGeminiPath_plain p hext hslash,
   normalizeGeminiPath_slash p hext hslash,
   normalizeGeminiPath_gmi p hext hslash,
   normalizeGeminiPath_gemini p hext hslash,
   by decide, by decide,
   fun rt g conn host =>
    ⟨handleGeminiResponseBody_congr rt g conn _ _ host (normalizeGeminiPath_slash p hext hslash),
     handleGeminiResponseBody_congr rt g conn _ _ host (normalizeGeminiPath_gmi p hext hslash),
     handleGeminiResponseBody_congr rt g conn _ _ host
      (normalizeGeminiPath_gemini p hext hslash)⟩⟩

/-- Witness of C8: the path `/docs/guide`. -/
theorem equivalent_paths_normalise_alike_witness :
    normalizeGeminiPath (goStr "/docs/guide") = (goStr "/docs/guide", []) ∧
    normalizeGeminiPath (goStr "/docs/guide/") = (goStr "/docs/guide", []) ∧
    normalizeGeminiPath (goStr "/docs/guide.gmi") = (goStr "/docs/guide", []) ∧
    normalizeGeminiPath (goStr "/docs/guide.gemini") = (goStr "/docs/guide", []) :=
  have h := equivalent_paths_normalise_alike (goStr "/docs/guide") (by decide) (by decide)
  ⟨h.1, h.2.1.trans h.1, h.2.2.1.trans h.1, h.2.2.2.1.trans h.1⟩

/-- Supporting C9: when the onion address is in the host list, every hostname that
lower-cases to it is valid and resolves to the decimal text of the configured Tor virtual
port, whatever the listening location is; every hostname that lower-cases to another entry
of the host list, in particular every other entry of the host list that is in lower case,
is valid and resolves to the port of the listening location. -/
theorem onion_host_resolves_to_virtual_port (rt : Runtime) (g : Globals) (h : Str)
    (hmem : g.torAddress ∈ g.geminiHostList) :
    (rt.stringsToLower h = g.torAddress →
      getGeminiHostPortValid rt g h = (strconvItoa g.configData.Gemini.Tor.VirtualPort, true) ∧
      ∀ location, getGeminiHostPortValid rt (g.withListeningLocation location) h =
        (strconvItoa g.configData.Gemini.Tor.VirtualPort, true)) ∧
    (rt.stringsToLower h ∈ g.geminiHostList → rt.stringsToLower h ≠ g.torAddress →
      getGeminiHostPortValid rt g h = (listeningPort rt g, true)) ∧
    (h ∈ g.geminiHostList → rt.stringsToLower h = h → h ≠ g.torAddress →
      getGeminiHostPortValid rt g h = (listeningPort rt g, true)) := by
  refine ⟨?_, ?_, ?_⟩
  · intro ht
    have hm : rt.stringsToLower h ∈ g.geminiHostList := ht ▸ hmem
    refine ⟨?_, fun location => ?_⟩
    · unfold getGeminiHostPortValid
      rw [hostPortLoop_port rt g h _ hm, if_pos ht]
    · unfold getGeminiHostPortValid
      rw [hostPortLoop_port rt _ h _ (by exact hm), if_pos (by exact ht)]
      rfl
  · intro hm hne
    unfold getGeminiHostPortValid
    rw [hostPortLoop_port rt g h _ hm, if_neg hne]
  · intro hm hl hne
    unfold getGeminiHostPortValid
    rw [hostPortLoop_port rt g h _ (by rw [hl]; exact hm), if_neg (by rw [hl]; exact hne)]

/-- An instance of the resolution of listed hostnames: the onion address `abcd.onion` with
virtual port 1966 on a capsule for `example.org` that listens on port 1965. -/
theorem onion_host_resolves_to_virtual_port_witness :
    getGeminiHostPortValid (goRuntime []) onionGlobals (goStr "ABCD.onion") =
      (goStr "1966", true) ∧
    getGeminiHostPortValid (goRuntime []) onionGlobals (goStr "Example.ORG") =
      (goStr "1965", true) ∧
    getGeminiHostPortValid (goRuntime []) onionGlobals (goStr "example.org") =
      (listeningPort (goRuntime []) onionGlobals, true) :=
  ⟨((onion_host_resolves_to_virtual_port (goRuntime []) onionGlobals (goStr "ABCD.onion")
      (by decide)).1 (by decide)).1,
   (onion_host_resolves_to_virtual_port (goRuntime []) onionGlobals (goStr "Example.ORG")
      (by decide)).2.1 (by decide) (by decide),
   (onion_host_resolves_to_virtual_port (goRuntime []) onionGlobals (goStr "example.org")
      (by decide)).2.2 (by decide) (by decide) (by decide)⟩

/-- C9, the code at the failing input: the configuration names `Example.org`, the onion
address is `abcd.onion`, and the host list is the domain list `Example.org, abcd.onion`.
`Example.org` is a listed hostname other than the onion address, and the port of the
listening location is `1965`; but `getGeminiHostPortValid` lower-cases the hostname before
it compares it with the entries, so for `Example.org`, as for `example.org`, it finds no
entry and returns no port and `false`. The onion address resolves to the virtual port
`1966`. -/
theorem listed_mixed_case_host_gets_no_port :
    mixedCaseOnionGlobals.torAddress ≠ [] ∧
    mixedCaseOnionGlobals.torAddress ∈ mixedCaseOnionGlobals.geminiHostList ∧
    mixedCaseOnionGlobals.geminiHostList = getDomainList mixedCaseOnionGlobals ∧
    goStr "Example.org" ∈ mixedCaseOnionGlobals.geminiHostList ∧
    goStr "Example.org" ≠ mixedCaseOnionGlobals.torAddress ∧
    listeningPort (goRuntime []) mixedCaseOnionGlobals = goStr "1965" ∧
    getGeminiHostPortValid (goRuntime []) mixedCaseOnionGlobals (goStr "Example.org") =
      ([], false) ∧
    getGeminiHostPortValid (goRuntime []) mixedCaseOnionGlobals (goStr "example.org") =
      ([], false) ∧
    getGeminiHostPortValid (goRuntime []) mixedCaseOnionGlobals (goStr "ABCD.onion") =
      (goStr "1966", true) := by
  decide

/-- Supporting C10: when the pair on disk loads and the domain list repeats no name,
`loadTLSCert` returns the loaded pair and leaves the disk as it is exactly when the
subject alternative names have the same size and the same members as the domain list;
otherwise it makes a new certificate for the loaded private key with the domain list as
names, and writes the certificate file only, provided every name of the domain list is an
IA5String; with a name that is not, making the certificate is fatal. -/
theorem loaded_certificate_regenerated_iff (g : Globals) (rand : Entropy) (disk : Disk)
    (cert : TLSCertificate)
    (hload : tlsLoadX509KeyPair disk g.configData.Gemini.TLS.CertPath
      g.configData.Gemini.TLS.KeyPath = some cert)
    (hw : g.configData.Gemini.TLS.CertPath ∉ disk.readOnly)
    (hnd : (getDomainList g).Nodup) :
    (SameSizeAndMembers cert.Certificate.DNSNames (getDomainList g) →
      loadTLSCert g rand disk = Outcome.ok (cert, disk)) ∧
    (¬ SameSizeAndMembers cert.Certificate.DNSNames (getDomainList g) →
      (getDomainList g).all isIA5String = true →
      ∃ newCert disk1, loadTLSCert g rand disk =
          Outcome.ok ({ Certificate := newCert, PrivateKey := cert.PrivateKey }, disk1) ∧
        newCert.DNSNames = getDomainList g ∧
        disk1.writeLog = disk.writeLog ++ [g.configData.Gemini.TLS.CertPath] ∧
        disk1.read g.configData.Gemini.TLS.KeyPath =
          disk.read g.configData.Gemini.TLS.KeyPath) ∧
    (¬ SameSizeAndMembers cert.Certificate.DNSNames (getDomainList g) →
      (getDomainList g).all isIA5String = false →
      loadTLSCert g rand disk = Outcome.fatal (goStr "Unable to generate TLS certificate")) := by
  have h := loadTLSCert_loaded g rand disk cert hload hw
  have hiff := domainLoopRegenerates_nodup (getDomainList g) cert.Certificate.DNSNames
    (getDomainList_ne_nil g) hnd
  have hloop : ¬ SameSizeAndMembers cert.Certificate.DNSNames (getDomainList g) →
      domainLoopRegenerates (getDomainList g) cert.Certificate.DNSNames (getDomainList g) =
        true := by
    intro hs
    cases hl : domainLoopRegenerates (getDomainList g) cert.Certificate.DNSNames
      (getDomainList g) with
    | true => rfl
    | false => exact absurd (hiff.1 hl) hs
  exact ⟨fun hs => h.1 (hiff.2 hs), fun hs hia5 => h.2.1 (hloop hs) hia5,
    fun hs hia5 => h.2.2 (hloop hs) hia5⟩

/-- The scenario of C10: a certificate for `example.org` is kept while the domain list is
`example.org`, and replaced, with the same key, once the onion address joins the list. -/
theorem loaded_certificate_regenerated_iff_witness :
    loadTLSCert exampleGlobals { serial := 5, keyId := 9 }
        (diskWithCertificate [goStr "example.org"]) =
      Outcome.ok ({ Certificate := certificateFor [goStr "example.org"] 1,
                    PrivateKey := { kind := KeyKind.ed25519, id := 1 } },
                  diskWithCertificate [goStr "example.org"]) ∧
    ∃ newCert disk1, loadTLSCert onionGlobals { serial := 5, keyId := 9 }
          (diskWithCertificate [goStr "example.org"]) =
        Outcome.ok ({ Certificate := newCert,
                      PrivateKey := { kind := KeyKind.ed25519, id := 1 } }, disk1) ∧
      newCert.DNSNames = getDomainList onionGlobals ∧
      disk1.writeLog = [] ++ [goStr "tls/cert.pem"] ∧
      disk1.read (goStr "tls/cert.key") =
        (diskWithCertificate [goStr "example.org"]).read (goStr "tls/cert.key") :=
  ⟨(loaded_certificate_regenerated_iff exampleGlobals { serial := 5, keyId := 9 }
      (diskWithCertificate [goStr "example.org"])
      { Certificate := certificateFor [goStr "example.org"] 1,
        PrivateKey := { kind := KeyKind.ed25519, id := 1 } }
      (by decide) (by decide) (by decide)).1 (by decide),
   (loaded_certificate_regenerated_iff onionGlobals { serial := 5, keyId := 9 }
      (diskWithCertificate [goStr "example.org"])
      { Certificate := certificateFor [goStr "example.org"] 1,
        PrivateKey := { kind := KeyKind.ed25519, id := 1 } }
      (by decide) (by decide) (by decide)).2.1 (by decide) (by decide)⟩

/-- C10, the code at the failing input: the configuration names `example.org` and the
onion address, Tor is on, so the domain list is `example.org, abcd.onion, abcd.onion`. The
certificate on disk names `example.org, abcd.onion, old.example.org`: three names, among
them every name of the domain list, and one that is not in the domain list. The loop of
`loadTLSCert` compares the lengths only and keeps the certificate; nothing is written. -/
theorem stale_name_survives_repeated_domain :
    getDomainList listedOnionGlobals =
      [goStr "example.org", goStr "abcd.onion", goStr "abcd.onion"] ∧
    ¬ SameSizeAndMembers
      [goStr "example.org", goStr "abcd.onion", goStr "old.example.org"]
      (getDomainList listedOnionGlobals) ∧
    loadTLSCert listedOnionGlobals { serial := 5, keyId := 9 }
        (diskWithCertificate
          [goStr "example.org", goStr "abcd.onion", goStr "old.example.org"]) =
      Outcome.ok
        ({ Certificate := certificateFor
              [goStr "example.org", goStr "abcd.onion", goStr "old.example.org"] 1,
           PrivateKey := { kind := KeyKind.ed25519, id := 1 } },
         diskWithCertificate
          [goStr "example.org", goStr "abcd.onion", goStr "old.example.org"]) := by
  decide

/-- Supporting C11: when the domain list repeats no name, the certificate `loadTLSCert`
returns, in whichever branch, has subject alternative names of the same size and with the
same members as the domain list; when it is made anew its names are the domain list
itself. -/
theorem returned_certificate_names (g : Globals) (rand : Entropy) (disk disk1 : Disk)
    (cert : TLSCertificate) (h : loadTLSCert g rand disk = Outcome.ok (cert, disk1))
    (hnd : (getDomainList g).Nodup) :
    SameSizeAndMembers cert.Certificate.DNSNames (getDomainList g) := by
  rcases loadTLSCert_names g rand disk disk1 cert h with hn | ⟨_, hloop⟩
  · rw [hn]; exact sameSizeAndMembers_refl _
  · exact (domainLoopRegenerates_nodup _ _ (getDomainList_ne_nil g) hnd).1 hloop

/-- Instances of the names of the returned certificate: a new key and certificate on an
empty disk, and a certificate made anew for the loaded key. -/
theorem returned_certificate_names_witness :
    SameSizeAndMembers
      (certificateFor [goStr "example.org"] 9).DNSNames (getDomainList exampleGlobals) ∧
    loadTLSCert exampleGlobals { serial := 7, keyId := 9 }
        { files := [], readOnly := [], writeLog := [] } =
      Outcome.ok
        ({ Certificate := certificateFor [goStr "example.org"] 9,
           PrivateKey := { kind := KeyKind.ed25519, id := 9 } },
         { files := [(goStr "tls/cert.key",
                      FileContent.pkcs8KeyPEM { kind := KeyKind.ed25519, id := 9 }),
                     (goStr "tls/cert.pem",
                      FileContent.certificatePEM (certificateFor [goStr "example.org"] 9))]
           readOnly := []
           writeLog := [goStr "tls/cert.pem", goStr "tls/cert.key"] }) :=
  have h : loadTLSCert exampleGlobals { serial := 7, keyId := 9 }
        { files := [], readOnly := [], writeLog := [] } =
      Outcome.ok
        ({ Certificate := certificateFor [goStr "example.org"] 9,
           PrivateKey := { kind := KeyKind.ed25519, id := 9 } },
         { files := [(goStr "tls/cert.key",
                      FileContent.pkcs8KeyPEM { kind := KeyKind.ed25519, id := 9 }),
                     (goStr "tls/cert.pem",
                      FileContent.certificatePEM (certificateFor [goStr "example.org"] 9))]
           readOnly := []
           writeLog := [goStr "tls/cert.pem", goStr "tls/cert.key"] }) := by decide
  ⟨returned_certificate_names exampleGlobals { serial := 7, keyId := 9 }
      { files := [], readOnly := [], writeLog := [] } _ _ h (by decide), h⟩

/-- C11, the code at the failing input: the configuration names `example.org` twice, so
the domain list is `example.org, example.org`; the certificate on disk names `example.org`
and `old.example.org`. `loadTLSCert` goes through its loaded-and-kept branch and returns
that certificate, whose names are not the members of the domain list. -/
theorem kept_certificate_names_differ :
    getDomainList repeatedNameGlobals = [goStr "example.org", goStr "example.org"] ∧
    loadTLSCert repeatedNameGlobals { serial := 5, keyId := 9 }
        (diskWithCertificate [goStr "example.org", goStr "old.example.org"]) =
      Outcome.ok
        ({ Certificate := certificateFor [goStr "example.org", goStr "old.example.org"] 1,
           PrivateKey := { kind := KeyKind.ed25519, id := 1 } },
         diskWithCertificate [goStr "example.org", goStr "old.example.org"]) ∧
    ¬ SameSizeAndMembers
      (certificateFor [goStr "example.org", goStr "old.example.org"] 1).DNSNames
      (getDomainList repeatedNameGlobals) := by
  decide

/-- C12, as the code has it: `getDomainList` removes nothing, so its result contains no
hostname twice exactly when the configured names (`localhost` standing in for none) are
pairwise distinct and the onion address, when there is one, is not among them. -/
theorem domain_list_nodup_iff (g : Globals) :
    (getDomainList g).Nodup ↔
      (configuredNames g).Nodup ∧ (g.torAddress ≠ [] → g.torAddress ∉ configuredNames g) := by
  rw [getDomainList_eq]
  by_cases ht : g.torAddress = []
  · simp [ht]
  · simp only [ht, if_false, ne_eq, not_false_eq_true, true_implies]
    rw [List.nodup_append]
    simp only [List.nodup_cons, List.not_mem_nil, not_false_eq_true, List.nodup_nil, and_self,
      true_and, List.Disjoint, List.mem_singleton]
    constructor
    · rintro ⟨h1, h2⟩
      exact ⟨h1, fun hm => h2 hm rfl⟩
    · rintro ⟨h1, h2⟩
      exact ⟨h1, fun a ha he => h2 (he ▸ ha)⟩

/-- Counterexample to C12 as stated: a configuration that repeats a name, and one that
lists the onion address, both give a domain list with a hostname twice. -/
theorem domain_list_repeats :
    getDomainList repeatedNameGlobals = [goStr "example.org", goStr "example.org"] ∧
    ¬ (getDomainList repeatedNameGlobals).Nodup ∧
    getDomainList listedOnionGlobals =
      [goStr "example.org", goStr "abcd.onion", goStr "abcd.onion"] ∧
    ¬ (getDomainList listedOnionGlobals).Nodup := by
  decide

/-- C13: `getDomainList` returns the configured domain names in their order, or
`localhost` alone when none is configured, followed by the onion address as last element
exactly when the onion address is not empty; the result is never empty. -/
theorem domain_list_shape (g : Globals) :
    (g.configData.Gemini.DomainNames ≠ [] → g.torAddress ≠ [] →
      getDomainList g = g.configData.Gemini.DomainNames ++ [g.torAddress]) ∧
    (g.configData.Gemini.DomainNames ≠ [] → g.torAddress = [] →
      getDomainList g = g.configData.Gemini.DomainNames) ∧
    (g.configData.Gemini.DomainNames = [] → g.torAddress ≠ [] →
      getDomainList g = [goStr "localhost", g.torAddress]) ∧
    (g.configData.Gemini.DomainNames = [] → g.torAddress = [] →
      getDomainList g = [goStr "localhost"]) ∧
    getDomainList g ≠ [] := by
  refine ⟨?_, ?_, ?_, ?_, getDomainList_ne_nil g⟩ <;>
    · intro h1 h2
      rw [getDomainList_eq]
      simp [configuredNames, h1, h2]

/-- Witness of C13: the four cases, with and without names, with and without an onion
address. -/
theorem domain_list_shape_witness :
    getDomainList onionGlobals = [goStr "example.org"] ++ [goStr "abcd.onion"] ∧
    getDomainList exampleGlobals = [goStr "example.org"] ∧
    getDomainList { onionGlobals with configData := initConfig [] } =
      [goStr "localhost", goStr "abcd.onion"] ∧
    getDomainList { exampleGlobals with configData := initConfig [] } = [goStr "localhost"] :=
  ⟨(domain_list_shape onionGlobals).1 (by decide) (by decide),
   (domain_list_shape exampleGlobals).2.1 (by decide) (by decide),
   (domain_list_shape { onionGlobals with configData := initConfig [] }).2.2.1
      (by decide) (by decide),
   (domain_list_shape { exampleGlobals with configData := initConfig [] }).2.2.2.1
      (by decide) (by decide)⟩

/-- C14: for a public key of 32 bytes, `encodeHiddenServicePublicKey` is the lower-cased
base32 text of the 35 bytes made of the key, the first two bytes of the SHA3-256 digest of
`.onion checksum`, the key and `0x03`, and the byte `0x03`, followed by `.onion`. It is a
function of the key, and it always has 62 characters: 56 from `a` to `z` and `2` to `7`,
none of them `=`, then `.onion`. -/
theorem onion_address_shape (c : Crypto) (pk : Str) (hlen : pk.length = 32)
    (hb : ∀ b ∈ pk, b < 256) :
    encodeHiddenServicePublicKey c pk =
      asciiToLower (base32Encode
        (pk ++ (c.sha3Sum256 (goStr ".onion checksum" ++ pk ++ [0x03])).take 2 ++ [0x03]))
        ++ goStr ".onion" ∧
    (encodeHiddenServicePublicKey c pk).length = 62 ∧
    (∀ ch ∈ (encodeHiddenServicePublicKey c pk).take 56, IsBase32Lower ch) ∧
    (encodeHiddenServicePublicKey c pk).drop 56 = goStr ".onion" := by
  have hsum := c.sha3_length (goStr ".onion checksum" ++ (pk ++ [0x03]))
  have hbytes : ∀ b ∈ pk ++ ((c.sha3Sum256 (goStr ".onion checksum" ++ (pk ++ [0x03]))).take 2
      ++ [0x03]), b < 256 := by
    intro b hm
    rcases List.mem_append.1 hm with h | h
    · exact hb b h
    · rcases List.mem_append.1 h with h | h
      · exact c.sha3_bytes _ b (List.mem_of_mem_take h)
      · simp at h; omega
  have hl : (pk ++ ((c.sha3Sum256 (goStr ".onion checksum" ++ (pk ++ [0x03]))).take 2
      ++ [0x03])).length = 5 * 7 := by
    simp only [List.length_append, List.length_take, hsum, hlen, List.length_cons,
      List.length_nil]
    rfl
  obtain ⟨h1, h2⟩ := base32Encode_blocks 7 _ hl hbytes
  have h56 : (asciiToLower (base32Encode (pk ++
      ((c.sha3Sum256 (goStr ".onion checksum" ++ (pk ++ [0x03]))).take 2 ++ [0x03])))).length
      = 56 := by
    rw [asciiToLower_length, h1]
  refine ⟨?_, ?_, ?_, ?_⟩
  · simp [encodeHiddenServicePublicKey]
  · unfold encodeHiddenServicePublicKey
    simp only [List.length_append, h56, goStr_onion, List.length_cons, List.length_nil]
  · unfold encodeHiddenServicePublicKey
    simp only
    rw [List.take_append_eq_append_take, h56, List.take_of_length_le (by rw [h56]),
      Nat.sub_self, List.take_zero, List.append_nil]
    exact h2
  · unfold encodeHiddenServicePublicKey
    simp only
    rw [List.drop_append_eq_append_drop, h56, List.drop_of_length_le (by rw [h56]),
      Nat.sub_self, List.drop_zero, List.nil_append]

/-- Witness of C14: the key made of the bytes 0 to 31. -/
theorem onion_address_shape_witness :
    (List.range 32).length = 32 ∧
    (encodeHiddenServicePublicKey standInCrypto (List.range 32)).length = 62 ∧
    (encodeHiddenServicePublicKey standInCrypto (List.range 32)).drop 56 = goStr ".onion" :=
  have h := onion_address_shape standInCrypto (List.range 32) (by decide) (by decide)
  ⟨by decide, h.2.1, h.2.2.2⟩

/-- C15: for a key `k` of 64 bytes, `createHiddenServiceV3PrivKeyFile` writes the tag
`== ed25519v1-secret: type0 ==`, three zero bytes, `k` and a line feed, 97 bytes in all;
the bytes 32 to 95 of that content are `k`, and `getHiddenServiceV3PrivKey` on it returns
the base64 text of `k`, which is also what it returned when it generated `k`. -/
theorem key_file_round_trip (c : Crypto) (g : Globals) (disk : ByteDisk) (k : Str)
    (hk : k.length = 64)
    (hw : g.configData.Tor.HiddenServicePrivateKeyPath ∉ disk.readOnly) :
    (createHiddenServiceV3PrivKeyFile g disk k).read
        g.configData.Tor.HiddenServicePrivateKeyPath =
      some (goStr "== ed25519v1-secret: type0 ==" ++ [0, 0, 0] ++ k ++ [0x0a]) ∧
    (goStr "== ed25519v1-secret: type0 ==" ++ [0, 0, 0] ++ k ++ [0x0a]).length = 97 ∧
    ((goStr "== ed25519v1-secret: type0 ==" ++ [0, 0, 0] ++ k ++ [0x0a]).take 96).drop 32
      = k ∧
    (∀ seed, getHiddenServiceV3PrivKey c seed g (createHiddenServiceV3PrivKeyFile g disk k) =
      Outcome.ok (base64Encode k, g, createHiddenServiceV3PrivKeyFile g disk k)) ∧
    (∀ seed, seed.length = 32 →
      disk.read g.configData.Tor.HiddenServicePrivateKeyPath = none →
      ∃ key g1 disk1,
        getHiddenServiceV3PrivKey c (some seed) g disk = Outcome.ok (key, g1, disk1) ∧
        ∀ seed1, getHiddenServiceV3PrivKey c seed1 g1 disk1 = Outcome.ok (key, g1, disk1)) := by
  have hc : goStr "== ed25519v1-secret: type0 ==" ++ [0, 0, 0] ++ k ++ [0x0a] =
      keyFileContent k := by
    simp [keyFileContent]
  have hread : ∀ k1 : Str, (createHiddenServiceV3PrivKeyFile g disk k1).read
      g.configData.Tor.HiddenServicePrivateKeyPath = some (keyFileContent k1) := by
    intro k1
    obtain ⟨disk1, h1⟩ := ByteDisk.write_of_writable disk
      g.configData.Tor.HiddenServicePrivateKeyPath (keyFileContent k1) hw
    unfold createHiddenServiceV3PrivKeyFile
    rw [h1]
    exact ByteDisk.read_write disk disk1 _ _ h1
  have hload : ∀ (k1 : Str), k1.length = 64 → ∀ (g1 : Globals) seed,
      g1.configData = g.configData →
      getHiddenServiceV3PrivKey c seed g1 (createHiddenServiceV3PrivKeyFile g disk k1) =
        Outcome.ok (base64Encode k1, g1, createHiddenServiceV3PrivKeyFile g disk k1) := by
    intro k1 hk1 g1 seed hg
    have := getHiddenServiceV3PrivKey_loaded c seed g1
      (createHiddenServiceV3PrivKeyFile g disk k1) (keyFileContent k1)
      (by rw [hg]; exact hread k1) (by rw [keyFileContent_length]; omega)
    rw [this, keyFileContent_key k1 hk1]
  refine ⟨by rw [hc]; exact hread k, by rw [hc, keyFileContent_length]; omega,
    by rw [hc]; exact keyFileContent_key k hk, fun seed => hload k hk g seed rfl, ?_⟩
  intro seed hs hnone
  have hgen := generateHiddenServiceV3PubPrivKey_eq c seed hs
  have hlen : (((c.sha512Sum512 seed).set 0 ((c.sha512Sum512 seed).getD 0 0 &&& 248)).set 31
      ((((c.sha512Sum512 seed).getD 31 0) &&& 63) ||| 64)).length = 64 := by
    simp [c.sha512_length seed]
  refine ⟨base64Encode (((c.sha512Sum512 seed).set 0
        ((c.sha512Sum512 seed).getD 0 0 &&& 248)).set 31
        ((((c.sha512Sum512 seed).getD 31 0) &&& 63) ||| 64)),
    { g with torAddress := encodeHiddenServicePublicKey c (c.ed25519PublicKey seed) },
    createHiddenServiceV3PrivKeyFile g disk (((c.sha512Sum512 seed).set 0
        ((c.sha512Sum512 seed).getD 0 0 &&& 248)).set 31
        ((((c.sha512Sum512 seed).getD 31 0) &&& 63) ||| 64)), ?_, ?_⟩
  · rw [getHiddenServiceV3PrivKey_generated c (some seed) g disk (Or.inl hnone), hgen]
    rfl
  · intro seed1
    exact hload _ hlen _ seed1 rfl

/-- Witness of C15: the key of 64 bytes 1, written to an empty disk and read back. -/
theorem key_file_round_trip_witness :
    (List.replicate 64 1).length = 64 ∧
    getHiddenServiceV3PrivKey standInCrypto none exampleGlobals
        (createHiddenServiceV3PrivKeyFile exampleGlobals emptyByteDisk (List.replicate 64 1)) =
      Outcome.ok (base64Encode (List.replicate 64 1), exampleGlobals,
        createHiddenServiceV3PrivKeyFile exampleGlobals emptyByteDisk (List.replicate 64 1)) :=
  ⟨by decide,
   (key_file_round_trip standInCrypto exampleGlobals emptyByteDisk (List.replicate 64 1)
      (by decide) (by decide)).2.2.2.1 none⟩

/-- C17, the code at the failing input: no key file exists and the key file cannot be
written. `getHiddenServiceV3PrivKey` makes a key, the write fails,
`createHiddenServiceV3PrivKeyFile` returns without a word, and the function returns the
key that was not persisted, with the onion address set; the disk is as it was. -/
theorem key_write_failure_not_fatal (c : Crypto) (seed : Str) (g : Globals) :
    ∃ pubKey privKey,
      generateHiddenServiceV3PubPrivKey c (some seed) = Outcome.ok (pubKey, privKey) ∧
      getHiddenServiceV3PrivKey c (some seed) g
          { files := [], readOnly := [g.configData.Tor.HiddenServicePrivateKeyPath],
            writeLog := [] } =
        Outcome.ok (base64Encode privKey,
          { g with torAddress := encodeHiddenServicePublicKey c pubKey },
          { files := [], readOnly := [g.configData.Tor.HiddenServicePrivateKeyPath],
            writeLog := [] }) := by
  refine ⟨_, _, rfl, ?_⟩
  rw [getHiddenServiceV3PrivKey_generated c (some seed) g
    { files := [], readOnly := [g.configData.Tor.HiddenServicePrivateKeyPath], writeLog := [] }
    (Or.inl rfl)]
  simp [generateHiddenServiceV3PubPrivKey, Outcome.andThen, createHiddenServiceV3PrivKeyFile,
    ByteDisk.write]

/-- C18: for a location string `s` of one line, if `s` begins, letter case aside, with
`tcp:`, `udp:` or `unix:`, `parseLocation` returns that protocol name in lower case and what
follows the colon; otherwise it returns `tcp` and `s`. The protocol it returns is always
one of `tcp`, `udp`, `unix`. -/
theorem parseLocation_protocol_and_rest (s : Str) (hline : 10 ∉ s) :
    (∀ pre rest, s = pre ++ goStr ":" ++ rest →
      (asciiToLower pre = goStr "tcp" ∨ asciiToLower pre = goStr "udp" ∨
        asciiToLower pre = goStr "unix") →
      parseLocation s = (asciiToLower pre, rest)) ∧
    ((¬ ∃ pre rest, s = pre ++ goStr ":" ++ rest ∧
        (asciiToLower pre = goStr "tcp" ∨ asciiToLower pre = goStr "udp" ∨
          asciiToLower pre = goStr "unix")) →
      parseLocation s = (goStr "tcp", s)) ∧
    ((parseLocation s).1 = goStr "tcp" ∨ (parseLocation s).1 = goStr "udp" ∨
      (parseLocation s).1 = goStr "unix") := by
  have hcolon : goStr ":" = [58] := by decide
  refine ⟨?_, ?_, parseLocation_protocol s⟩
  · intro pre rest hs hname
    have hs1 : s = pre ++ 58 :: rest := by rw [hs, hcolon]; simp
    rcases hname with h | h | h
    · exact parseLocation_of_three s pre rest _ hline hs1 rfl (Or.inl h)
    · exact parseLocation_of_three s pre rest _ hline hs1 rfl (Or.inr h)
    · rw [h]; exact parseLocation_of_unix s pre rest hline hs1 h
  · intro hno
    apply parseLocation_plain s hline
    rintro ⟨pre, rest, hs, hname⟩
    exact hno ⟨pre, rest, by rw [hs, hcolon]; simp, hname⟩

/-- Witness of C18: `UNIX:/run/capsule.sock` and `127.0.0.1:1965`. -/
theorem parseLocation_protocol_and_rest_witness :
    parseLocation (goStr "UNIX:/run/capsule.sock") = (goStr "unix", goStr "/run/capsule.sock") ∧
    parseLocation (goStr "127.0.0.1:1965") = (goStr "tcp", goStr "127.0.0.1:1965") :=
  ⟨(parseLocation_protocol_and_rest (goStr "UNIX:/run/capsule.sock") (by decide)).1
      (goStr "UNIX") (goStr "/run/capsule.sock") (by decide) (Or.inr (Or.inr (by decide))),
   (parseLocation_protocol_and_rest (goStr "127.0.0.1:1965") (by decide)).2.1 (by
      rintro ⟨pre, rest, hs, hname⟩
      have hl : pre.length = 3 ∨ pre.length = 4 := by
        rcases hname with h | h | h
        · left; rw [← asciiToLower_length, h]; decide
        · left; rw [← asciiToLower_length, h]; decide
        · right; rw [← asciiToLower_length, h]; decide
      have h3 : (goStr "127.0.0.1:1965").getD pre.length 0 = 58 := by
        rw [hs, show goStr ":" = [58] by decide, List.append_assoc,
          List.getD_eq_getElem?_getD, List.getElem?_append_right (le_refl _)]
        simp
      rcases hl with h | h <;> rw [h] at h3 <;> revert h3 <;> decide)⟩

/-- C19: for a seed of 32 bytes, the expanded key `generateHiddenServiceV3PubPrivKey`
returns is the SHA-512 digest `h` of the seed with bits 0 to 2 of `h[0]` cleared, bit 7 of
`h[31]` cleared and bit 6 of `h[31]` set, and every other bit as in `h`; so its first byte
is a multiple of 8 and its thirty-second byte lies between 64 and 127. -/
theorem expanded_key_clamped (c : Crypto) (seed : Str) (hs : seed.length = 32) :
    ∃ key, generateHiddenServiceV3PubPrivKey c (some seed) =
        Outcome.ok (c.ed25519PublicKey seed, key) ∧
      key.length = 64 ∧
      (∀ i j, i < 64 → j < 8 → Nat.testBit (key.getD i 0) j =
        if i = 0 ∧ j < 3 then false
        else if i = 31 ∧ j = 7 then false
        else if i = 31 ∧ j = 6 then true
        else Nat.testBit ((c.sha512Sum512 seed).getD i 0) j) ∧
      (∀ b ∈ key, b < 256) ∧
      key.getD 0 0 % 8 = 0 ∧ 64 ≤ key.getD 31 0 ∧ key.getD 31 0 ≤ 127 := by
  have hl := c.sha512_length seed
  have hb := c.sha512_bytes seed
  have h0 : (c.sha512Sum512 seed).getD 0 0 < 256 := hb _ (getD_mem _ 0 (by omega))
  have h31 : (c.sha512Sum512 seed).getD 31 0 < 256 := hb _ (getD_mem _ 31 (by omega))
  refine ⟨_, generateHiddenServiceV3PubPrivKey_eq c seed hs, by simp [hl], ?_, ?_, ?_, ?_, ?_⟩
  · intro i j hi hj
    rw [clamped_getD _ _ _ hl i]
    by_cases hi31 : i = 31
    · rw [if_pos hi31, bits_last _ j hj]
      have hi0 : ¬ i = 0 := by omega
      by_cases h7 : j = 7
      · simp [h7, hi31]
      · by_cases h6 : j = 6
        · simp [h6, hi31]
        · simp [h7, h6, hi31]
    · by_cases hi0 : i = 0
      · rw [if_neg hi31, if_pos hi0, bits_first _ j hj]
        by_cases h3 : j < 3
        · simp [h3, hi0]
        · simp [h3, hi0]
      · rw [if_neg hi31, if_neg hi0]
        simp [hi31, hi0]
  · intro b hm
    rcases List.mem_or_eq_of_mem_set hm with h | h
    · rcases List.mem_or_eq_of_mem_set h with h | h
      · exact hb b h
      · rw [h]; exact (clamp_first _ h0).2
    · rw [h]; have := (clamp_last _ h31).2; omega
  · rw [clamped_getD _ _ _ hl 0]
    simp only [if_true]
    exact (clamp_first _ h0).1
  · rw [clamped_getD _ _ _ hl 31]
    exact (clamp_last _ h31).1
  · rw [clamped_getD _ _ _ hl 31]
    exact (clamp_last _ h31).2

/-- Witness of C19: the seed of 32 zero bytes. -/
theorem expanded_key_clamped_witness :
    (List.replicate 32 0).length = 32 ∧
    ∃ key, generateHiddenServiceV3PubPrivKey standInCrypto (some (List.replicate 32 0)) =
        Outcome.ok (standInCrypto.ed25519PublicKey (List.replicate 32 0), key) ∧
      key.length = 64 ∧ key.getD 0 0 % 8 = 0 ∧ 64 ≤ key.getD 31 0 ∧ key.getD 31 0 ≤ 127 :=
  ⟨by decide,
   match expanded_key_clamped standInCrypto (List.replicate 32 0) (by decide) with
   | ⟨key, h1, h2, _, _, h5, h6, h7⟩ => ⟨key, h1, h2, h5, h6, h7⟩⟩

/-- C21, the code at the failing input: the key file exists and is empty, and there is no
certificate file. `pem.Decode` finds no block and returns `nil`; `getTLSKey` reads the
field `Bytes` of that block, which is a run-time panic. Neither `getTLSKey` nor
`loadTLSCert` returns: no key is generated and nothing is written. -/
theorem empty_key_file_panics :
    diskWithEmptyKeyFile.read exampleGlobals.configData.Gemini.TLS.KeyPath =
      some (FileContent.noPEM []) ∧
    getTLSKey exampleGlobals diskWithEmptyKeyFile = Outcome.panic ∧
    loadTLSCert exampleGlobals { serial := 5, keyId := 9 } diskWithEmptyKeyFile =
      Outcome.panic := by
  decide

/-- Supporting C21: when the pair on disk does not load, both files can be written and
every name of the domain list is an IA5String, a key file that is missing or holds a PEM
block other than a PKCS8 key makes `getTLSKey` report no key, and `loadTLSCert` then
returns a certificate for a new ed25519 key and writes the certificate and the key, in
this order; a key file that holds a PKCS8 key of a supported kind makes `loadTLSCert`
return a certificate for that key and write the certificate only. With a name that is not
an IA5String, making the certificate is fatal in both cases. -/
theorem key_file_decides_regeneration (g : Globals) (rand : Entropy) (disk : Disk)
    (hload : tlsLoadX509KeyPair disk g.configData.Gemini.TLS.CertPath
      g.configData.Gemini.TLS.KeyPath = none)
    (hwc : g.configData.Gemini.TLS.CertPath ∉ disk.readOnly)
    (hwk : g.configData.Gemini.TLS.KeyPath ∉ disk.readOnly) :
    ((disk.read g.configData.Gemini.TLS.KeyPath = none ∨
        (∃ cert, disk.read g.configData.Gemini.TLS.KeyPath =
          some (FileContent.certificatePEM cert)) ∨
        (∃ key, disk.read g.configData.Gemini.TLS.KeyPath =
          some (FileContent.legacyKeyPEM key)) ∨
        (∃ bytes, disk.read g.configData.Gemini.TLS.KeyPath =
          some (FileContent.otherPEM bytes))) →
      getTLSKey g disk = Outcome.ok none ∧
      ((getDomainList g).all isIA5String = true →
        ∃ cert disk1, loadTLSCert g rand disk =
            Outcome.ok ({ Certificate := cert,
                          PrivateKey := { kind := KeyKind.ed25519, id := rand.keyId } },
              disk1) ∧
          cert.DNSNames = getDomainList g ∧
          cert.PublicKey = { kind := KeyKind.ed25519, id := rand.keyId } ∧
          disk1.writeLog = disk.writeLog ++
            [g.configData.Gemini.TLS.CertPath, g.configData.Gemini.TLS.KeyPath]) ∧
      ((getDomainList g).all isIA5String = false →
        loadTLSCert g rand disk =
          Outcome.fatal (goStr "Unable to generate TLS certificate"))) ∧
    (∀ key, disk.read g.configData.Gemini.TLS.KeyPath = some (FileContent.pkcs8KeyPEM key) →
      key.kind ≠ KeyKind.other →
      getTLSKey g disk = Outcome.ok (some key) ∧
      ((getDomainList g).all isIA5String = true →
        ∃ cert disk1, loadTLSCert g rand disk =
            Outcome.ok ({ Certificate := cert, PrivateKey := key }, disk1) ∧
          cert.DNSNames = getDomainList g ∧
          cert.PublicKey = key ∧
          disk1.writeLog = disk.writeLog ++ [g.configData.Gemini.TLS.CertPath]) ∧
      ((getDomainList g).all isIA5String = false →
        loadTLSCert g rand disk =
          Outcome.fatal (goStr "Unable to generate TLS certificate"))) := by
  constructor
  · intro hstate
    have hk := getTLSKey_no_key g disk hstate
    exact ⟨hk, fun hia5 => (loadTLSCert_unloadable g rand disk hload hwc hwk hia5).1 hk,
      fun hia5 => loadTLSCert_unloadable_not_ia5 g rand disk none hload hk hia5⟩
  · intro key hread hkind
    have hk : getTLSKey g disk = Outcome.ok (some key) := by
      unfold getTLSKey
      rw [hread]
    exact ⟨hk,
      fun hia5 => (loadTLSCert_unloadable g rand disk hload hwc hwk hia5).2 key hk hkind,
      fun hia5 => loadTLSCert_unloadable_not_ia5 g rand disk (some key) hload hk hia5⟩

/-- An instance of the regeneration without a key file: an empty disk, on which neither
file exists. -/
theorem key_file_decides_regeneration_witness :
    tlsLoadX509KeyPair { files := [], readOnly := [], writeLog := [] }
        exampleGlobals.configData.Gemini.TLS.CertPath
        exampleGlobals.configData.Gemini.TLS.KeyPath = none ∧
    getTLSKey exampleGlobals { files := [], readOnly := [], writeLog := [] } =
      Outcome.ok none ∧
    ∃ cert disk1, loadTLSCert exampleGlobals { serial := 5, keyId := 9 }
          { files := [], readOnly := [], writeLog := [] } =
        Outcome.ok ({ Certificate := cert,
                      PrivateKey := { kind := KeyKind.ed25519, id := 9 } }, disk1) ∧
      cert.DNSNames = getDomainList exampleGlobals ∧
      cert.PublicKey = { kind := KeyKind.ed25519, id := 9 } ∧
      disk1.writeLog = [] ++ [exampleGlobals.configData.Gemini.TLS.CertPath,
        exampleGlobals.configData.Gemini.TLS.KeyPath] :=
  have h := (key_file_decides_regeneration exampleGlobals { serial := 5, keyId := 9 }
    { files := [], readOnly := [], writeLog := [] } (by decide) (by decide) (by decide)).1
    (Or.inl (by decide))
  ⟨by decide, h.1, h.2.1 (by decide)⟩

/-- An instance of the fatal error of the certificate generation: the configuration names
`exämple.org`, which is not an IA5String, and neither file exists. -/
theorem non_ia5_name_is_fatal :
    isIA5String (goStr "exämple.org") = false ∧
    loadTLSCert
        { configData := initConfig [goStr "exämple.org"]
          torAddress := []
          geminiHostList := [goStr "exämple.org"] }
        { serial := 5, keyId := 9 } { files := [], readOnly := [], writeLog := [] } =
      Outcome.fatal (goStr "Unable to generate TLS certificate") := by
  decide

/-- C22, the code at the failing input: the configuration names `Example.org`, and the
host list is the domain list, in which the name keeps its capital letter.
`getGeminiHostPortValid` lower-cases the request host and compares it with the entry as it
is, so `example.org`, `EXAMPLE.ORG` and `Example.org` itself are all reported as not valid,
and the request `gemini://example.org/` is answered `53 Invalid Host`. -/
theorem mixed_case_name_never_matches :
    getDomainList mixedCaseGlobals = [goStr "Example.org"] ∧
    mixedCaseGlobals.geminiHostList = getDomainList mixedCaseGlobals ∧
    getGeminiHostPortValid (goRuntime []) mixedCaseGlobals (goStr "example.org") =
      ([], false) ∧
    getGeminiHostPortValid (goRuntime []) mixedCaseGlobals (goStr "EXAMPLE.ORG") =
      ([], false) ∧
    getGeminiHostPortValid (goRuntime []) mixedCaseGlobals (goStr "Example.org") =
      ([], false) ∧
    handleGeminiRequest (goRuntime []) mixedCaseGlobals Conn.fresh
        (goStr "gemini://example.org/\r\n") =
      { written := goStr "53 Invalid Host\r\n", writable := true, opened := [] } := by
  decide

/-- Supporting C22: no request hostname at all is reported as valid for the name configured
as `Example.org`, since a lower-cased hostname has no capital `E`. -/
theorem mixed_case_name_unreachable (h : Str) :
    getGeminiHostPortValid (goRuntime []) mixedCaseGlobals h = ([], false) := by
  have hne : asciiToLower h ≠ goStr "Example.org" := by
    have hE : goStr "Example.org" = 69 :: goStr "xample.org" := by decide
    rw [hE]
    cases h with
    | nil => simp [asciiToLower]
    | cons c cs =>
      intro heq
      simp only [asciiToLower, List.map_cons, List.cons.injEq] at heq
      have h1 := heq.1
      split at h1 <;> omega
  have hl : mixedCaseGlobals.geminiHostList = [goStr "Example.org"] := rfl
  have hrt : (goRuntime []).stringsToLower h = asciiToLower h := rfl
  unfold getGeminiHostPortValid
  rw [hl, hostPortLoop, if_neg (by rw [hrt]; exact hne), hostPortLoop]

/-- Supporting C22: a request hostname that equals, letter case aside, an
entry of the host list that is written in lower case is reported as valid. -/
theorem lower_case_name_accepted (rt : Runtime) (g : Globals) (d h : Str)
    (hd : d ∈ g.geminiHostList) (hlow : rt.stringsToLower d = d)
    (hcase : rt.stringsToLower h = rt.stringsToLower d) :
    (getGeminiHostPortValid rt g h).2 = true := by
  unfold getGeminiHostPortValid
  rw [hostPortLoop_valid, hcase, hlow]
  exact hd

/-- An instance of the acceptance of a lower-case name: `EXAMPLE.ORG` against the host
list of `example.org`. -/
theorem lower_case_name_accepted_witness :
    goStr "example.org" ∈ exampleGlobals.geminiHostList ∧
    (getGeminiHostPortValid (goRuntime []) exampleGlobals (goStr "EXAMPLE.ORG")).2 = true :=
  ⟨by decide,
   lower_case_name_accepted (goRuntime []) exampleGlobals (goStr "example.org")
    (goStr "EXAMPLE.ORG") (by decide) (by decide) (by decide)⟩

/-- C23, the code at the failing input: the link line `=>  gemini://example.org/ Home`,
with two spaces after `=>`. The path is the URL. The text is cut from the line at the
offset 3 plus the length of the URL, which is the last byte of the URL, so the text is
`/ Home` and not `Home`. On `=>`, two tabs and the same URL without a label the text is
`/` and not empty. -/
theorem link_text_keeps_url_tail :
    parseGemtextLine (goStr "=>  gemini://example.org/ Home") false =
      { lineType := GEMTEXT_LINK
        path := goStr "gemini://example.org/"
        text := goStr "/ Home"
        altText := []
        level := 0 } ∧
    parseGemtextLine (goStr "=>\t\tgemini://example.org/") false =
      { lineType := GEMTEXT_LINK
        path := goStr "gemini://example.org/"
        text := goStr "/"
        altText := []
        level := 0 } := by
  decide

/-- Supporting C23: on `=>`, one space or tab, a URL `u` of bytes below
`RuneSelf` without white space, and a rest of such bytes that is empty or starts with
white space, `parseGemtextLine` returns a link with the path `u` and, as its text, the
rest with the white space at both ends removed. -/
theorem single_separator_link_parsed (sep : Nat) (u rest : Str)
    (hsep : sep = 32 ∨ sep = 9) (hu : u ≠ [])
    (hua : ∀ c ∈ u, c < 128 ∧ unicodeIsSpace c = false) (hra : ∀ c ∈ rest, c < 128)
    (hr0 : ∀ w, rest.head? = some w → unicodeIsSpace w = true) :
    parseGemtextLine (goStr "=>" ++ sep :: (u ++ rest)) false =
      { lineType := GEMTEXT_LINK
        path := u
        text := stringsTrimSpace rest
        altText := []
        level := 0 } := by
  have h := parseGemtextLine_link sep [] u rest hsep (fun w hw => by simp at hw) hu hua hra hr0
  rw [List.nil_append, List.drop_left] at h
  exact h

/-- An instance of the link line with one separator: `=> gemini://example.org/  Home `. -/
theorem single_separator_link_parsed_witness :
    goStr "=>" ++ 32 :: (goStr "gemini://example.org/" ++ goStr "  Home ") =
      goStr "=> gemini://example.org/  Home " ∧
    stringsTrimSpace (goStr "  Home ") = goStr "Home" ∧
    parseGemtextLine (goStr "=>" ++ 32 :: (goStr "gemini://example.org/" ++ goStr "  Home "))
        false =
      { lineType := GEMTEXT_LINK
        path := goStr "gemini://example.org/"
        text := stringsTrimSpace (goStr "  Home ")
        altText := []
        level := 0 } :=
  ⟨by decide, by decide,
   single_separator_link_parsed 32 (goStr "gemini://example.org/") (goStr "  Home ")
    (Or.inl rfl) (by decide) (by decide) (by decide) (by decide)⟩

end Bergelmir
